import Mathlib

/-!
# IP over SeaStar: a shallow embedding of the Linux driver

The definitions below follow `drivers/net/seastar/main.c`, `firmware.c`,
`firmware.h` and `seastar.h`.  Machine integers are natural numbers reduced
modulo `2^w` where the C code stores them in a `w`-bit object.  The host is
the little-endian x86-64 node the adapter is attached to, so a 16-bit field
is stored low byte first.  Pointers into `pending_table` are table indices
(`NULL` is `none`), a socket buffer is its byte array together with the
`data`/`len` cursor.
-/

namespace SeaStar

/-! ## Constants (`seastar.h`, `firmware.h`, and the kernel's `if_ether.h`, `netdevice.h`) -/

def ETH_ALEN : Nat := 6
def ETH_HLEN : Nat := 14
def ETH_P_IP : Nat := 0x0800
def NETDEV_TX_BUSY : Nat := 0x10
def SIZEOF_SSHDR : Nat := 4
def NUM_TX_PENDINGS : Nat := 64
def NUM_RX_PENDINGS : Nat := 64
def NUM_PENDINGS : Nat := NUM_TX_PENDINGS + NUM_RX_PENDINGS
def NUM_EQ_ENTRIES : Nat := 1024
def NUM_SKBS : Nat := 64
def COMMAND_Q_LENGTH : Nat := 63
def RESULT_Q_LENGTH : Nat := 2
def COMMAND_INIT : Nat := 0
def COMMAND_MARK_ALIVE : Nat := 1
def COMMAND_INIT_EQCB : Nat := 2
def COMMAND_IP_TX : Nat := 13
def FW_PENDING_SIZE : Nat := 32
def FW_EQCB_SIZE : Nat := 32
def SEASTAR_HOST_BASE : Nat := 0xFFFA5000
def SKB_PAD : Nat := 16 - SIZEOF_SSHDR

/-! ## Machine integers -/

def u8 (x : Nat) : Nat := x % 2 ^ 8
def u16 (x : Nat) : Nat := x % 2 ^ 16
def u32 (x : Nat) : Nat := x % 2 ^ 32
def u64 (x : Nat) : Nat := x % 2 ^ 64

/-- The C expression `~v` of type `int`, seen as a 32-bit pattern. -/
def not32 (v : Nat) : Nat := 2 ^ 32 - 1 - v % 2 ^ 32

/-- The macro `ROUNDUP4(val)` of `seastar.h`, `((val + (4-1)) & ~(4-1))`,
on an `unsigned int`. -/
def ROUNDUP4 (val : Nat) : Nat := u32 (val + (4 - 1)) &&& not32 (4 - 1)

/-- Byte swap of a 16-bit value: `ntohs` and `htons` on a little-endian host. -/
def ntohs (x : Nat) : Nat := (x % 256) * 256 + (x / 256) % 256

def htons (x : Nat) : Nat := ntohs x

/-! ## Socket buffers -/

/-- A linear `struct sk_buff`: the buffer starts at virtual address
`head_addr`, holds the bytes `head`, and the frame is the `len` bytes from
offset `data`; `protocol`, `ip_summed` and `mac_header` are the fields of
that name (`mac_header` as an offset into the buffer). -/
structure sk_buff where
  head_addr : Nat
  head : List Nat
  data : Nat
  len : Nat
  protocol : Nat := 0
  ip_summed : Nat := 0
  mac_header : Nat := 0
deriving DecidableEq, Repr

/-- The byte at `skb->data[off]`, read into a `uint8_t`. -/
def byte_at (skb : sk_buff) (off : Nat) : Nat := skb.head.getD (skb.data + off) 0 % 256

/-- The frame itself: the `len` bytes from `skb->data`. -/
def frame_bytes (skb : sk_buff) : List Nat := (skb.head.drop skb.data).take skb.len

/-- The bytes that follow the 14-byte link-layer header of a frame. -/
def eth_payload (skb : sk_buff) : List Nat := (frame_bytes skb).drop ETH_HLEN

/-- The bytes that follow the 4-byte wire header of a frame. -/
def ss_payload (skb : sk_buff) : List Nat := (frame_bytes skb).drop SIZEOF_SSHDR

/-- Field `h_dest[i]` of the `struct ethhdr` at `skb->data`. -/
def h_dest (skb : sk_buff) (i : Nat) : Nat := byte_at skb i

/-- Field `h_source[i]` of the `struct ethhdr` at `skb->data`. -/
def h_source (skb : sk_buff) (i : Nat) : Nat := byte_at skb (ETH_ALEN + i)

/-- Field `h_proto` of the `struct ethhdr` at `skb->data`, as the host reads it. -/
def h_proto (skb : sk_buff) : Nat := byte_at skb 12 + 256 * byte_at skb 13

/-- Field `length` of the `struct sshdr` at `skb->data`, as the host reads it. -/
def sshdr_length (skb : sk_buff) : Nat := byte_at skb 0 + 256 * byte_at skb 1

/-- Field `lo_macs` of the `struct sshdr` at `skb->data`. -/
def sshdr_lo_macs (skb : sk_buff) : Nat := byte_at skb 2

/-- Field `hdr_type` of the `struct sshdr` at `skb->data`. -/
def sshdr_hdr_type (skb : sk_buff) : Nat := byte_at skb 3

/-- Store of one byte at `skb->data[off]`. -/
def poke (skb : sk_buff) (off : Nat) (v : Nat) : sk_buff :=
  { skb with head := skb.head.set (skb.data + off) (v % 256) }

/-- Store of a 16-bit value at `skb->data[off]`, low byte first. -/
def poke16 (skb : sk_buff) (off : Nat) (v : Nat) : sk_buff :=
  poke (poke skb off (v % 256)) (off + 1) (v / 256 % 256)

/-- The call `memset(skb->data + off, v, n)`. -/
def memset (skb : sk_buff) (off : Nat) (v : Nat) : Nat → sk_buff
  | 0 => skb
  | n + 1 => poke (memset skb off v n) (off + n) v

/-- The call `memcpy(skb->data + off, src, n)`. -/
def memcpy (skb : sk_buff) (off : Nat) (src : List Nat) : Nat → sk_buff
  | 0 => skb
  | n + 1 => poke (memcpy skb off src n) (off + n) (src.getD n 0)

/-- Kernel `skb_pull`: `NULL` when `n > skb->len`, else the frame loses its
first `n` bytes. -/
def skb_pull (skb : sk_buff) (n : Nat) : Option sk_buff :=
  if n > skb.len then none
  else some { skb with data := skb.data + n, len := skb.len - n }

/-- Kernel `skb_push`: the frame grows by `n` bytes of headroom; a push past
the start of the buffer is a kernel panic (`none`). -/
def skb_push (skb : sk_buff) (n : Nat) : Option sk_buff :=
  if skb.data < n then none
  else some { skb with data := skb.data - n, len := skb.len + n }

/-- Kernel `skb_put`: the frame grows by `n` bytes at its tail; a put past
the end of the buffer is a kernel panic (`none`). -/
def skb_put (skb : sk_buff) (n : Nat) : Option sk_buff :=
  if skb.data + skb.len + n > skb.head.length then none
  else some { skb with len := skb.len + n }

/-! ## Packet framer (`main.c`, `eth2ss`, `ss2eth`, `ss_rx_skb`) -/

/-- Line 156 of `main.c`: `qb_len = (ROUNDUP4(skb->len) >> 2) - 1`, a `uint32_t`. -/
def qb_len_of (len : Nat) : Nat := u32 ((ROUNDUP4 len >>> 2) + 2 ^ 32 - 1)

/-- Line 160 of `main.c`: `(source_lo_mac << 4) | dest_lo_mac`, stored in the
`uint8_t` field `lo_macs`. -/
def pack_lo_macs (source_lo_mac dest_lo_mac : Nat) : Nat :=
  u8 ((source_lo_mac <<< 4) ||| dest_lo_mac)

/-- Line 175 of `main.c`: `sshdr->lo_macs >> 4`. -/
def unpack_source (lo_macs : Nat) : Nat := u8 (lo_macs >>> 4)

/-- Line 176 of `main.c`: `sshdr->lo_macs & 0xF`. -/
def unpack_dest (lo_macs : Nat) : Nat := u8 (lo_macs &&& 0xF)

/-- Line 298 of `main.c`: `len = (qb_len + 1) << 2`, a `uint32_t`. -/
def rx_len_of (qb_len : Nat) : Nat := u32 ((qb_len + 1) <<< 2)

/-- The function `eth2ss` of `main.c`.  The result is the returned `int`
and the buffer afterwards; `none` is the `NULL` dereference that follows a
failed `skb_pull`. -/
def eth2ss (skb : sk_buff) : Option (Int × sk_buff) :=
  let source_lo_mac := h_source skb 5
  let dest_lo_mac := h_dest skb 5
  if h_proto skb ≠ ntohs ETH_P_IP then some (-1, skb)
  else if dest_lo_mac = 0xFF then some (-1, skb)
  else if (source_lo_mac &&& not32 0xF) ≠ 0 ∨ (dest_lo_mac &&& not32 0xF) ≠ 0 then
    some (-1, skb)
  else
    match skb_pull skb (ETH_HLEN - SIZEOF_SSHDR) with
    | none => none
    | some skb1 =>
      let qb_len := qb_len_of skb1.len
      let skb2 := poke16 skb1 0 (u16 qb_len)
      let skb3 := poke skb2 2 (pack_lo_macs source_lo_mac dest_lo_mac)
      let skb4 := poke skb3 3 (2 <<< 5)
      some (0, skb4)

/-- The `int` that `eth2ss` returns. -/
def eth2ss_ret (skb : sk_buff) : Option Int := (eth2ss skb).map Prod.fst

/-- The network-layer type of a frame: the 16-bit value that bytes 12 and 13
of the link-layer header hold in network byte order. -/
def eth_type (skb : sk_buff) : Nat := 256 * byte_at skb 12 + byte_at skb 13

/-- The function `ss2eth` of `main.c`; `dev_addr` is the six-byte array
`skb->dev->dev_addr` the two `memcpy` calls read.  The result is the buffer
afterwards (the function always returns 0); `none` is the panic of a
`skb_push` without headroom. -/
def ss2eth (dev_addr : List Nat) (skb : sk_buff) : Option sk_buff :=
  let source_lo_mac := unpack_source (sshdr_lo_macs skb)
  let dest_lo_mac := unpack_dest (sshdr_lo_macs skb)
  match skb_push skb (ETH_HLEN - SIZEOF_SSHDR) with
  | none => none
  | some skb1 =>
    let skb2 := memset skb1 0 0x00 ETH_HLEN
    let skb3 := poke16 skb2 12 (htons ETH_P_IP)
    let skb4 := memcpy skb3 ETH_ALEN dev_addr ETH_ALEN
    let skb5 := memcpy skb4 0 dev_addr ETH_ALEN
    let skb6 := poke skb5 (ETH_ALEN + 5) source_lo_mac
    let skb7 := poke skb6 5 dest_lo_mac
    some skb7

/-- The three tests of `eth2ss` pass exactly on IPv4 frames between hosts 0..15. -/
def eth2ss_passes (skb : sk_buff) : Prop :=
  eth_type skb = 0x0800 ∧ h_source skb 5 ≤ 0xF ∧ h_dest skb 5 ≤ 0xF

instance (skb : sk_buff) : Decidable (eth2ss_passes skb) := by
  unfold eth2ss_passes; infer_instance

/-- The buffer `eth2ss` leaves behind on acceptance. -/
def wire_of (skb : sk_buff) : sk_buff :=
  let skb1 : sk_buff := { skb with data := skb.data + (ETH_HLEN - SIZEOF_SSHDR),
                                   len := skb.len - (ETH_HLEN - SIZEOF_SSHDR) }
  poke (poke (poke16 skb1 0 (u16 (qb_len_of skb1.len))) 2
    (pack_lo_macs (h_source skb 5) (h_dest skb 5))) 3 (2 <<< 5)

/-! ## Driver state (`seastar.h`, `firmware.h`) -/

/-- A `kmalloc`ed buffer: its address and its bytes. -/
structure kbuf where
  addr : Nat
  bytes : List Nat
deriving DecidableEq, Repr

/-- The record `struct pending`; `next` is a pointer into `pending_table`,
held as the index of the slot it points to. -/
structure pending where
  skb : Option sk_buff
  next : Option Nat
  bounce : Option kbuf
deriving DecidableEq, Repr

/-- A `struct pending` of all-zero bytes. -/
def pending_zero : pending := { skb := none, next := none, bounce := none }

/-- The record `struct mailbox`; a command is its 64 bytes. -/
structure mailbox where
  commandq : List (List Nat)
  resultq : List Nat
  resultq_read : Nat
  resultq_write : Nat
  commandq_write : Nat
  commandq_read : Nat
deriving DecidableEq, Repr

/-- The record `struct ss_priv`, without the lock and the PCI handle.
`skb_table_phys` and `mailbox` are the adapter memory the two pointers of
that name designate. -/
structure ss_priv where
  host_region_phys : Nat
  skb_table_phys : List Nat
  skb_table_virt : List (Option sk_buff)
  pending_table : List pending
  tx_pending_free_list : Option Nat
  eq : List Nat
  eq_read : Nat
  mailbox : mailbox
  mailbox_cached_read : Nat
  mailbox_cached_write : Nat
deriving DecidableEq, Repr

/-- The counters of `netdev->stats` the driver touches (`unsigned long`). -/
structure net_device_stats where
  tx_errors : Nat
  tx_packets : Nat
  tx_bytes : Nat
  rx_packets : Nat
  rx_bytes : Nat
deriving DecidableEq, Repr

/-- The `struct net_device` as the driver sees it: address, MTU, the
stopped bit of the transmit queue, the counters and the private area.  The
last three fields record what was handed to the kernel: buffers given to
`dev_kfree_skb_any`, to `kfree`, and frames given to `netif_rx`, latest
first. -/
structure net_device where
  dev_addr : List Nat
  mtu : Nat
  queue_stopped : Bool
  stats : net_device_stats
  priv : ss_priv
  freed_skbs : List sk_buff
  kfreed : List kbuf
  rx_delivered : List sk_buff
deriving DecidableEq, Repr

/-! ## Transmit pending pool (`main.c`, lines 51-80 and 480-483) -/

/-- The slot `ssp->pending_table[i]`. -/
def get_pending (ssp : ss_priv) (i : Nat) : pending := ssp.pending_table.getD i pending_zero

/-- An assignment to fields of `ssp->pending_table[i]`. -/
def upd_pending (ssp : ss_priv) (i : Nat) (f : pending → pending) : ss_priv :=
  { ssp with pending_table := ssp.pending_table.set i (f (get_pending ssp i)) }

/-- The function `alloc_tx_pending` of `main.c`: the returned pointer and
the state afterwards. -/
def alloc_tx_pending (ssp : ss_priv) : Option Nat × ss_priv :=
  match ssp.tx_pending_free_list with
  | none => (none, ssp)
  | some p =>
    let ssp1 := { ssp with tx_pending_free_list := (get_pending ssp p).next }
    (some p, upd_pending ssp1 p (fun e => { e with next := none }))

/-- The function `free_tx_pending` of `main.c`. -/
def free_tx_pending (ssp : ss_priv) (p : Nat) : ss_priv :=
  let ssp1 := upd_pending ssp p (fun e => { e with next := ssp.tx_pending_free_list })
  { ssp1 with tx_pending_free_list := some p }

/-- The function `pending_to_index` of `main.c`: the pointer difference,
returned as a `uint16_t`. -/
def pending_to_index (_ssp : ss_priv) (p : Nat) : Nat := u16 p

/-- The function `index_to_pending` of `main.c`: `&ssp->pending_table[index]`. -/
def index_to_pending (_ssp : ss_priv) (index : Nat) : Nat := index

/-- The private area right after `memset(ssp, 0, sizeof(*ssp))` and the
assignments of lines 476-481 in `ss_probe`; `seastar_skb` and `mbox` are the
contents of the adapter memory behind the two pointers. -/
def ss_priv_zero (seastar_skb : List Nat) (mbox : mailbox) : ss_priv :=
  { host_region_phys := 0,
    skb_table_phys := seastar_skb,
    skb_table_virt := List.replicate NUM_SKBS none,
    pending_table := List.replicate NUM_PENDINGS pending_zero,
    tx_pending_free_list := none,
    eq := List.replicate NUM_EQ_ENTRIES 0,
    eq_read := 0,
    mailbox := mbox,
    mailbox_cached_read := 0,
    mailbox_cached_write := 0 }

/-- The first `n` rounds of the loop of lines 482-483 in `ss_probe`:
`for (i = 0; i < n; i++) free_tx_pending(ssp, index_to_pending(ssp, i))`. -/
def build_free_list : Nat → ss_priv → ss_priv
  | 0, ssp => ssp
  | n + 1, ssp =>
    let ssp1 := build_free_list n ssp
    free_tx_pending ssp1 (index_to_pending ssp1 n)

/-- The private area as `ss_probe` leaves it before it asks for the
interrupt: zeroed, with the transmit pending free list built. -/
def ss_probe_priv (seastar_skb : List Nat) (mbox : mailbox) : ss_priv :=
  build_free_list NUM_TX_PENDINGS (ss_priv_zero seastar_skb mbox)

/-- The slots on the free list, head first: at most `fuel` steps along the
`next` pointers from `p`. -/
def free_list_from (tbl : List pending) : Nat → Option Nat → List Nat
  | 0, _ => []
  | _ + 1, none => []
  | fuel + 1, some p => p :: free_list_from tbl fuel (tbl.getD p pending_zero).next

/-- The slots on the transmit pending free list, head first. -/
def tx_free_list (ssp : ss_priv) : List Nat :=
  free_list_from ssp.pending_table NUM_PENDINGS ssp.tx_pending_free_list

/-- The list `l` is the free list from `head`: following `next` from `head`
visits exactly `l` and then reaches `NULL`. -/
def is_chain (tbl : List pending) : Option Nat → List Nat → Prop
  | head, [] => head = none
  | head, p :: l => head = some p ∧ is_chain tbl (tbl.getD p pending_zero).next l

instance is_chain_decidable (tbl : List pending) :
    (head : Option Nat) → (l : List Nat) → Decidable (is_chain tbl head l)
  | head, [] => inferInstanceAs (Decidable (head = none))
  | head, p :: l =>
    @instDecidableAnd _ _ (inferInstanceAs (Decidable (head = some p)))
      (is_chain_decidable tbl (tbl.getD p pending_zero).next l)

/-- A call of the pool from outside. -/
inductive pool_op where
  | alloc : pool_op
  | free : Nat → pool_op
deriving DecidableEq, Repr

/-- The pool together with the bookkeeping of a run: the slots allocated
and not yet released, the number of successful allocations and the number
of releases. -/
structure pool_run where
  ssp : ss_priv
  live : List Nat
  allocs : Nat
  frees : Nat
deriving DecidableEq, Repr

/-- One call.  A release of a slot that is not allocated is outside the
discipline (`none`). -/
def pool_step (st : pool_run) : pool_op → Option pool_run
  | pool_op.alloc =>
    match alloc_tx_pending st.ssp with
    | (none, ssp1) => some { st with ssp := ssp1 }
    | (some p, ssp1) =>
      some { st with ssp := ssp1, live := p :: st.live, allocs := st.allocs + 1 }
  | pool_op.free p =>
    if p ∈ st.live then
      some { st with ssp := free_tx_pending st.ssp p, live := st.live.erase p,
                     frees := st.frees + 1 }
    else none

/-- A sequence of calls, `none` as soon as one is outside the discipline. -/
def pool_exec (st : pool_run) : List pool_op → Option pool_run
  | [] => some st
  | op :: ops =>
    match pool_step st op with
    | none => none
    | some st1 => pool_exec st1 ops

/-- The run that starts right after `ss_probe` has built the free list. -/
def pool_start (seastar_skb : List Nat) (mbox : mailbox) : pool_run :=
  { ssp := ss_probe_priv seastar_skb mbox, live := [], allocs := 0, frees := 0 }

/-- The invariant of the pool: some list `l` without repetition is the free
list, it holds exactly the slots below `NUM_TX_PENDINGS` that are not
allocated, the allocated slots are distinct and below `NUM_TX_PENDINGS`, the
table has its `NUM_PENDINGS` entries, and the counts add up. -/
def pool_inv (st : pool_run) (l : List Nat) : Prop :=
  is_chain st.ssp.pending_table st.ssp.tx_pending_free_list l
  ∧ l.Nodup ∧ st.live.Nodup
  ∧ (∀ i, i ∈ l ↔ (i < NUM_TX_PENDINGS ∧ i ∉ st.live))
  ∧ (∀ i ∈ st.live, i < NUM_TX_PENDINGS)
  ∧ st.ssp.pending_table.length = NUM_PENDINGS
  ∧ l.length + st.live.length = NUM_TX_PENDINGS
  ∧ st.allocs = st.frees + st.live.length

/-- The results of `n` consecutive calls of `alloc_tx_pending`, first call
first, and the state afterwards. -/
def alloc_n : Nat → ss_priv → List (Option Nat) × ss_priv
  | 0, ssp => ([], ssp)
  | n + 1, ssp =>
    let r := alloc_tx_pending ssp
    let rest := alloc_n n r.2
    (r.1 :: rest.1, rest.2)

/-- Lines 181-191 of `main.c`: the link-layer header `ss2eth` writes at
`skb->data` once the push is done, for the host-identifier byte `lo_macs`. -/
def eth_hdr_fill (dev_addr : List Nat) (lo_macs : Nat) (skb1 : sk_buff) : sk_buff :=
  poke (poke (memcpy (memcpy (poke16 (memset skb1 0 0x00 ETH_HLEN) 12 (htons ETH_P_IP))
    ETH_ALEN dev_addr ETH_ALEN) 0 dev_addr ETH_ALEN) (ETH_ALEN + 5)
    (unpack_source lo_macs)) 5 (unpack_dest lo_macs)

/-- The buffer `ss2eth` leaves behind when there is headroom for the push. -/
def eth_of (dev_addr : List Nat) (skb : sk_buff) : sk_buff :=
  eth_hdr_fill dev_addr (sshdr_lo_macs skb)
    { skb with data := skb.data - (ETH_HLEN - SIZEOF_SSHDR),
               len := skb.len + (ETH_HLEN - SIZEOF_SSHDR) }

/-! ## Receive path (`main.c`, `ss_rx_skb`) -/

def CHECKSUM_UNNECESSARY : Nat := 1

/-- Field `length` of the `struct sshdr` at `skb_tail_pointer(skb)`, the byte
after the frame, as the host reads it. -/
def tail_sshdr_length (skb : sk_buff) : Nat :=
  byte_at skb skb.len + 256 * byte_at skb (skb.len + 1)

/-- The function `ss_rx_skb` of `main.c`: the device afterwards, with the
frame handed to `netif_rx` at the head of `rx_delivered`; `none` is a panic
of `skb_put` or `skb_push`. -/
def ss_rx_skb (netdev : net_device) (skb : sk_buff) : Option net_device :=
  let qb_len := tail_sshdr_length skb
  let len := rx_len_of qb_len
  match skb_put skb len with
  | none => none
  | some skb1 =>
    match ss2eth netdev.dev_addr skb1 with
    | none => none
    | some skb2 =>
      let skb3 : sk_buff := { skb2 with protocol := htons ETH_P_IP,
                                        ip_summed := CHECKSUM_UNNECESSARY,
                                        mac_header := skb2.data }
      let skb4 := (skb_pull skb3 ETH_HLEN).getD skb3
      some { netdev with
        stats := { netdev.stats with
          rx_packets := u64 (netdev.stats.rx_packets + 1),
          rx_bytes := u64 (netdev.stats.rx_bytes + len) },
        rx_delivered := skb4 :: netdev.rx_delivered }

/-! ## Command channel (`firmware.c`, `seastar_cmd`, `seastar_ip_tx_cmd`) -/

/-- The `n` bytes of `v`, low byte first. -/
def le_bytes (v : Nat) : Nat → List Nat
  | 0 => []
  | n + 1 => (v % 256) :: le_bytes (v / 256) n

/-- The 18 bytes of a packed `struct command_ip_tx` whose fields other than
the five named ones are zero. -/
def command_ip_tx_bytes (op nid length address pending_index : Nat) : List Nat :=
  [u8 op, 0] ++ le_bytes (u16 nid) 2 ++ le_bytes (u16 length) 2 ++ [0, 0]
    ++ le_bytes (u64 address) 8 ++ le_bytes (u16 pending_index) 2

/-- What the firmware does while `seastar_cmd` runs: `fw_reads` are the
values the host finds in `mbox->commandq_read` at its successive polls (once
they are used up the cursor stays where the mailbox has it), and
`fw_result` is the result the firmware posts while the host waits for one
(`none`: it never posts). -/
structure fw_env where
  fw_reads : List Nat
  fw_result : Option Nat
deriving DecidableEq, Repr

/-- The loop of lines 84-85 of `firmware.c`,
`while (next_write == cached_read) cached_read = mbox->commandq_read`.  The
arguments are the pending polls, the value now in `mbox->commandq_read` and
the cached copy; the result is the cached copy, the value in the mailbox and
the polls left.  `none`: the loop never ends. -/
def wait_cmd_slot (next_write : Nat) : List Nat → Nat → Nat → Option (Nat × Nat × List Nat)
  | [], cur, cached =>
    if next_write ≠ cached then some (cached, cur, [])
    else if next_write = cur then none
    else some (cur, cur, [])
  | r :: rs, cur, cached =>
    if next_write ≠ cached then some (cached, cur, r :: rs)
    else wait_cmd_slot next_write rs r r

/-- The function `seastar_cmd` of `firmware.c`.  `cmd` is the 64 bytes at
the address the caller passes.  The result is the returned value, the state
and what is left of the firmware's moves; `none`: one of the two loops never
ends.  A result the firmware posts goes to `resultq[tail]` and moves
`resultq_write` one slot on. -/
def seastar_cmd (env : fw_env) (ssp : ss_priv) (cmd : List Nat) (wait_for_result : Bool) :
    Option (Nat × ss_priv × fw_env) :=
  let mbox := ssp.mailbox
  let mbox1 : mailbox := { mbox with commandq := mbox.commandq.set ssp.mailbox_cached_write cmd }
  let next_write :=
    if u32 (ssp.mailbox_cached_write + 1) = COMMAND_Q_LENGTH then 0
    else u32 (ssp.mailbox_cached_write + 1)
  match wait_cmd_slot next_write env.fw_reads mbox1.commandq_read ssp.mailbox_cached_read with
  | none => none
  | some (cached, cur, reads) =>
    let mbox2 : mailbox := { mbox1 with commandq_read := cur, commandq_write := next_write }
    let ssp1 : ss_priv := { ssp with mailbox := mbox2, mailbox_cached_read := cached,
                                     mailbox_cached_write := next_write }
    let env1 : fw_env := { env with fw_reads := reads }
    if !wait_for_result then some (0, ssp1, env1)
    else
      let tail := mbox2.resultq_read
      let next_read := if tail ≥ RESULT_Q_LENGTH - 1 then 0 else tail + 1
      if tail ≠ mbox2.resultq_write then
        some (mbox2.resultq.getD tail 0,
          { ssp1 with mailbox := { mbox2 with resultq_read := next_read } }, env1)
      else
        match env.fw_result with
        | none => none
        | some v =>
          let mbox3 : mailbox :=
            { mbox2 with
              resultq := List.set mbox2.resultq tail (u32 v)
              resultq_write := (tail + 1) % RESULT_Q_LENGTH }
          some (u32 v, { ssp1 with mailbox := { mbox3 with resultq_read := next_read } },
            { env1 with fw_result := none })

/-- The function `seastar_ip_tx_cmd` of `firmware.c`.  `stack_tail` is what
lies behind the 18 bytes of `tx_cmd` in the caller's frame: `seastar_cmd`
copies a 64-byte `struct command` from the address of `tx_cmd`. -/
def seastar_ip_tx_cmd (env : fw_env) (stack_tail : List Nat) (ssp : ss_priv)
    (nid length address pending_index : Nat) : Option (ss_priv × fw_env) :=
  let tx_cmd := command_ip_tx_bytes COMMAND_IP_TX nid length address pending_index
  match seastar_cmd env ssp ((tx_cmd ++ stack_tail).take 64) false with
  | none => none
  | some (_, ssp1, env1) => some (ssp1, env1)

/-! ## Transmit path (`main.c`, `ss_tx`) -/

/-- Byte swap of a 32-bit value: `ntohl` on a little-endian host. -/
def ntohl (x : Nat) : Nat :=
  (x % 256) * 2 ^ 24 + (x / 2 ^ 8 % 256) * 2 ^ 16 + (x / 2 ^ 16 % 256) * 2 ^ 8 + x / 2 ^ 24 % 256

/-- The value the host reads from `*(uint32_t *)eh->h_dest`. -/
def h_dest32 (skb : sk_buff) : Nat :=
  h_dest skb 0 + 2 ^ 8 * h_dest skb 1 + 2 ^ 16 * h_dest skb 2 + 2 ^ 24 * h_dest skb 3

/-- What `ss_tx` gets from outside: the address `kmalloc` returns for the
bounce buffer (`none`: the allocation fails), the bytes behind `tx_cmd` on
the stack, the firmware's moves, and the kernel's `virt_to_phys`. -/
structure tx_env where
  kmalloc : Option Nat
  stack_tail : List Nat
  fw : fw_env
  virt_to_phys : Nat → Nat

/-- The outcome of `ss_tx`: the returned value, the frame buffer as the call
leaves it, and the device. -/
structure tx_result where
  ret : Nat
  skb : sk_buff
  netdev : net_device
deriving DecidableEq, Repr

/-- Lines 248-260 of `main.c`: the transmit command is submitted for the
message at virtual address `msg`, the counters move, `ss_tx` returns 0. -/
def tx_submit (env : tx_env) (netdev : net_device) (ssp : ss_priv) (skb : sk_buff)
    (dest_nid msg p : Nat) : Option tx_result :=
  match seastar_ip_tx_cmd env.fw env.stack_tail ssp dest_nid (sshdr_length skb)
      (env.virt_to_phys msg >>> 2) (pending_to_index ssp p) with
  | none => none
  | some (ssp1, _) =>
    some { ret := 0, skb := skb,
           netdev := { netdev with
             priv := ssp1,
             stats := { netdev.stats with
               tx_packets := u64 (netdev.stats.tx_packets + 1),
               tx_bytes := u64 (netdev.stats.tx_bytes + skb.len) } } }

/-- The function `ss_tx` of `main.c`.  `none`: the call does not return
(a `NULL` dereference in `eth2ss`, or `seastar_cmd` spinning for ever). -/
def ss_tx (env : tx_env) (skb : sk_buff) (netdev : net_device) : Option tx_result :=
  let ssp := netdev.priv
  let dest_nid := ntohl (h_dest32 skb)
  if netdev.queue_stopped then some { ret := NETDEV_TX_BUSY, skb := skb, netdev := netdev }
  else
    match eth2ss skb with
    | none => none
    | some (r, skb1) =>
      if r ≠ 0 then
        some { ret := 0, skb := skb1,
               netdev := { netdev with
                 stats := { netdev.stats with tx_errors := u64 (netdev.stats.tx_errors + 1) },
                 freed_skbs := skb1 :: netdev.freed_skbs } }
      else
        match alloc_tx_pending ssp with
        | (none, ssp1) =>
          some { ret := NETDEV_TX_BUSY, skb := skb1,
                 netdev := { netdev with priv := ssp1, queue_stopped := true } }
        | (some p, ssp1) =>
          let ssp2 := upd_pending ssp1 p (fun e => { e with skb := some skb1 })
          if (skb1.head_addr + skb1.data) &&& 0x3 = 0 then
            let ssp3 := upd_pending ssp2 p (fun e => { e with bounce := none })
            tx_submit env netdev ssp3 skb1 dest_nid (skb1.head_addr + skb1.data) p
          else
            match env.kmalloc with
            | none =>
              let ssp3 := upd_pending ssp2 p (fun e => { e with bounce := none })
              some { ret := 0, skb := skb1,
                     netdev := { netdev with
                       priv := free_tx_pending ssp3 p,
                       freed_skbs := skb1 :: netdev.freed_skbs } }
            | some addr =>
              let ssp3 := upd_pending ssp2 p
                (fun e => { e with bounce := some { addr := addr, bytes := frame_bytes skb1 } })
              tx_submit env netdev ssp3 skb1 dest_nid addr p

/-- Lines 79-81 of `firmware.c`: the write cursor after `cached_write`. -/
def next_write_of (cached_write : Nat) : Nat :=
  if u32 (cached_write + 1) = COMMAND_Q_LENGTH then 0 else u32 (cached_write + 1)

/-- The state a fire-and-forget `seastar_cmd` leaves when its loop ends with
the cached read cursor `cached` and the mailbox read cursor at `cur`: the
command sits in the slot the write cursor pointed to and the write cursor
has moved on by one. -/
def cmd_posted (ssp : ss_priv) (cmd : List Nat) (cached cur : Nat) : ss_priv :=
  { ssp with
    mailbox := { ssp.mailbox with
      commandq := ssp.mailbox.commandq.set ssp.mailbox_cached_write cmd
      commandq_read := cur
      commandq_write := next_write_of ssp.mailbox_cached_write }
    mailbox_cached_read := cached
    mailbox_cached_write := next_write_of ssp.mailbox_cached_write }

/-- The 16-bit value at bytes `off` and `off + 1` of a command record. -/
def cmd_u16 (rec : List Nat) (off : Nat) : Nat := rec.getD off 0 + 256 * rec.getD (off + 1) 0

/-! ## Transmit completion (`main.c`, `ss_tx_end`) -/

/-- The function `ss_tx_end` of `main.c`, for a `pending_index` inside
`pending_table`.  `kfree(NULL)` does nothing.  The C code does not check the
index: for an index of `NUM_PENDINGS` or more, `index_to_pending` points
behind the table, into `tx_pending_free_list` and `eq`, and `ss_tx_end` reads
and writes that memory.  This model does not describe that access, and gives
`none` for such an index. -/
def ss_tx_end (netdev : net_device) (pending_index : Nat) : Option net_device :=
  let ssp := netdev.priv
  let p := index_to_pending ssp pending_index
  if pending_index < NUM_PENDINGS then
    let freed := match (get_pending ssp p).skb with
      | some skb => skb :: netdev.freed_skbs
      | none => netdev.freed_skbs
    let kfreed := match (get_pending ssp p).bounce with
      | some b => b :: netdev.kfreed
      | none => netdev.kfreed
    let ssp1 := free_tx_pending ssp p
    some { netdev with
      priv := ssp1, freed_skbs := freed, kfreed := kfreed,
      queue_stopped := if netdev.queue_stopped then false else netdev.queue_stopped }
  else none

/-! ## Receive buffer ring and event dispatcher (`main.c`, lines 83-100 and 317-422) -/

def EVENT_TX_END : Nat := 125
def EVENT_RX : Nat := 126
def EVENT_RX_EMPTY : Nat := 127

/-- What the interrupt path gets from the kernel: the outcomes of the
successive `dev_alloc_skb` calls, each the fresh buffer or `none` for a
failure (once they are used up every call fails), and `virt_to_phys`. -/
structure irq_env where
  allocs : List (Option sk_buff)
  virt_to_phys : Nat → Nat

/-- Kernel `skb_reserve`: the data start moves `n` bytes into the buffer. -/
def skb_reserve (skb : sk_buff) (n : Nat) : sk_buff := { skb with data := skb.data + n }

/-- The function `refill_skb` of `main.c`.  The buffer `dev_alloc_skb`
returns comes from `env`; the address stored for the adapter is a
`uint64_t`. -/
def refill_skb (env : irq_env) (netdev : net_device) (i : Nat) : net_device × irq_env :=
  match env.allocs with
  | [] => (netdev, env)
  | none :: rest => (netdev, { env with allocs := rest })
  | some skb :: rest =>
    let skb1 := skb_reserve skb SKB_PAD
    let ssp := netdev.priv
    let ssp1 : ss_priv :=
      { ssp with
        skb_table_phys :=
          ssp.skb_table_phys.set i (u64 (env.virt_to_phys (skb1.head_addr + skb1.data) >>> 2))
        skb_table_virt := ssp.skb_table_virt.set i (some skb1) }
    ({ netdev with priv := ssp1 }, { env with allocs := rest })

/-- The function `ss_rx` of `main.c`, for a `skb_index` inside
`skb_table_virt`.  `none`: the entry holds no buffer (`ss_rx_skb` dereferences
`NULL`), or `ss_rx_skb` panics.  The C code does not check the index: for an
index of `NUM_SKBS` or more it reads and writes the memory behind the table,
`pending_table` and what follows it.  This model does not describe that
access, and gives `none` for such an index too. -/
def ss_rx (env : irq_env) (netdev : net_device) (skb_index : Nat) :
    Option (net_device × irq_env) :=
  if skb_index < NUM_SKBS then
    let ssp := netdev.priv
    match ssp.skb_table_virt.getD skb_index none with
    | none => none
    | some skb =>
      let netdev1 : net_device :=
        { netdev with priv := { ssp with skb_table_virt := ssp.skb_table_virt.set skb_index none } }
      match ss_rx_skb netdev1 skb with
      | none => none
      | some netdev2 => some (refill_skb env netdev2 skb_index)
  else none

/-- The first `n` rounds of the loop of `ss_rx_refill`. -/
def ss_rx_refill_loop : Nat → irq_env → net_device → net_device × irq_env
  | 0, env, netdev => (netdev, env)
  | n + 1, env, netdev =>
    let r := ss_rx_refill_loop n env netdev
    if r.1.priv.skb_table_virt.getD n none = none then refill_skb r.2 r.1 n else r

/-- The function `ss_rx_refill` of `main.c`. -/
def ss_rx_refill (env : irq_env) (netdev : net_device) : net_device × irq_env :=
  ss_rx_refill_loop NUM_SKBS env netdev

/-- The function `next_event` of `main.c`: the returned word and the state
afterwards. -/
def next_event (ssp : ss_priv) : Nat × ss_priv :=
  let ev := ssp.eq.getD ssp.eq_read 0
  if ev = 0 then (0, ssp)
  else (ev, { ssp with eq := ssp.eq.set ssp.eq_read 0,
                       eq_read := (ssp.eq_read + 1) % NUM_EQ_ENTRIES })

/-- Line 397 of `main.c`: `type = (ev >> 16) & 0xFFFF`. -/
def event_type (ev : Nat) : Nat := (ev >>> 16) &&& 0xFFFF

/-- Line 398 of `main.c`: `index = (ev >> 0) & 0xFFFF`. -/
def event_index (ev : Nat) : Nat := (ev >>> 0) &&& 0xFFFF

/-- The `switch` of `ss_interrupt`, lines 397-418 of `main.c`, for the event
word `ev`; an unknown type is only logged.  `none`: the handler faults, or
the index lies outside the handler's table. -/
def dispatch (env : irq_env) (netdev : net_device) (ev : Nat) : Option (net_device × irq_env) :=
  let type := event_type ev
  let index := event_index ev
  if type = EVENT_TX_END then (ss_tx_end netdev index).map (fun nd => (nd, env))
  else if type = EVENT_RX then ss_rx env netdev index
  else if type = EVENT_RX_EMPTY then some (ss_rx_refill env netdev)
  else some (netdev, env)

/-- How a call of `ss_interrupt` ends: it returns, leaving a device and
having handled the listed event words in that order; a handler does not
return (`oops`: a fault in `ss_rx`, or an index outside the handler's table,
which the model does not follow); or the loop is still running when the fuel
is used up. -/
inductive irq_outcome where
  | handled : net_device → List Nat → irq_outcome
  | oops : irq_outcome
  | spinning : irq_outcome
deriving DecidableEq, Repr

/-- The function `ss_interrupt` of `main.c`: at most `fuel` rounds of the
`while (1)` loop, on an event queue nobody else writes meanwhile. -/
def ss_interrupt : Nat → irq_env → net_device → irq_outcome
  | 0, _, _ => irq_outcome.spinning
  | fuel + 1, env, netdev =>
    let r := next_event netdev.priv
    if r.1 = 0 then irq_outcome.handled { netdev with priv := r.2 } []
    else
      match dispatch env { netdev with priv := r.2 } r.1 with
      | none => irq_outcome.oops
      | some (netdev1, env1) =>
        match ss_interrupt fuel env1 netdev1 with
        | irq_outcome.handled netdev2 evs => irq_outcome.handled netdev2 (r.1 :: evs)
        | irq_outcome.oops => irq_outcome.oops
        | irq_outcome.spinning => irq_outcome.spinning

/-- The maximal run of consecutive non-zero words of the queue `eq` that
starts at slot `start`, going round the queue once. -/
def nonzero_run (eq : List Nat) (start : Nat) : List Nat :=
  (eq.drop start ++ eq.take start).takeWhile (fun w => w != 0)

/-- The number of non-zero words in the queue. -/
def count_nonzero (eq : List Nat) : Nat := eq.countP (fun w => w != 0)

/-- The event word is of none of the three kinds the dispatcher knows. -/
def unknown_kind (ev : Nat) : Prop :=
  event_type ev ≠ EVENT_TX_END ∧ event_type ev ≠ EVENT_RX ∧ event_type ev ≠ EVENT_RX_EMPTY

instance (ev : Nat) : Decidable (unknown_kind ev) := by
  unfold unknown_kind; infer_instance

/-- The handler the specification's table gives for an event word: bits
31-16 are the kind and bits 15-0 the index; TransmitComplete (125) releases
the pending slot `index`, ReceiveReady (126) takes, decodes, delivers and
refills the receive entry `index`, ReceiveEmpty (127) sweeps the receive
table, and any other kind is logged and skipped. -/
def spec_handle (env : irq_env) (netdev : net_device) (w : Nat) :
    Option (net_device × irq_env) :=
  let kind := w / 2 ^ 16 % 2 ^ 16
  let index := w % 2 ^ 16
  if kind = 125 then
    match ss_tx_end netdev index with
    | none => none
    | some netdev1 => some (netdev1, env)
  else if kind = 126 then ss_rx env netdev index
  else if kind = 127 then some (ss_rx_refill env netdev)
  else some (netdev, env)

/-- The drain of the specification's dispatcher over the event words `ws`:
for each word in turn the slot at the read cursor is cleared, the cursor
moves one slot on round the queue, and the handler of the word runs.
`none`: a handler does not return. -/
def spec_drain : List Nat → irq_env → net_device → Option (net_device × irq_env)
  | [], env, netdev => some (netdev, env)
  | w :: ws, env, netdev =>
    let cleared : net_device :=
      { netdev with
        priv := { netdev.priv with
          eq := netdev.priv.eq.set netdev.priv.eq_read 0
          eq_read := (netdev.priv.eq_read + 1) % NUM_EQ_ENTRIES } }
    match spec_handle env cleared w with
    | none => none
    | some (netdev1, env1) => spec_drain ws env1 netdev1

/-- How `ss_interrupt` is to end when the drain of the event words `ws` ends
with `r`: it returns the device of `r` having handled `ws`, or it does not
return because a handler did not. -/
def drain_outcome (r : Option (net_device × irq_env)) (ws : List Nat) : irq_outcome :=
  match r with
  | some (netdev, _) => irq_outcome.handled netdev ws
  | none => irq_outcome.oops

/-- The indices of the event words `ws` lie inside the tables of their
handlers: below `NUM_PENDINGS` for TransmitComplete, below `NUM_SKBS` for
ReceiveReady. -/
def events_in_range (ws : List Nat) : Prop :=
  ∀ w ∈ ws, (event_type w = EVENT_TX_END → event_index w < NUM_PENDINGS)
    ∧ (event_type w = EVENT_RX → event_index w < NUM_SKBS)

instance events_in_range_decidable (ws : List Nat) : Decidable (events_in_range ws) := by
  unfold events_in_range; infer_instance

/-! ## Address translator (`firmware.c`, lines 36-64) -/

/-- The adapter registers the bring-up code touches: the TX source register,
the `local_nid` field of the NIC control block and the HyperTransport map. -/
structure hw_regs where
  tx_source : Nat
  niccb_local_nid : Nat
  htb_map : List Nat
deriving DecidableEq, Repr

/-- The C expression `~v` for a non-negative `int` `v`, converted to
`unsigned long`: the sign-extended 64-bit pattern. -/
def not_int64 (v : Nat) : Nat := 2 ^ 64 - 1 - v % 2 ^ 64

/-- A 32-bit `int` pattern converted to `unsigned long` (sign extension). -/
def int_to_u64 (v : Nat) : Nat :=
  if v % 2 ^ 32 < 2 ^ 31 then v % 2 ^ 32 else v % 2 ^ 32 + (2 ^ 64 - 2 ^ 32)

/-- The function `seastar_map_host_region` of `firmware.c`; `raw_paddr` is
`__pa(addr)`, an `unsigned long`. -/
def seastar_map_host_region (ssp : ss_priv) (hw : hw_regs) (raw_paddr : Nat) :
    ss_priv × hw_regs :=
  let paddr := u64 raw_paddr &&& not_int64 ((1 <<< 28) - 1)
  let map8 := hw.htb_map.set 8 (u32 (0x8000 ||| ((paddr >>> 28) + 0)))
  let map9 := map8.set 9 (u32 (0x8000 ||| ((paddr >>> 28) + 1)))
  ({ ssp with host_region_phys := paddr }, { hw with htb_map := map9 })

/-- The function `virt_to_fw` of `firmware.c`; `pa` is `__pa(addr)`.  The
subtraction is that of `unsigned long`, the constant `8 << 28` is an `int`
with its top bit set, and the result is cut to `uint32_t`. -/
def virt_to_fw (ssp : ss_priv) (pa : Nat) : Nat :=
  let saddr := u64 (u64 pa + (2 ^ 64 - u64 ssp.host_region_phys))
  let saddr1 := saddr &&& ((2 <<< 28) - 1)
  let saddr2 := u64 (saddr1 + int_to_u64 (8 <<< 28))
  u32 saddr2

/-- The base the specification gives for a host physical address `p`: `p`
rounded down to the nearest 128 MB boundary, the largest multiple of `2^27`
that is at most `p`. -/
def spec_round_down_128MB (p : Nat) : Nat := 2 ^ 27 * (p / 2 ^ 27)

/-- The value the specification gives for the wire header's length field of
a frame with `payload_len` payload bytes: `((payload_len + 3) & ~3) / 4 - 1`. -/
def spec_length_field (payload_len : Nat) : Nat := ((payload_len + 3) &&& not32 3) / 4 - 1

/-! ## Bring-up (`firmware.c`, `seastar_hw_init`) -/

/-- Store the `n` low bytes of `v`, low byte first, at offset `off` of `buf`:
an assignment to an `n`-byte field of a packed record. -/
def put_le (buf : List Nat) (off n v : Nat) : List Nat :=
  buf.take off ++ le_bytes v n ++ buf.drop (off + n)

/-- What surrounds one call of `seastar_hw_init`.  `stack_init`,
`stack_eqcb` and `stack_alive` are the 64 bytes found at the addresses of the
locals `init_cmd`, `eqcb_cmd` and `alive_cmd` when the function is entered
(the locals have no initialiser, and `seastar_cmd` copies a whole
`struct command` from each address).  `fw_reads` are the firmware's read
cursor values at the host's polls, `res_init`, `res_eqcb` and `res_alive`
the result the firmware posts for each of the three commands (`none`: it
never posts one), and the last three fields are `__pa` of the private area,
of `ssp->pending_table` and of `ssp->eq`. -/
structure hw_env where
  stack_init : List Nat
  stack_eqcb : List Nat
  stack_alive : List Nat
  fw_reads : List Nat
  res_init : Option Nat
  res_eqcb : Option Nat
  res_alive : Option Nat
  pa_ssp : Nat
  pa_pending_table : Nat
  pa_eq : Nat

/-- The bytes at the address of `init_cmd` after the assignments of
`seastar_hw_init`, in the order of the source; `pad` (bytes 2-3) and `pid`
(bytes 4-5) are never assigned. -/
def hw_init_cmd (stack : List Nat)
    (lower_pending up_pending lower_eqcb eqheap num_eq : Nat) : List Nat :=
  let c := put_le stack 0 1 COMMAND_INIT
  let c := put_le c 1 1 1
  let c := put_le c 56 4 0
  let c := put_le c 6 2 0
  let c := put_le c 8 2 NUM_PENDINGS
  let c := put_le c 14 2 NUM_TX_PENDINGS
  let c := put_le c 16 4 lower_pending
  let c := put_le c 20 4 up_pending
  let c := put_le c 24 4 0
  let c := put_le c 10 2 0
  let c := put_le c 28 4 0
  let c := put_le c 12 2 num_eq
  let c := put_le c 32 4 lower_eqcb
  let c := put_le c 44 4 eqheap
  let c := put_le c 48 4 (NUM_EQ_ENTRIES * 4)
  let c := put_le c 36 4 0
  let c := put_le c 40 4 0
  put_le c 52 4 0

/-- The bytes at the address of `eqcb_cmd` after its four assignments; `pad`
(byte 1) is never assigned. -/
def hw_eqcb_cmd (stack : List Nat) (base : Nat) : List Nat :=
  let c := put_le stack 0 1 COMMAND_INIT_EQCB
  let c := put_le c 2 2 0
  let c := put_le c 4 4 base
  put_le c 8 4 NUM_EQ_ENTRIES

/-- The bytes at the address of `alive_cmd` after its two assignments. -/
def hw_alive_cmd (stack : List Nat) : List Nat :=
  let c := put_le stack 0 1 COMMAND_MARK_ALIVE
  put_le c 1 1 1

/-- The function `seastar_hw_init` of `firmware.c`.  The mailbox of `ssp` is
the adapter memory at `seastar_mailbox`, so pointing `ssp->mailbox` at it
changes nothing here, and the last assignment to `lower_memory` (line 167) is
never read.  The result is the returned `int`, the private area and the
registers; `none`: one of the `seastar_cmd` calls never returns. -/
def seastar_hw_init (env : hw_env) (hw : hw_regs) (ssp : ss_priv) :
    Option (Int × ss_priv × hw_regs) :=
  let lower_memory := SEASTAR_HOST_BASE
  let num_eq := 1
  let hw1 : hw_regs := { hw with niccb_local_nid := u16 hw.tx_source }
  let lower_pending := lower_memory
  let lower_memory1 := u32 (lower_memory + NUM_PENDINGS * FW_PENDING_SIZE)
  let lower_eqcb := lower_memory1
  let mapped := seastar_map_host_region ssp hw1 env.pa_ssp
  let ssp1 : ss_priv :=
    { mapped.1 with
      mailbox_cached_read := mapped.1.mailbox.commandq_read
      mailbox_cached_write := mapped.1.mailbox.commandq_write }
  let hw2 := mapped.2
  let init_cmd := hw_init_cmd env.stack_init lower_pending
    (virt_to_fw ssp1 env.pa_pending_table) lower_eqcb (virt_to_fw ssp1 env.pa_eq) num_eq
  match seastar_cmd { fw_reads := env.fw_reads, fw_result := env.res_init } ssp1
      (init_cmd.take 64) true with
  | none => none
  | some (result, ssp2, env2) =>
    if result ≠ 0 then some (-1, ssp2, hw2)
    else
      let eqcb_cmd := hw_eqcb_cmd env.stack_eqcb (virt_to_fw ssp2 env.pa_eq)
      match seastar_cmd { fw_reads := env2.fw_reads, fw_result := env.res_eqcb } ssp2
          (eqcb_cmd.take 64) true with
      | none => none
      | some (result1, ssp3, env3) =>
        if result1 ≠ 1 then some (-1, ssp3, hw2)
        else
          let alive_cmd := hw_alive_cmd env.stack_alive
          match seastar_cmd { fw_reads := env3.fw_reads, fw_result := env.res_alive } ssp3
              (alive_cmd.take 64) true with
          | none => none
          | some (result2, ssp4, _) =>
            if result2 ≠ 0 then some (-1, ssp4, hw2)
            else some (0, ssp4, hw2)

/-- The state a `seastar_cmd` with `wait_for_result` leaves when the write
cursor can move at once and the firmware posts the result `v` into an empty
result ring. -/
def cmd_answered (ssp : ss_priv) (cmd : List Nat) (v : Nat) : ss_priv :=
  { ssp with
    mailbox := { ssp.mailbox with
      commandq := ssp.mailbox.commandq.set ssp.mailbox_cached_write cmd
      commandq_write := next_write_of ssp.mailbox_cached_write
      resultq := List.set ssp.mailbox.resultq ssp.mailbox.resultq_read (u32 v)
      resultq_write := (ssp.mailbox.resultq_read + 1) % RESULT_Q_LENGTH
      resultq_read :=
        if ssp.mailbox.resultq_read ≥ RESULT_Q_LENGTH - 1 then 0
        else ssp.mailbox.resultq_read + 1 }
    mailbox_cached_write := next_write_of ssp.mailbox_cached_write }

/-! ## Command ring protocol (`firmware.c`, `seastar_cmd`; `COMMAND_Q_LENGTH`) -/

/-- The number of slots from cursor `a` forward to cursor `b` on the command
ring. -/
def ring_dist (a b : Nat) : Nat := (b + COMMAND_Q_LENGTH - a) % COMMAND_Q_LENGTH

/-- The `n` slots of the command ring from slot `r` on, in ring order. -/
def ring_range (r : Nat) : Nat → List Nat
  | 0 => []
  | n + 1 => r :: ring_range ((r + 1) % COMMAND_Q_LENGTH) n

/-- The assumption on the firmware: with the write cursor at `w` it moves its
read cursor from `r` to a slot `r1` of the ring that lies forward of `r` and
not past `w`. -/
def fw_move_ok (r w r1 : Nat) : Bool :=
  decide (r1 < COMMAND_Q_LENGTH) && decide (ring_dist r r1 ≤ ring_dist r w)

/-- The assumption on the firmware during one `seastar_cmd` call: every value
the host reads from `mbox->commandq_read` in the loop of lines 84-85 is a
move allowed by `fw_move_ok` from the value before; `w` is the write cursor,
which the host has not advanced yet.  The recursion is that of
`wait_cmd_slot`, so only the polls the loop makes are looked at. -/
def polls_ok (w next_write : Nat) : List Nat → Nat → Nat → Bool
  | [], _, _ => true
  | r :: rs, cur, cached =>
    if next_write ≠ cached then true
    else fw_move_ok cur w r && polls_ok w next_write rs r r

/-- A run of the command channel: the private area with its mailbox, and the
slots that hold a command the firmware has not read yet, oldest first. -/
structure chan_run where
  ssp : ss_priv
  unread : List Nat
deriving DecidableEq, Repr

/-- One event on the command channel: the firmware moves its read cursor to
`r` between two calls, or the host calls `seastar_cmd`. -/
inductive chan_op where
  | fw (r : Nat)
  | cmd (env : fw_env) (cmd : List Nat) (wait_for_result : Bool)

/-- One event of a run.  The firmware reads the commands it moves over, a
returning `seastar_cmd` adds the slot it copied the command into.  `none`:
the firmware breaks the assumption, or the call never returns. -/
def chan_step (st : chan_run) : chan_op → Option chan_run
  | chan_op.fw r1 =>
    if fw_move_ok st.ssp.mailbox.commandq_read st.ssp.mailbox.commandq_write r1 then
      some { ssp := { st.ssp with mailbox := { st.ssp.mailbox with commandq_read := r1 } },
             unread := st.unread.drop (ring_dist st.ssp.mailbox.commandq_read r1) }
    else none
  | chan_op.cmd env cmd wait_for_result =>
    if polls_ok st.ssp.mailbox.commandq_write (next_write_of st.ssp.mailbox_cached_write)
        env.fw_reads st.ssp.mailbox.commandq_read st.ssp.mailbox_cached_read then
      match seastar_cmd env st.ssp cmd wait_for_result with
      | none => none
      | some (_, ssp1, _) =>
        some { ssp := ssp1,
               unread := st.unread.drop
                   (ring_dist st.ssp.mailbox.commandq_read ssp1.mailbox.commandq_read)
                 ++ [st.ssp.mailbox_cached_write] }
    else none

/-- A sequence of events, from the state `st`. -/
def chan_exec : chan_run → List chan_op → Option chan_run
  | st, [] => some st
  | st, op :: ops =>
    match chan_step st op with
    | none => none
    | some st1 => chan_exec st1 ops

/-- The channel as lines 174-176 of `firmware.c` leave it: both cursors are
slots of the ring, the two cached cursors are the copies `seastar_hw_init`
has just taken, and the unread commands are those between the cursors. -/
def chan_start (st : chan_run) : Prop :=
  st.ssp.mailbox.commandq_read < COMMAND_Q_LENGTH
  ∧ st.ssp.mailbox.commandq_write < COMMAND_Q_LENGTH
  ∧ st.ssp.mailbox_cached_read = st.ssp.mailbox.commandq_read
  ∧ st.ssp.mailbox_cached_write = st.ssp.mailbox.commandq_write
  ∧ st.unread = ring_range st.ssp.mailbox.commandq_read
      (ring_dist st.ssp.mailbox.commandq_read st.ssp.mailbox.commandq_write)

instance chan_start_decidable (st : chan_run) : Decidable (chan_start st) := by
  unfold chan_start; infer_instance

/-- The invariant of a run: the cached write cursor is the write cursor,
the cursors are slots of the ring, the cached read cursor is a value the read
cursor has had since the write cursor last passed it, and the unread commands
are those between the read and the write cursor. -/
def chan_inv (st : chan_run) : Prop :=
  st.ssp.mailbox_cached_write = st.ssp.mailbox.commandq_write
  ∧ st.ssp.mailbox.commandq_write < COMMAND_Q_LENGTH
  ∧ st.ssp.mailbox.commandq_read < COMMAND_Q_LENGTH
  ∧ st.ssp.mailbox_cached_read < COMMAND_Q_LENGTH
  ∧ ring_dist st.ssp.mailbox_cached_read st.ssp.mailbox.commandq_read
      ≤ ring_dist st.ssp.mailbox_cached_read st.ssp.mailbox.commandq_write
  ∧ st.unread = ring_range st.ssp.mailbox.commandq_read
      (ring_dist st.ssp.mailbox.commandq_read st.ssp.mailbox.commandq_write)

/-! ## Opening the interface (`main.c`, `ss_open`) -/

/-- The first `n` rounds of the loop of `ss_open`. -/
def ss_open_loop : Nat → irq_env → net_device → net_device × irq_env
  | 0, env, netdev => (netdev, env)
  | n + 1, env, netdev =>
    let r := ss_open_loop n env netdev
    let ssp := r.1.priv
    let netdev1 : net_device :=
      { r.1 with
        priv := { ssp with
          skb_table_phys := ssp.skb_table_phys.set n 0
          skb_table_virt := ssp.skb_table_virt.set n none } }
    refill_skb r.2 netdev1 n

/-- The function `ss_open` of `main.c`: the returned value, the device and
what is left of the kernel's allocations.  `netif_start_queue` clears the
stopped bit of the transmit queue. -/
def ss_open (env : irq_env) (netdev : net_device) : Int × net_device × irq_env :=
  let netdev1 : net_device := { netdev with queue_stopped := false }
  let r := ss_open_loop NUM_SKBS env netdev1
  (0, r.1, r.2)

/-! ## Runs of the transmit side (`ss_open`, `ss_tx`, `ss_tx_end`) -/

/-- One call into the driver: `ss_open`, `ss_tx` for a frame, or the
handling of a TransmitComplete event for a pending index. -/
inductive drv_op where
  | call_open (env : irq_env)
  | call_tx (env : tx_env) (skb : sk_buff)
  | event_tx_end (pending_index : Nat)

/-- One call of a run.  A TransmitComplete event comes only for a transmit
slot that is allocated; `none`: the event breaks this, or the call does not
return. -/
def drv_step (netdev : net_device) : drv_op → Option net_device
  | drv_op.call_open env => some (ss_open env netdev).2.1
  | drv_op.call_tx env skb => (ss_tx env skb netdev).map (fun res => res.netdev)
  | drv_op.event_tx_end i =>
    if i < NUM_TX_PENDINGS ∧ i ∉ tx_free_list netdev.priv then ss_tx_end netdev i else none

/-- A sequence of calls, from the device `netdev`. -/
def drv_exec : net_device → List drv_op → Option net_device
  | netdev, [] => some netdev
  | netdev, op :: ops =>
    match drv_step netdev op with
    | none => none
    | some netdev1 => drv_exec netdev1 ops

/-- The transmit side as `ss_probe` leaves it: the queue is not stopped and
the free list holds the 64 transmit slots, slot 63 first. -/
def drv_probed (netdev : net_device) : Prop :=
  netdev.queue_stopped = false
  ∧ netdev.priv.pending_table.length = NUM_PENDINGS
  ∧ is_chain netdev.priv.pending_table netdev.priv.tx_pending_free_list
      (List.range NUM_TX_PENDINGS).reverse

instance drv_probed_decidable (netdev : net_device) : Decidable (drv_probed netdev) := by
  unfold drv_probed; infer_instance

/-- The invariant of the transmit side: `l` is the free list, it holds
distinct transmit slots, the table has its `NUM_PENDINGS` entries, and the
queue is stopped only while the free list is empty. -/
def drv_inv (netdev : net_device) (l : List Nat) : Prop :=
  is_chain netdev.priv.pending_table netdev.priv.tx_pending_free_list l
  ∧ l.Nodup
  ∧ (∀ i ∈ l, i < NUM_TX_PENDINGS)
  ∧ netdev.priv.pending_table.length = NUM_PENDINGS
  ∧ (netdev.queue_stopped = true → l = [])

/-- The number of empty entries among the first `n` of a receive buffer
table. -/
def empty_below (virt : List (Option sk_buff)) (n : Nat) : Nat :=
  (virt.take n).countP (fun e => e.isNone)

/-- What a sweep of `ss_rx_refill` over the first `n` entries is to leave in
entry `i`, as the specification describes it: an entry that held a buffer
keeps buffer and address; the empty entries get the outcomes `allocs` of the
successive allocations in table order, a fresh buffer with `SKB_PAD` bytes
reserved and its data address divided by 4, or nothing on a failure. -/
def refill_expected (v2p : Nat → Nat) (virt : List (Option sk_buff)) (phys : List Nat)
    (allocs : List (Option sk_buff)) (n i : Nat) : Option sk_buff × Nat :=
  if i < n ∧ virt.getD i none = none then
    match allocs.getD (empty_below virt i) none with
    | some skb =>
      (some (skb_reserve skb SKB_PAD),
        u64 (v2p ((skb_reserve skb SKB_PAD).head_addr + (skb_reserve skb SKB_PAD).data) >>> 2))
    | none => (none, phys.getD i 0)
  else (virt.getD i none, phys.getD i 0)

/-! ## Example inputs -/

/-- An IPv4 frame from host 3 to host 0xA with a five-byte payload, in a
buffer with two bytes of headroom and four bytes of tailroom. -/
def frame_ok : sk_buff :=
  { head_addr := 0x1000,
    head := [0, 0, 1, 2, 3, 4, 5, 0xA, 9, 8, 7, 6, 5, 3, 8, 0, 1, 2, 3, 4, 5,
             0xAA, 0xBB, 0xCC, 0xDD],
    data := 2, len := 19 }


/-- The hardware address of the local device in the examples. -/
def dev_addr_ok : List Nat := [0x10, 0x20, 0x30, 0x40, 0x50, 0x60]

/-- A mailbox with an empty command ring and an empty result ring. -/
def mbox_ok : mailbox :=
  { commandq := List.replicate COMMAND_Q_LENGTH (List.replicate 64 0),
    resultq := List.replicate RESULT_Q_LENGTH 0,
    resultq_read := 0, resultq_write := 0, commandq_write := 0, commandq_read := 0 }

/-- A device right after `ss_probe`, with its transmit queue running. -/
def netdev_ok : net_device :=
  { dev_addr := dev_addr_ok, mtu := 16000, queue_stopped := false,
    stats := { tx_errors := 0, tx_packets := 0, tx_bytes := 0, rx_packets := 0, rx_bytes := 0 },
    priv := ss_probe_priv (List.replicate NUM_SKBS 0) mbox_ok,
    freed_skbs := [], kfreed := [], rx_delivered := [] }

/-- A firmware that keeps up and a `kmalloc` that succeeds. -/
def tx_env_ok : tx_env :=
  { kmalloc := some 0x2000, stack_tail := List.replicate 46 0,
    fw := { fw_reads := [], fw_result := none }, virt_to_phys := fun a => a }

/-- The frame `frame_ok` with the broadcast low byte 0xFF in its destination. -/
def frame_bcast : sk_buff :=
  { head_addr := 0x1000,
    head := [0, 0, 1, 2, 3, 4, 5, 0xFF, 9, 8, 7, 6, 5, 3, 8, 0, 1, 2, 3, 4, 5,
             0xAA, 0xBB, 0xCC, 0xDD],
    data := 2, len := 19 }

/-- A receive buffer as `refill_skb` posts it, 12 bytes reserved, into which
the adapter has stored the 12 bytes a sender transmits for `frame_ok`: the 9
bytes of its wire frame and the 3 bytes behind them in the sender's buffer. -/
def rx_ok : sk_buff :=
  { head_addr := 0x3000,
    head := List.replicate 12 0 ++ [2, 0, 0x3A, 0x40, 1, 2, 3, 4, 5, 0xAA, 0xBB, 0xCC]
              ++ List.replicate 8 0,
    data := 12, len := 0 }

/-- Two allocations, the release of the first slot, one more allocation. -/
def pool_ops_ok : List pool_op :=
  [pool_op.alloc, pool_op.alloc, pool_op.free 63, pool_op.alloc]

/-- Adapter registers before bring-up: node id 5 in the TX source register,
an all-zero HyperTransport map of 16 entries. -/
def hw_ok : hw_regs :=
  { tx_source := 5, niccb_local_nid := 0, htb_map := List.replicate 16 0 }

/-- The device `netdev_ok` after one transmit: slot 63 is allocated and holds
the wire frame of `frame_ok`, and the queue has been stopped. -/
def netdev_busy : net_device :=
  { netdev_ok with
    priv := upd_pending (alloc_tx_pending netdev_ok.priv).2 63
      (fun e => { e with skb := some (wire_of frame_ok) }),
    queue_stopped := true }

/-- A kernel whose next two buffer allocations succeed. -/
def irq_env_ok : irq_env :=
  { allocs := [some { head_addr := 0x4000, head := List.replicate 64 0, data := 16, len := 0 },
               some { head_addr := 0x5000, head := List.replicate 64 0, data := 16, len := 0 }],
    virt_to_phys := fun a => a }

/-- The device `netdev_ok` with three words in its event queue, starting at
the read cursor: an unknown kind, a transmit completion for slot 3, and
another unknown kind. -/
def netdev_events : net_device :=
  { netdev_ok with
    priv := { netdev_ok.priv with
      eq := [(1 <<< 16) ||| 9, (125 <<< 16) ||| 3, (7 <<< 16) ||| 1]
              ++ List.replicate (NUM_EQ_ENTRIES - 3) 0 } }

/-- A bring-up in which the firmware answers 0, 1 and 0; the three locals
lie in stack memory that holds the byte 0xEE throughout. -/
def hw_env_ok : hw_env :=
  { stack_init := List.replicate 64 0xEE, stack_eqcb := List.replicate 64 0xEE,
    stack_alive := List.replicate 64 0xEE, fw_reads := [],
    res_init := some 0, res_eqcb := some 1, res_alive := some 0,
    pa_ssp := 0x12345000, pa_pending_table := 0x12346000, pa_eq := 0x12347000 }

/-- A channel with 61 unread commands: read cursor at slot 5, write cursor at
slot 3. -/
def chan_ok : chan_run :=
  { ssp := { netdev_ok.priv with
      mailbox := { mbox_ok with commandq_read := 5, commandq_write := 3 }
      mailbox_cached_read := 5
      mailbox_cached_write := 3 },
    unread := ring_range 5 61 }

/-- A command that fills the ring, one that has to wait until the firmware has
read two commands, the firmware reading on up to the write cursor, and one
more command. -/
def chan_ops_ok : List chan_op :=
  [chan_op.cmd { fw_reads := [], fw_result := none } (List.replicate 64 1) false,
   chan_op.cmd { fw_reads := [5, 7], fw_result := none } (List.replicate 64 2) false,
   chan_op.fw 5,
   chan_op.cmd { fw_reads := [], fw_result := some 0 } (List.replicate 64 3) true]

/-- The device `netdev_ok` with all 64 transmit slots allocated and the queue
still running, as 64 transmissions in a row leave it. -/
def netdev_full : net_device :=
  { netdev_ok with priv := (alloc_n NUM_TX_PENDINGS netdev_ok.priv).2 }

/-- A device with an MTU of 20 bytes, so that a receive buffer has 32 bytes. -/
def netdev_small : net_device := { netdev_ok with mtu := 20 }

/-- A kernel whose next 64 buffer allocations succeed, buffer `i` lying at
address `0x10000 + 64 * i`, and whose later allocations fail. -/
def irq_env_fill : irq_env :=
  { allocs := (List.range NUM_SKBS).map (fun i =>
      some { head_addr := 0x10000 + 64 * i, head := List.replicate 32 0, data := 0, len := 0 }),
    virt_to_phys := fun a => a }

/-- A kernel whose buffer allocations fail. -/
def irq_env_fail : irq_env := { allocs := [none], virt_to_phys := fun a => a }

/-- The device `netdev_small` after `ss_open` has filled its receive table. -/
def netdev_opened : net_device := (ss_open irq_env_fill netdev_small).2.1

/-- The device `netdev_opened` with entries 3 and 9 of its receive table
empty, as two receptions with failing refills leave it. -/
def netdev_gaps : net_device :=
  { netdev_opened with
    priv := { netdev_opened.priv with
      skb_table_virt := (netdev_opened.priv.skb_table_virt.set 3 none).set 9 none } }

/-- A kernel whose next allocation succeeds and whose second one fails. -/
def irq_env_one : irq_env :=
  { allocs := [some { head_addr := 0x20000, head := List.replicate 32 0, data := 0, len := 0 },
               none],
    virt_to_phys := fun a => a }

/-- A `kmalloc` that succeeds and a firmware that has read the commands up to
slot 30 whenever the host has to wait for room in the ring. -/
def tx_env_fw : tx_env :=
  { kmalloc := some 0x2000, stack_tail := List.replicate 46 0,
    fw := { fw_reads := [30], fw_result := none }, virt_to_phys := fun a => a }

/-- `ss_open` followed by 65 transmissions of `frame_ok` with no completion
in between: the first 64 take the 64 slots, the last one finds none. -/
def drv_ops_full : List drv_op :=
  drv_op.call_open irq_env_ok :: List.replicate 65 (drv_op.call_tx tx_env_fw frame_ok)

/-- The device `netdev_busy`, whose slot 63 holds a frame and whose queue is
stopped, with two words in its event queue: an unknown kind, and the transmit
completion for slot 63. -/
def netdev_tx_done : net_device :=
  { netdev_busy with
    priv := { netdev_busy.priv with
      eq := [(1 <<< 16) ||| 9, (125 <<< 16) ||| 63] ++ List.replicate (NUM_EQ_ENTRIES - 2) 0 } }

/-- The device `netdev_opened` with two ReceiveReady words for entry 7 at the
head of its event queue: the adapter has filled buffer 7 and, finding its
address still in the table, filled it again. -/
def netdev_rx_twice : net_device :=
  { netdev_opened with
    priv := { netdev_opened.priv with
      eq := [(126 <<< 16) ||| 7, (126 <<< 16) ||| 7] ++ List.replicate (NUM_EQ_ENTRIES - 2) 0 } }
/-! # Theorems -/

/-! ## Machine arithmetic -/

theorem not32_three : not32 (4 - 1) = 2 ^ 32 - (3 + 1) := by decide

theorem land_not32_three (x : Nat) (hx : x < 2 ^ 32) :
    x &&& not32 (4 - 1) = 4 * (x / 4) := by
  rw [not32_three]
  apply Nat.eq_of_testBit_eq
  intro i
  have h3 : (3 : Nat) < 2 ^ 32 := by decide
  rw [Nat.testBit_and, Nat.testBit_two_pow_sub_succ h3]
  have e4 : 4 * (x / 4) = (x >>> 2) <<< 2 := by
    rw [Nat.shiftLeft_eq, Nat.shiftRight_eq_div_pow]; omega
  rw [e4, Nat.testBit_shiftLeft, Nat.testBit_shiftRight]
  have t3 : Nat.testBit 3 i = decide (i < 2) := by
    have := Nat.testBit_two_pow_sub_one 2 i
    simpa using this
  rw [t3]
  by_cases h2 : i < 2
  · simp [h2]
  · have e : 2 + (i - 2) = i := by omega
    rw [e]
    by_cases h32 : i < 32
    · simp [h2, h32]; omega
    · have : x.testBit i = false := by
        apply Nat.testBit_lt_two_pow
        calc x < 2 ^ 32 := hx
          _ ≤ 2 ^ i := Nat.pow_le_pow_right (by decide) (by omega)
      simp [this]

theorem ROUNDUP4_eq (len : Nat) (h : len + 3 < 2 ^ 32) :
    ROUNDUP4 len = 4 * ((len + 3) / 4) := by
  unfold ROUNDUP4 u32
  have e : (len + (4 - 1)) % 2 ^ 32 = len + 3 := Nat.mod_eq_of_lt h
  rw [e]
  exact land_not32_three _ h

theorem qb_len_of_eq (len : Nat) (h0 : 0 < len) (h : len + 3 < 2 ^ 32) :
    qb_len_of len = (len + 3) / 4 - 1 := by
  unfold qb_len_of u32
  rw [ROUNDUP4_eq len h, Nat.shiftRight_eq_div_pow]
  omega

theorem rx_len_of_eq (q : Nat) (h : q < 2 ^ 16) : rx_len_of q = 4 * (q + 1) := by
  unfold rx_len_of u32
  rw [Nat.shiftLeft_eq]
  omega

theorem byte_at_lt (skb : sk_buff) (off : Nat) : byte_at skb off < 256 :=
  Nat.mod_lt _ (by decide)

set_option maxRecDepth 100000 in
theorem lo_mac_range (b : Nat) (hb : b < 256) : (b &&& not32 0xF ≠ 0) ↔ 0xF < b := by
  have key : ∀ c < 256, (c &&& not32 0xF ≠ 0) ↔ 0xF < c := by decide
  exact key b hb

set_option maxRecDepth 100000 in
theorem pack_unpack (s d : Nat) (hs : s ≤ 15) (hd : d ≤ 15) :
    pack_lo_macs s d = (s <<< 4) ||| d ∧ unpack_source (pack_lo_macs s d) = s
      ∧ unpack_dest (pack_lo_macs s d) = d := by
  have key : ∀ a < 16, ∀ c < 16, pack_lo_macs a c = (a <<< 4) ||| c
      ∧ unpack_source (pack_lo_macs a c) = a ∧ unpack_dest (pack_lo_macs a c) = c := by
    decide
  exact key s (by omega) d (by omega)

set_option maxRecDepth 100000 in
theorem unpack_pack (b : Nat) (hb : b < 256) :
    pack_lo_macs (unpack_source b) (unpack_dest b) = b
      ∧ unpack_source b = b >>> 4 ∧ unpack_dest b = b &&& 0xF := by
  have key : ∀ c < 256, pack_lo_macs (unpack_source c) (unpack_dest c) = c
      ∧ unpack_source c = c >>> 4 ∧ unpack_dest c = c &&& 0xF := by decide
  exact key b hb

/-! ## Acceptance by `eth2ss` -/

theorem h_proto_ip_iff (skb : sk_buff) :
    h_proto skb = ntohs ETH_P_IP ↔ eth_type skb = 0x0800 := by
  have h12 := byte_at_lt skb 12
  have h13 := byte_at_lt skb 13
  have e : ntohs ETH_P_IP = 8 := by decide
  rw [e]
  unfold h_proto eth_type
  omega

theorem eth2ss_reject (skb : sk_buff) (h : ¬ eth2ss_passes skb) :
    eth2ss skb = some (-1, skb) := by
  have hs := lo_mac_range (h_source skb 5) (byte_at_lt _ _)
  have hd := lo_mac_range (h_dest skb 5) (byte_at_lt _ _)
  have hp := h_proto_ip_iff skb
  unfold eth2ss_passes at h
  unfold eth2ss
  by_cases c1 : h_proto skb = ntohs ETH_P_IP
  · by_cases c2 : h_dest skb 5 = 0xFF
    · simp [c1, c2]
    · by_cases c3 : (h_source skb 5 &&& not32 0xF) ≠ 0 ∨ (h_dest skb 5 &&& not32 0xF) ≠ 0
      · simp only [c1, c2, c3, ne_eq, not_true_eq_false, if_false, if_true]
      · exfalso
        apply h
        refine ⟨hp.mp c1, ?_, ?_⟩
        · by_contra hc
          exact c3 (Or.inl (hs.mpr (by omega)))
        · by_contra hc
          exact c3 (Or.inr (hd.mpr (by omega)))
  · simp [c1]

theorem eth2ss_accept (skb : sk_buff) (h : eth2ss_passes skb)
    (hlen : ETH_HLEN - SIZEOF_SSHDR ≤ skb.len) : eth2ss skb = some (0, wire_of skb) := by
  have hs := lo_mac_range (h_source skb 5) (byte_at_lt _ _)
  have hd := lo_mac_range (h_dest skb 5) (byte_at_lt _ _)
  have hp := h_proto_ip_iff skb
  obtain ⟨h1, h2, h3⟩ := h
  have c1 : h_proto skb = ntohs ETH_P_IP := hp.mpr h1
  have c2 : ¬ h_dest skb 5 = 0xFF := by omega
  have c3 : ¬ ((h_source skb 5 &&& not32 0xF) ≠ 0 ∨ (h_dest skb 5 &&& not32 0xF) ≠ 0) := by
    intro hc
    rcases hc with hc | hc
    · have := hs.mp hc; omega
    · have := hd.mp hc; omega
  have c4 : ¬ (ETH_HLEN - SIZEOF_SSHDR > skb.len) := by omega
  unfold eth2ss
  simp only [c1, c2, c3, ne_eq, not_true_eq_false, if_false, skb_pull, c4]
  rfl

theorem eth2ss_zero_iff (skb skb' : sk_buff) :
    eth2ss skb = some (0, skb') ↔
      eth2ss_passes skb ∧ ETH_HLEN - SIZEOF_SSHDR ≤ skb.len ∧ skb' = wire_of skb := by
  constructor
  · intro h
    by_cases hp : eth2ss_passes skb
    · by_cases hl : ETH_HLEN - SIZEOF_SSHDR ≤ skb.len
      · rw [eth2ss_accept skb hp hl] at h
        simp only [Option.some.injEq, Prod.mk.injEq, true_and] at h
        exact ⟨hp, hl, h.symm⟩
      · exfalso
        have c4 : ETH_HLEN - SIZEOF_SSHDR > skb.len := by omega
        have hs := lo_mac_range (h_source skb 5) (byte_at_lt _ _)
        have hd := lo_mac_range (h_dest skb 5) (byte_at_lt _ _)
        obtain ⟨h1, h2, h3⟩ := hp
        have c1 : h_proto skb = ntohs ETH_P_IP := (h_proto_ip_iff skb).mpr h1
        have c2 : ¬ h_dest skb 5 = 0xFF := by omega
        have c3 : ¬ ((h_source skb 5 &&& not32 0xF) ≠ 0 ∨
            (h_dest skb 5 &&& not32 0xF) ≠ 0) := by
          intro hc
          rcases hc with hc | hc
          · have := hs.mp hc; omega
          · have := hd.mp hc; omega
        unfold eth2ss at h
        simp [c1, c2, c3, skb_pull, c4] at h
    · rw [eth2ss_reject skb hp] at h
      simp at h
  · rintro ⟨hp, hl, rfl⟩
    exact eth2ss_accept skb hp hl

/-! ## The buffer after `eth2ss` -/

theorem frame_bytes_getElem? (skb : sk_buff) (i : Nat) :
    (frame_bytes skb)[i]? = if i < skb.len then skb.head[skb.data + i]? else none := by
  simp [frame_bytes, List.getElem?_take, List.getElem?_drop]

@[simp] theorem poke_data (skb : sk_buff) (off v : Nat) : (poke skb off v).data = skb.data := rfl
@[simp] theorem poke_len (skb : sk_buff) (off v : Nat) : (poke skb off v).len = skb.len := rfl
@[simp] theorem poke_head_addr (skb : sk_buff) (off v : Nat) :
    (poke skb off v).head_addr = skb.head_addr := rfl
@[simp] theorem poke_head_length (skb : sk_buff) (off v : Nat) :
    (poke skb off v).head.length = skb.head.length := by simp [poke]

theorem poke_head_getElem? (skb : sk_buff) (off v j : Nat) :
    (poke skb off v).head[j]? =
      if skb.data + off = j then (if j < skb.head.length then some (v % 256) else none)
      else skb.head[j]? := by
  unfold poke
  simp only [List.getElem?_set]
  by_cases h : skb.data + off = j
  · subst h; simp
  · simp [h]

theorem byte_at_eq (skb : sk_buff) (off : Nat) :
    byte_at skb off = (skb.head[skb.data + off]?).getD 0 % 256 := by
  simp [byte_at, List.getD_eq_getElem?_getD]

@[simp] theorem wire_of_data (skb : sk_buff) : (wire_of skb).data = skb.data + 10 := rfl
@[simp] theorem wire_of_len (skb : sk_buff) : (wire_of skb).len = skb.len - 10 := rfl
@[simp] theorem wire_of_head_addr (skb : sk_buff) : (wire_of skb).head_addr = skb.head_addr := rfl
@[simp] theorem wire_of_head_length (skb : sk_buff) :
    (wire_of skb).head.length = skb.head.length := by
  simp [wire_of, poke16]

theorem wire_of_head_getElem? (skb : sk_buff) (j : Nat) :
    (wire_of skb).head[j]? =
      if j < skb.head.length then
        (if j = skb.data + 13 then some 0x40
         else if j = skb.data + 12 then some (pack_lo_macs (h_source skb 5) (h_dest skb 5))
         else if j = skb.data + 11 then some (u16 (qb_len_of (skb.len - 10)) / 256 % 256)
         else if j = skb.data + 10 then some (u16 (qb_len_of (skb.len - 10)) % 256)
         else skb.head[j]?)
      else none := by
  have hp : pack_lo_macs (h_source skb 5) (h_dest skb 5) % 256
      = pack_lo_macs (h_source skb 5) (h_dest skb 5) := by
    unfold pack_lo_macs u8; omega
  unfold wire_of poke16
  simp only [poke_head_getElem?, poke_data, poke_head_length, ETH_HLEN, SIZEOF_SSHDR]
  by_cases hj : j < skb.head.length
  · simp only [hj, if_true]
    by_cases h13 : j = skb.data + 13
    · subst h13; simp
    · by_cases h12 : j = skb.data + 12
      · subst h12; simp [hp]
      · by_cases h11 : j = skb.data + 11
        · subst h11; simp
        · by_cases h10 : j = skb.data + 10
          · subst h10; simp
          · have a : ¬ (skb.data + (14 - 4) + 3 = j) := by omega
            have b : ¬ (skb.data + (14 - 4) + 2 = j) := by omega
            have c : ¬ (skb.data + (14 - 4) + (0 + 1) = j) := by omega
            have d : ¬ (skb.data + (14 - 4) + 0 = j) := by omega
            simp [a, b, c, d, h13, h12, h11, h10]
  · have : skb.head[j]? = none := List.getElem?_eq_none (by omega)
    simp [hj, this]


/-- C1: `eth2ss` returns 0 on a frame with a full link-layer header exactly
when its network-layer type is IPv4 (0x0800) and the sixth byte of both the
source and the destination hardware address is at most 0xF; a frame it does
not accept gets -1 and is left as it was, in particular every frame whose
destination low byte is 0xFF and every frame with a low byte above 0xF. -/
theorem eth2ss_accepts_iff (skb : sk_buff) :
    (ETH_HLEN ≤ skb.len →
      (eth2ss_ret skb = some 0 ↔
        eth_type skb = 0x0800 ∧ h_source skb 5 ≤ 0xF ∧ h_dest skb 5 ≤ 0xF))
    ∧ (ETH_HLEN ≤ skb.len → eth2ss_ret skb ≠ some 0 → eth2ss skb = some (-1, skb))
    ∧ (h_dest skb 5 = 0xFF → eth2ss skb = some (-1, skb))
    ∧ (0xF < h_source skb 5 ∨ 0xF < h_dest skb 5 → eth2ss skb = some (-1, skb)) := by
  have hE : ETH_HLEN = 14 := rfl
  have hS : SIZEOF_SSHDR = 4 := rfl
  refine ⟨?_, ?_, ?_, ?_⟩
  · intro hlen
    constructor
    · intro h
      by_contra hp
      have := eth2ss_reject skb hp
      simp [eth2ss_ret, this] at h
    · intro hp
      have := eth2ss_accept skb hp (by omega)
      simp [eth2ss_ret, this]
  · intro hlen h
    apply eth2ss_reject
    intro hp
    apply h
    have := eth2ss_accept skb hp (by omega)
    simp [eth2ss_ret, this]
  · intro h
    apply eth2ss_reject
    rintro ⟨_, _, h3⟩
    omega
  · intro h
    apply eth2ss_reject
    rintro ⟨_, h2, h3⟩
    omega

theorem eth2ss_accepts_iff_witness :
    ETH_HLEN ≤ frame_ok.len ∧ h_dest frame_ok 5 ≠ 0xFF ∧
      (eth2ss_ret frame_ok = some 0 ↔
        eth_type frame_ok = 0x0800 ∧ h_source frame_ok 5 ≤ 0xF ∧ h_dest frame_ok 5 ≤ 0xF) :=
  ⟨by decide, by decide, (eth2ss_accepts_iff frame_ok).1 (by decide)⟩

/-- C3: for every length `1 ≤ L ≤ 262144` the value `q` that `eth2ss`
computes, `((L+3) & ~3)/4 - 1`, fits in 16 bits, and the length `d` that
`ss_rx_skb` recovers from it, `(q+1)*4`, is the least multiple of 4 that is
at least `L`, so `L ≤ d ≤ L+3`; for `L = 46`, `q = 11` and `d = 48`. -/
theorem quadbyte_length_roundtrip (L : Nat) (h1 : 1 ≤ L) (h2 : L ≤ 262144) :
    qb_len_of L = ((L + 3) &&& not32 3) / 4 - 1
    ∧ rx_len_of (qb_len_of L) = (qb_len_of L + 1) * 4
    ∧ qb_len_of L < 2 ^ 16
    ∧ 4 ∣ rx_len_of (qb_len_of L)
    ∧ L ≤ rx_len_of (qb_len_of L)
    ∧ rx_len_of (qb_len_of L) ≤ L + 3
    ∧ (∀ m, 4 ∣ m → L ≤ m → rx_len_of (qb_len_of L) ≤ m)
    ∧ qb_len_of 46 = 11 ∧ rx_len_of (qb_len_of 46) = 48 := by
  have hq : qb_len_of L = (L + 3) / 4 - 1 := qb_len_of_eq L (by omega) (by omega)
  have hq16 : qb_len_of L < 2 ^ 16 := by rw [hq]; omega
  have hd : rx_len_of (qb_len_of L) = 4 * (qb_len_of L + 1) := rx_len_of_eq _ hq16
  have hm : (L + 3) &&& not32 3 = 4 * ((L + 3) / 4) := land_not32_three (L + 3) (by omega)
  refine ⟨?_, ?_, hq16, ?_, ?_, ?_, ?_, by decide, by decide⟩
  · rw [hq, hm]; omega
  · rw [hd]; omega
  · rw [hd]; exact Dvd.intro _ rfl
  · rw [hd, hq]; omega
  · rw [hd, hq]; omega
  · intro m hm4 hLm
    rw [hd, hq]
    obtain ⟨k, rfl⟩ := hm4
    omega

theorem quadbyte_length_roundtrip_witness :
    1 ≤ 50 ∧ 50 ≤ 262144 ∧ qb_len_of 50 < 2 ^ 16 ∧ 4 ∣ rx_len_of (qb_len_of 50)
      ∧ 50 ≤ rx_len_of (qb_len_of 50) ∧ rx_len_of (qb_len_of 50) ≤ 50 + 3 :=
  ⟨by decide, by decide,
    (quadbyte_length_roundtrip 50 (by decide) (by decide)).2.2.1,
    (quadbyte_length_roundtrip 50 (by decide) (by decide)).2.2.2.1,
    (quadbyte_length_roundtrip 50 (by decide) (by decide)).2.2.2.2.1,
    (quadbyte_length_roundtrip 50 (by decide) (by decide)).2.2.2.2.2.1⟩

/-- C5: the host-identifier byte round-trips.  For `src_low`, `dst_low` in
0..15 the byte `eth2ss` packs is `(src_low << 4) | dst_low` and `ss2eth`
unpacks it to `src_low` and `dst_low`; for every byte `b`, packing
`(b >> 4, b & 0xF)` gives `b` back; `0x3` and `0xA` pack to `0x3A`. -/
theorem lo_macs_roundtrip :
    (∀ s d : Nat, s ≤ 15 → d ≤ 15 →
      pack_lo_macs s d = (s <<< 4) ||| d
      ∧ unpack_source (pack_lo_macs s d) = s
      ∧ unpack_dest (pack_lo_macs s d) = d
      ∧ pack_lo_macs s d >>> 4 = s
      ∧ pack_lo_macs s d &&& 0xF = d)
    ∧ (∀ b : Nat, b < 256 → pack_lo_macs (b >>> 4) (b &&& 0xF) = b)
    ∧ pack_lo_macs 0x3 0xA = 0x3A
    ∧ unpack_source 0x3A = 0x3 ∧ unpack_dest 0x3A = 0xA := by
  refine ⟨?_, ?_, by decide, by decide, by decide⟩
  · intro s d hs hd
    obtain ⟨p1, p2, p3⟩ := pack_unpack s d hs hd
    have hlt : pack_lo_macs s d < 256 := Nat.mod_lt _ (by decide)
    obtain ⟨_, q2, q3⟩ := unpack_pack _ hlt
    refine ⟨p1, p2, p3, ?_, ?_⟩
    · rw [← q2]; exact p2
    · rw [← q3]; exact p3
  · intro b hb
    obtain ⟨q1, q2, q3⟩ := unpack_pack b hb
    rw [← q2, ← q3]; exact q1

theorem lo_macs_roundtrip_witness :
    pack_lo_macs 7 9 = (7 <<< 4) ||| 9 ∧ unpack_source (pack_lo_macs 7 9) = 7
      ∧ unpack_dest (pack_lo_macs 7 9) = 9 ∧ pack_lo_macs 7 9 >>> 4 = 7
      ∧ pack_lo_macs 7 9 &&& 0xF = 9 :=
  lo_macs_roundtrip.1 7 9 (by decide) (by decide)



theorem wire_payload (skb : sk_buff) (hlen : ETH_HLEN ≤ skb.len) :
    ss_payload (wire_of skb) = eth_payload skb := by
  have hE : ETH_HLEN = 14 := rfl
  apply List.ext_getElem?
  intro i
  unfold ss_payload eth_payload
  rw [List.getElem?_drop, List.getElem?_drop, frame_bytes_getElem?, frame_bytes_getElem?,
    wire_of_head_getElem?, wire_of_len, wire_of_data]
  have hS : SIZEOF_SSHDR = 4 := rfl
  rw [hE, hS]
  by_cases h : 14 + i < skb.len
  · have h' : 4 + i < skb.len - 10 := by omega
    rw [if_pos h, if_pos h']
    by_cases hj : skb.data + 10 + (4 + i) < skb.head.length
    · have e : skb.data + 10 + (4 + i) = skb.data + (14 + i) := by omega
      have a : ¬ (skb.data + 10 + (4 + i) = skb.data + 13) := by omega
      have b : ¬ (skb.data + 10 + (4 + i) = skb.data + 12) := by omega
      have c : ¬ (skb.data + 10 + (4 + i) = skb.data + 11) := by omega
      have d : ¬ (skb.data + 10 + (4 + i) = skb.data + 10) := by omega
      rw [if_pos hj, if_neg a, if_neg b, if_neg c, if_neg d, e]
    · have : skb.head[skb.data + (14 + i)]? = none := List.getElem?_eq_none (by omega)
      rw [if_neg hj, this]
  · have h' : ¬ (4 + i < skb.len - 10) := by omega
    rw [if_neg h, if_neg h']

theorem wire_byte (skb : sk_buff) (hlen : ETH_HLEN ≤ skb.len)
    (hbuf : skb.data + skb.len ≤ skb.head.length) :
    byte_at (wire_of skb) 0 = u16 (qb_len_of (skb.len - 10)) % 256
    ∧ byte_at (wire_of skb) 1 = u16 (qb_len_of (skb.len - 10)) / 256 % 256
    ∧ byte_at (wire_of skb) 2 = pack_lo_macs (h_source skb 5) (h_dest skb 5)
    ∧ byte_at (wire_of skb) 3 = 0x40 := by
  have hE : ETH_HLEN = 14 := rfl
  have hp : pack_lo_macs (h_source skb 5) (h_dest skb 5) % 256
      = pack_lo_macs (h_source skb 5) (h_dest skb 5) := by
    unfold pack_lo_macs u8; omega
  have h0 : skb.data + 10 < skb.head.length := by omega
  have h1 : skb.data + 10 + 1 < skb.head.length := by omega
  have h2 : skb.data + 10 + 2 < skb.head.length := by omega
  have h3 : skb.data + 10 + 3 < skb.head.length := by omega
  refine ⟨?_, ?_, ?_, ?_⟩
  · rw [byte_at_eq, wire_of_head_getElem?, wire_of_data, Nat.add_zero]
    have a : ¬ (skb.data + 10 = skb.data + 13) := by omega
    have b : ¬ (skb.data + 10 = skb.data + 12) := by omega
    have c : ¬ (skb.data + 10 = skb.data + 11) := by omega
    rw [if_pos h0, if_neg a, if_neg b, if_neg c, if_pos rfl, Option.getD_some, Nat.mod_mod]
  · rw [byte_at_eq, wire_of_head_getElem?, wire_of_data]
    have a : ¬ (skb.data + 10 + 1 = skb.data + 13) := by omega
    have b : ¬ (skb.data + 10 + 1 = skb.data + 12) := by omega
    have c : skb.data + 10 + 1 = skb.data + 11 := by omega
    rw [if_pos h1, if_neg a, if_neg b, if_pos c, Option.getD_some, Nat.mod_mod]
  · rw [byte_at_eq, wire_of_head_getElem?, wire_of_data]
    have a : ¬ (skb.data + 10 + 2 = skb.data + 13) := by omega
    have b : skb.data + 10 + 2 = skb.data + 12 := by omega
    rw [if_pos h2, if_neg a, if_pos b, Option.getD_some, hp]
  · rw [byte_at_eq, wire_of_head_getElem?, wire_of_data]
    rw [if_pos h3, if_pos rfl, Option.getD_some]

theorem wire_length_field (skb : sk_buff) (hlen : ETH_HLEN ≤ skb.len)
    (hbuf : skb.data + skb.len ≤ skb.head.length) :
    sshdr_length (wire_of skb) = u16 (qb_len_of (skb.len - 10)) := by
  obtain ⟨b0, b1, _, _⟩ := wire_byte skb hlen hbuf
  unfold sshdr_length
  rw [b0, b1]
  have hq : u16 (qb_len_of (skb.len - 10)) < 65536 := Nat.mod_lt _ (by decide)
  generalize u16 (qb_len_of (skb.len - 10)) = q at hq
  omega

theorem eth_payload_length (skb : sk_buff) (hbuf : skb.data + skb.len ≤ skb.head.length) :
    (eth_payload skb).length = skb.len - ETH_HLEN := by
  unfold eth_payload frame_bytes
  rw [List.length_drop, List.length_take, List.length_drop]
  omega

/-- C7: on a frame that `eth2ss` accepts the rewrite is in place: the frame
starts 10 bytes later in the same buffer and is 10 bytes shorter, only the
four bytes of the wire header are written, byte 2 of the wire header is
`(source_low << 4) | dest_low`, byte 3 is 0x40, and the bytes that followed
the link-layer header are the bytes that now follow the wire header. -/
theorem eth2ss_rewrites_in_place (skb skb' : sk_buff)
    (hacc : eth2ss skb = some (0, skb'))
    (hlen : ETH_HLEN ≤ skb.len) (hbuf : skb.data + skb.len ≤ skb.head.length) :
    skb'.len + 10 = skb.len
    ∧ skb'.data = skb.data + 10
    ∧ skb'.head_addr = skb.head_addr
    ∧ skb'.head.length = skb.head.length
    ∧ (∀ j, j < skb.data + 10 ∨ skb.data + 14 ≤ j → skb'.head[j]? = skb.head[j]?)
    ∧ sshdr_lo_macs skb' = (h_source skb 5 <<< 4) ||| h_dest skb 5
    ∧ sshdr_hdr_type skb' = 0x40
    ∧ ss_payload skb' = eth_payload skb := by
  have hE : ETH_HLEN = 14 := rfl
  obtain ⟨hp, _, rfl⟩ := (eth2ss_zero_iff skb skb').mp hacc
  obtain ⟨_, _, b2, b3⟩ := wire_byte skb hlen hbuf
  refine ⟨?_, rfl, rfl, wire_of_head_length skb, ?_, ?_, b3, wire_payload skb hlen⟩
  · rw [wire_of_len]; omega
  · intro j hj
    rw [wire_of_head_getElem?]
    by_cases hl : j < skb.head.length
    · have a : ¬ (j = skb.data + 13) := by omega
      have b : ¬ (j = skb.data + 12) := by omega
      have c : ¬ (j = skb.data + 11) := by omega
      have d : ¬ (j = skb.data + 10) := by omega
      rw [if_pos hl, if_neg a, if_neg b, if_neg c, if_neg d]
    · rw [if_neg hl, List.getElem?_eq_none (by omega)]
  · unfold sshdr_lo_macs
    rw [b2]
    exact (pack_unpack _ _ hp.2.1 hp.2.2).1


theorem eth2ss_rewrites_in_place_witness :
    eth2ss frame_ok = some (0, wire_of frame_ok) ∧ ETH_HLEN ≤ frame_ok.len
      ∧ frame_ok.data + frame_ok.len ≤ frame_ok.head.length
      ∧ (wire_of frame_ok).len + 10 = frame_ok.len
      ∧ sshdr_lo_macs (wire_of frame_ok) = (h_source frame_ok 5 <<< 4) ||| h_dest frame_ok 5
      ∧ sshdr_hdr_type (wire_of frame_ok) = 0x40
      ∧ ss_payload (wire_of frame_ok) = eth_payload frame_ok :=
  ⟨by decide, by decide, by decide,
    (eth2ss_rewrites_in_place frame_ok (wire_of frame_ok) (by decide) (by decide)
      (by decide)).1,
    (eth2ss_rewrites_in_place frame_ok (wire_of frame_ok) (by decide) (by decide)
      (by decide)).2.2.2.2.2.1,
    (eth2ss_rewrites_in_place frame_ok (wire_of frame_ok) (by decide) (by decide)
      (by decide)).2.2.2.2.2.2.1,
    (eth2ss_rewrites_in_place frame_ok (wire_of frame_ok) (by decide) (by decide)
      (by decide)).2.2.2.2.2.2.2⟩

theorem spec_length_field_eq (p : Nat) (h : p + 3 < 2 ^ 32) :
    spec_length_field p = (p + 3) / 4 - 1 := by
  unfold spec_length_field
  have e : not32 3 = not32 (4 - 1) := rfl
  rw [e, land_not32_three (p + 3) h]
  omega

/-- C8, as stated, fails: on the accepted frame `frame_ok`, whose payload has
5 bytes, `eth2ss` writes 2 into the length field, and the formula of the
claim gives `((5 + 3) & ~3) / 4 - 1 = 1`. -/
theorem length_field_counterexample :
    eth2ss frame_ok = some (0, wire_of frame_ok)
      ∧ (eth_payload frame_ok).length = 5
      ∧ sshdr_length (wire_of frame_ok) = 2
      ∧ spec_length_field 5 = 1
      ∧ sshdr_length (wire_of frame_ok) ≠ spec_length_field (eth_payload frame_ok).length := by
  decide

/-- C8, amended: on a frame that `eth2ss` accepts, with `payload_len` payload
bytes and `payload_len + 4 ≤ 262144`, the length field is computed from the
payload together with the 4-byte wire header: it holds
`((payload_len + 4 + 3) & ~3) / 4 - 1`, which is `(payload_len + 3) / 4`, one
more than the value of the claim whenever the payload is not empty. -/
theorem length_field_counts_wire_header (skb skb' : sk_buff)
    (hacc : eth2ss skb = some (0, skb'))
    (hlen : ETH_HLEN ≤ skb.len) (hbuf : skb.data + skb.len ≤ skb.head.length)
    (hmax : (eth_payload skb).length + SIZEOF_SSHDR ≤ 262144) :
    sshdr_length skb' = spec_length_field ((eth_payload skb).length + SIZEOF_SSHDR)
    ∧ sshdr_length skb' = ((eth_payload skb).length + 3) / 4
    ∧ (1 ≤ (eth_payload skb).length →
        sshdr_length skb' = spec_length_field (eth_payload skb).length + 1) := by
  have hE : ETH_HLEN = 14 := rfl
  have hS : SIZEOF_SSHDR = 4 := rfl
  obtain ⟨_, _, rfl⟩ := (eth2ss_zero_iff skb skb').mp hacc
  have hpl := eth_payload_length skb hbuf
  rw [hS] at hmax
  rw [wire_length_field skb hlen hbuf, hpl, hE, hS]
  have hq : qb_len_of (skb.len - 10) = (skb.len - 10 + 3) / 4 - 1 :=
    qb_len_of_eq _ (by omega) (by omega)
  have h16 : u16 (qb_len_of (skb.len - 10)) = qb_len_of (skb.len - 10) := by
    unfold u16
    apply Nat.mod_eq_of_lt
    rw [hq]; omega
  rw [h16, hq, spec_length_field_eq _ (by omega)]
  refine ⟨by omega, by omega, ?_⟩
  intro h1
  rw [spec_length_field_eq _ (by omega)]
  omega

theorem length_field_counts_wire_header_witness :
    eth2ss frame_ok = some (0, wire_of frame_ok) ∧ ETH_HLEN ≤ frame_ok.len
      ∧ frame_ok.data + frame_ok.len ≤ frame_ok.head.length
      ∧ (eth_payload frame_ok).length + SIZEOF_SSHDR ≤ 262144
      ∧ sshdr_length (wire_of frame_ok)
          = spec_length_field ((eth_payload frame_ok).length + SIZEOF_SSHDR) :=
  ⟨by decide, by decide, by decide, by decide,
    (length_field_counts_wire_header frame_ok (wire_of frame_ok) (by decide) (by decide)
      (by decide) (by decide)).1⟩

/-! ## The buffer after `ss2eth` -/

@[simp] theorem memset_data (skb : sk_buff) (off v n : Nat) :
    (memset skb off v n).data = skb.data := by
  induction n with
  | zero => rfl
  | succ n ih => rw [memset, poke_data, ih]

@[simp] theorem memset_len (skb : sk_buff) (off v n : Nat) :
    (memset skb off v n).len = skb.len := by
  induction n with
  | zero => rfl
  | succ n ih => rw [memset, poke_len, ih]

@[simp] theorem memset_head_length (skb : sk_buff) (off v n : Nat) :
    (memset skb off v n).head.length = skb.head.length := by
  induction n with
  | zero => rfl
  | succ n ih => rw [memset, poke_head_length, ih]

theorem memset_head_getElem? (skb : sk_buff) (off v n j : Nat) :
    (memset skb off v n).head[j]? =
      if skb.data + off ≤ j ∧ j < skb.data + off + n ∧ j < skb.head.length then some (v % 256)
      else skb.head[j]? := by
  induction n with
  | zero =>
    have : ¬ (skb.data + off ≤ j ∧ j < skb.data + off + 0 ∧ j < skb.head.length) := by omega
    rw [if_neg this]; rfl
  | succ n ih =>
    rw [memset, poke_head_getElem?, memset_data, memset_head_length, ih]
    by_cases h1 : skb.data + (off + n) = j
    · rw [if_pos h1]
      by_cases h2 : j < skb.head.length
      · have : skb.data + off ≤ j ∧ j < skb.data + off + (n + 1) ∧ j < skb.head.length := by
          omega
        rw [if_pos h2, if_pos this]
      · have : ¬ (skb.data + off ≤ j ∧ j < skb.data + off + (n + 1) ∧ j < skb.head.length) := by
          omega
        rw [if_neg h2, if_neg this, List.getElem?_eq_none (by omega)]
    · rw [if_neg h1]
      by_cases h3 : skb.data + off ≤ j ∧ j < skb.data + off + n ∧ j < skb.head.length
      · have : skb.data + off ≤ j ∧ j < skb.data + off + (n + 1) ∧ j < skb.head.length := by
          omega
        rw [if_pos h3, if_pos this]
      · have : ¬ (skb.data + off ≤ j ∧ j < skb.data + off + (n + 1) ∧ j < skb.head.length) := by
          omega
        rw [if_neg h3, if_neg this]

@[simp] theorem memcpy_data (skb : sk_buff) (off : Nat) (src : List Nat) (n : Nat) :
    (memcpy skb off src n).data = skb.data := by
  induction n with
  | zero => rfl
  | succ n ih => rw [memcpy, poke_data, ih]

@[simp] theorem memcpy_len (skb : sk_buff) (off : Nat) (src : List Nat) (n : Nat) :
    (memcpy skb off src n).len = skb.len := by
  induction n with
  | zero => rfl
  | succ n ih => rw [memcpy, poke_len, ih]

@[simp] theorem memcpy_head_length (skb : sk_buff) (off : Nat) (src : List Nat) (n : Nat) :
    (memcpy skb off src n).head.length = skb.head.length := by
  induction n with
  | zero => rfl
  | succ n ih => rw [memcpy, poke_head_length, ih]

theorem memcpy_head_getElem? (skb : sk_buff) (off : Nat) (src : List Nat) (n j : Nat) :
    (memcpy skb off src n).head[j]? =
      if skb.data + off ≤ j ∧ j < skb.data + off + n ∧ j < skb.head.length then
        some (src.getD (j - (skb.data + off)) 0 % 256)
      else skb.head[j]? := by
  induction n with
  | zero =>
    have : ¬ (skb.data + off ≤ j ∧ j < skb.data + off + 0 ∧ j < skb.head.length) := by omega
    rw [if_neg this]; rfl
  | succ n ih =>
    rw [memcpy, poke_head_getElem?, memcpy_data, memcpy_head_length, ih]
    by_cases h1 : skb.data + (off + n) = j
    · rw [if_pos h1]
      by_cases h2 : j < skb.head.length
      · have : skb.data + off ≤ j ∧ j < skb.data + off + (n + 1) ∧ j < skb.head.length := by
          omega
        have e : j - (skb.data + off) = n := by omega
        rw [if_pos h2, if_pos this, e]
      · have : ¬ (skb.data + off ≤ j ∧ j < skb.data + off + (n + 1) ∧ j < skb.head.length) := by
          omega
        rw [if_neg h2, if_neg this, List.getElem?_eq_none (by omega)]
    · rw [if_neg h1]
      by_cases h3 : skb.data + off ≤ j ∧ j < skb.data + off + n ∧ j < skb.head.length
      · have : skb.data + off ≤ j ∧ j < skb.data + off + (n + 1) ∧ j < skb.head.length := by
          omega
        rw [if_pos h3, if_pos this]
      · have : ¬ (skb.data + off ≤ j ∧ j < skb.data + off + (n + 1) ∧ j < skb.head.length) := by
          omega
        rw [if_neg h3, if_neg this]



theorem ss2eth_eq (A : List Nat) (skb : sk_buff) (hroom : ETH_HLEN - SIZEOF_SSHDR ≤ skb.data) :
    ss2eth A skb = some (eth_of A skb) := by
  have c : ¬ (skb.data < ETH_HLEN - SIZEOF_SSHDR) := by omega
  unfold ss2eth skb_push
  rw [if_neg c]
  rfl

theorem eth_hdr_fill_data (A : List Nat) (lo : Nat) (s : sk_buff) :
    (eth_hdr_fill A lo s).data = s.data := by
  unfold eth_hdr_fill poke16
  rw [poke_data, poke_data, memcpy_data, memcpy_data, poke_data, poke_data, memset_data]

theorem eth_hdr_fill_len (A : List Nat) (lo : Nat) (s : sk_buff) :
    (eth_hdr_fill A lo s).len = s.len := by
  unfold eth_hdr_fill poke16
  rw [poke_len, poke_len, memcpy_len, memcpy_len, poke_len, poke_len, memset_len]

theorem eth_hdr_fill_head_length (A : List Nat) (lo : Nat) (s : sk_buff) :
    (eth_hdr_fill A lo s).head.length = s.head.length := by
  unfold eth_hdr_fill poke16
  rw [poke_head_length, poke_head_length, memcpy_head_length, memcpy_head_length,
    poke_head_length, poke_head_length, memset_head_length]

theorem eth_hdr_fill_head_getElem? (A : List Nat) (lo : Nat) (s : sk_buff) (j : Nat) :
    (eth_hdr_fill A lo s).head[j]? =
      if s.data + 5 = j then
        (if j < s.head.length then some (unpack_dest lo % 256) else none)
      else if s.data + (ETH_ALEN + 5) = j then
        (if j < s.head.length then some (unpack_source lo % 256) else none)
      else if s.data + 0 ≤ j ∧ j < s.data + 0 + ETH_ALEN ∧ j < s.head.length then
        some (A.getD (j - (s.data + 0)) 0 % 256)
      else if s.data + ETH_ALEN ≤ j ∧ j < s.data + ETH_ALEN + ETH_ALEN ∧ j < s.head.length then
        some (A.getD (j - (s.data + ETH_ALEN)) 0 % 256)
      else if s.data + (12 + 1) = j then
        (if j < s.head.length then some (htons ETH_P_IP / 256 % 256 % 256) else none)
      else if s.data + 12 = j then
        (if j < s.head.length then some (htons ETH_P_IP % 256 % 256) else none)
      else if s.data + 0 ≤ j ∧ j < s.data + 0 + ETH_HLEN ∧ j < s.head.length then
        some (0x00 % 256)
      else s.head[j]? := by
  unfold eth_hdr_fill poke16
  rw [poke_head_getElem?, poke_data, poke_head_length, poke_head_getElem?,
    memcpy_data, memcpy_head_length, memcpy_head_getElem?,
    memcpy_data, memcpy_head_length, memcpy_head_getElem?,
    poke_data, poke_head_length, poke_head_getElem?,
    poke_data, poke_head_length, poke_head_getElem?,
    memset_data, memset_head_length, memset_head_getElem?]



theorem htons_ip : htons ETH_P_IP / 256 % 256 % 256 = 0 ∧ htons ETH_P_IP % 256 % 256 = 8 := by
  decide

/-- The bytes of the buffer after the header fill of `ss2eth`, by position. -/
theorem eth_hdr_fill_head (A : List Nat) (lo : Nat) (s : sk_buff) (j : Nat)
    (hj : j < s.head.length) :
    (j < s.data ∨ s.data + 14 ≤ j → (eth_hdr_fill A lo s).head[j]? = s.head[j]?)
    ∧ (s.data ≤ j ∧ j < s.data + 5 →
        (eth_hdr_fill A lo s).head[j]? = some (A.getD (j - s.data) 0 % 256))
    ∧ (j = s.data + 5 → (eth_hdr_fill A lo s).head[j]? = some (unpack_dest lo % 256))
    ∧ (s.data + 6 ≤ j ∧ j < s.data + 11 →
        (eth_hdr_fill A lo s).head[j]? = some (A.getD (j - (s.data + 6)) 0 % 256))
    ∧ (j = s.data + 11 → (eth_hdr_fill A lo s).head[j]? = some (unpack_source lo % 256))
    ∧ (j = s.data + 12 → (eth_hdr_fill A lo s).head[j]? = some 8)
    ∧ (j = s.data + 13 → (eth_hdr_fill A lo s).head[j]? = some 0) := by
  have hE6 : ETH_ALEN = 6 := rfl
  have hE14 : ETH_HLEN = 14 := rfl
  rw [eth_hdr_fill_head_getElem?, htons_ip.1, htons_ip.2, hE6, hE14]
  generalize s.data = d at *
  generalize s.head.length = L at *
  generalize s.head[j]? = x at *
  refine ⟨?_, ?_, ?_, ?_, ?_, ?_, ?_⟩
  · intro h
    have c1 : ¬ (d + 5 = j) := by omega
    have c2 : ¬ (d + (6 + 5) = j) := by omega
    have c3 : ¬ (d + 0 ≤ j ∧ j < d + 0 + 6 ∧ j < L) := by omega
    have c4 : ¬ (d + 6 ≤ j ∧ j < d + 6 + 6 ∧ j < L) := by omega
    have c5 : ¬ (d + (12 + 1) = j) := by omega
    have c6 : ¬ (d + 12 = j) := by omega
    have c7 : ¬ (d + 0 ≤ j ∧ j < d + 0 + 14 ∧ j < L) := by omega
    rw [if_neg c1, if_neg c2, if_neg c3, if_neg c4, if_neg c5, if_neg c6, if_neg c7]
  · intro h
    have c1 : ¬ (d + 5 = j) := by omega
    have c2 : ¬ (d + (6 + 5) = j) := by omega
    have c3 : d + 0 ≤ j ∧ j < d + 0 + 6 ∧ j < L := by omega
    rw [if_neg c1, if_neg c2, if_pos c3, Nat.add_zero]
  · intro h
    have c1 : d + 5 = j := by omega
    rw [if_pos c1, if_pos hj]
  · intro h
    have c1 : ¬ (d + 5 = j) := by omega
    have c2 : ¬ (d + (6 + 5) = j) := by omega
    have c3 : ¬ (d + 0 ≤ j ∧ j < d + 0 + 6 ∧ j < L) := by omega
    have c4 : d + 6 ≤ j ∧ j < d + 6 + 6 ∧ j < L := by omega
    rw [if_neg c1, if_neg c2, if_neg c3, if_pos c4]
  · intro h
    have c1 : ¬ (d + 5 = j) := by omega
    have c2 : d + (6 + 5) = j := by omega
    rw [if_neg c1, if_pos c2, if_pos hj]
  · intro h
    have c1 : ¬ (d + 5 = j) := by omega
    have c2 : ¬ (d + (6 + 5) = j) := by omega
    have c3 : ¬ (d + 0 ≤ j ∧ j < d + 0 + 6 ∧ j < L) := by omega
    have c4 : ¬ (d + 6 ≤ j ∧ j < d + 6 + 6 ∧ j < L) := by omega
    have c5 : ¬ (d + (12 + 1) = j) := by omega
    have c6 : d + 12 = j := by omega
    rw [if_neg c1, if_neg c2, if_neg c3, if_neg c4, if_neg c5, if_pos c6, if_pos hj]
  · intro h
    have c1 : ¬ (d + 5 = j) := by omega
    have c2 : ¬ (d + (6 + 5) = j) := by omega
    have c3 : ¬ (d + 0 ≤ j ∧ j < d + 0 + 6 ∧ j < L) := by omega
    have c4 : ¬ (d + 6 ≤ j ∧ j < d + 6 + 6 ∧ j < L) := by omega
    have c5 : d + (12 + 1) = j := by omega
    rw [if_neg c1, if_neg c2, if_neg c3, if_neg c4, if_pos c5, if_pos hj]



theorem eth_of_data (A : List Nat) (skb : sk_buff) : (eth_of A skb).data = skb.data - 10 := by
  unfold eth_of; rw [eth_hdr_fill_data]; rfl

theorem eth_of_len (A : List Nat) (skb : sk_buff) : (eth_of A skb).len = skb.len + 10 := by
  unfold eth_of; rw [eth_hdr_fill_len]; rfl

theorem eth_of_head_length (A : List Nat) (skb : sk_buff) :
    (eth_of A skb).head.length = skb.head.length := by
  unfold eth_of; rw [eth_hdr_fill_head_length]

/-- The bytes of the buffer after `ss2eth`, by position. -/
theorem eth_of_head (A : List Nat) (skb : sk_buff) (j : Nat) (hroom : 10 ≤ skb.data)
    (hj : j < skb.head.length) :
    (j < skb.data - 10 ∨ skb.data + 4 ≤ j → (eth_of A skb).head[j]? = skb.head[j]?)
    ∧ (skb.data - 10 ≤ j ∧ j < skb.data - 10 + 5 →
        (eth_of A skb).head[j]? = some (A.getD (j - (skb.data - 10)) 0 % 256))
    ∧ (j = skb.data - 10 + 5 →
        (eth_of A skb).head[j]? = some (unpack_dest (sshdr_lo_macs skb) % 256))
    ∧ (skb.data - 10 + 6 ≤ j ∧ j < skb.data - 10 + 11 →
        (eth_of A skb).head[j]? = some (A.getD (j - (skb.data - 10 + 6)) 0 % 256))
    ∧ (j = skb.data - 10 + 11 →
        (eth_of A skb).head[j]? = some (unpack_source (sshdr_lo_macs skb) % 256))
    ∧ (j = skb.data - 10 + 12 → (eth_of A skb).head[j]? = some 8)
    ∧ (j = skb.data - 10 + 13 → (eth_of A skb).head[j]? = some 0) := by
  have key := eth_hdr_fill_head A (sshdr_lo_macs skb)
    { skb with data := skb.data - (ETH_HLEN - SIZEOF_SSHDR),
               len := skb.len + (ETH_HLEN - SIZEOF_SSHDR) } j hj
  have e : skb.data - 10 + 14 = skb.data + 4 := by omega
  rw [← e]
  exact key

theorem dev_addr_byte (A : List Nat) (hA : A.length = ETH_ALEN) (hAb : ∀ x ∈ A, x < 256)
    (i : Nat) (hi : i < 6) : A[i]? = some (A.getD i 0 % 256) := by
  have hE : ETH_ALEN = 6 := rfl
  have hl : i < A.length := by omega
  rw [List.getD_eq_getElem?_getD, List.getElem?_eq_getElem hl, Option.getD_some,
    Nat.mod_eq_of_lt (hAb _ (List.getElem_mem hl))]



theorem byte_at_of_some (skb : sk_buff) (off v : Nat) (h : skb.head[skb.data + off]? = some v) :
    byte_at skb off = v % 256 := by
  rw [byte_at_eq, h, Option.getD_some]

/-- The frame `ss2eth` builds: both addresses are the device address with
the sixth byte taken from the wire header, the type is IPv4, the payload is
what followed the wire header. -/
theorem ss2eth_frame (A : List Nat) (skb : sk_buff) (hA : A.length = ETH_ALEN)
    (hAb : ∀ x ∈ A, x < 256) (hroom : ETH_HLEN - SIZEOF_SSHDR ≤ skb.data)
    (hlen : SIZEOF_SSHDR ≤ skb.len) (hbuf : skb.data + skb.len ≤ skb.head.length) :
    (frame_bytes (eth_of A skb)).take 6 = A.set 5 (sshdr_lo_macs skb &&& 0xF)
    ∧ ((frame_bytes (eth_of A skb)).drop 6).take 6 = A.set 5 (sshdr_lo_macs skb >>> 4)
    ∧ eth_type (eth_of A skb) = 0x0800
    ∧ eth_payload (eth_of A skb) = ss_payload skb := by
  have hE6 : ETH_ALEN = 6 := rfl
  have hE14 : ETH_HLEN = 14 := rfl
  have hS : SIZEOF_SSHDR = 4 := rfl
  rw [hE14, hS] at hroom
  rw [hS] at hlen
  rw [hE6] at hA
  have hlo : sshdr_lo_macs skb < 256 := byte_at_lt skb 2
  obtain ⟨_, us, ud⟩ := unpack_pack _ hlo
  have hud : unpack_dest (sshdr_lo_macs skb) % 256 = sshdr_lo_macs skb &&& 0xF := by
    rw [← ud]; unfold unpack_dest u8; exact Nat.mod_mod _ _
  have hus : unpack_source (sshdr_lo_macs skb) % 256 = sshdr_lo_macs skb >>> 4 := by
    rw [← us]; unfold unpack_source u8; exact Nat.mod_mod _ _
  refine ⟨?_, ?_, ?_, ?_⟩
  · apply List.ext_getElem?
    intro i
    rw [List.getElem?_take, frame_bytes_getElem?, eth_of_len, eth_of_data, List.getElem?_set]
    by_cases h6 : i < 6
    · have hi : i < skb.len + 10 := by omega
      have hj : skb.data - 10 + i < skb.head.length := by omega
      rw [if_pos h6, if_pos hi]
      by_cases h5 : 5 = i
      · have h5' : 5 < A.length := by omega
        rw [if_pos h5, if_pos h5', ← h5, ((eth_of_head A skb _ hroom (by omega)).2.2.1 rfl), hud]
      · rw [if_neg h5, (eth_of_head A skb _ hroom hj).2.1 (by omega),
          dev_addr_byte A (by rw [hA]; rfl) hAb i h6]
        have e : skb.data - 10 + i - (skb.data - 10) = i := by omega
        rw [e]
    · have h5 : ¬ (5 = i) := by omega
      rw [if_neg h6, if_neg h5, List.getElem?_eq_none (by omega)]
  · apply List.ext_getElem?
    intro i
    rw [List.getElem?_take, List.getElem?_drop, frame_bytes_getElem?, eth_of_len, eth_of_data,
      List.getElem?_set]
    by_cases h6 : i < 6
    · have hi : 6 + i < skb.len + 10 := by omega
      have hj : skb.data - 10 + (6 + i) < skb.head.length := by omega
      rw [if_pos h6, if_pos hi]
      by_cases h5 : 5 = i
      · have h5' : 5 < A.length := by omega
        have e : skb.data - 10 + (6 + i) = skb.data - 10 + 11 := by omega
        rw [if_pos h5, if_pos h5', e, ((eth_of_head A skb _ hroom (by omega)).2.2.2.2.1 rfl), hus]
      · rw [if_neg h5, (eth_of_head A skb _ hroom hj).2.2.2.1 (by omega),
          dev_addr_byte A (by rw [hA]; rfl) hAb i h6]
        have e : skb.data - 10 + (6 + i) - (skb.data - 10 + 6) = i := by omega
        rw [e]
    · have h5 : ¬ (5 = i) := by omega
      rw [if_neg h6, if_neg h5, List.getElem?_eq_none (by omega)]
  · unfold eth_type
    have h12 : (eth_of A skb).head[(eth_of A skb).data + 12]? = some 8 := by
      rw [eth_of_data]
      exact (eth_of_head A skb _ hroom (by omega)).2.2.2.2.2.1 rfl
    have h13 : (eth_of A skb).head[(eth_of A skb).data + 13]? = some 0 := by
      rw [eth_of_data]
      exact (eth_of_head A skb _ hroom (by omega)).2.2.2.2.2.2 rfl
    rw [byte_at_of_some _ _ _ h12, byte_at_of_some _ _ _ h13]
  · apply List.ext_getElem?
    intro i
    unfold eth_payload ss_payload
    rw [List.getElem?_drop, List.getElem?_drop, frame_bytes_getElem?, frame_bytes_getElem?,
      eth_of_len, eth_of_data, hE14, hS]
    have e : skb.data - 10 + (14 + i) = skb.data + (4 + i) := by omega
    rw [e]
    by_cases h : 4 + i < skb.len
    · have h' : 14 + i < skb.len + 10 := by omega
      rw [if_pos h, if_pos h', (eth_of_head A skb _ hroom (by omega)).1 (by omega)]
    · have h' : ¬ (14 + i < skb.len + 10) := by omega
      rw [if_neg h, if_neg h']


/-- C6: for a wire frame with host-identifier byte `b` and a local device
address `A`, `ss2eth` yields a frame 10 bytes longer whose link-layer header
has destination `A` with sixth byte `b & 0xF`, source `A` with sixth byte
`b >> 4` and type 0x0800, and whose payload is the bytes that followed the
4-byte wire header.  Hence after `eth2ss` and then `ss2eth` both addresses
are the device address in their first five bytes, whatever the original
frame held there, and the original low bytes in the sixth. -/
theorem ss2eth_header (A : List Nat) (hA : A.length = ETH_ALEN) (hAb : ∀ x ∈ A, x < 256) :
    (∀ skb : sk_buff, ETH_HLEN - SIZEOF_SSHDR ≤ skb.data → SIZEOF_SSHDR ≤ skb.len →
      skb.data + skb.len ≤ skb.head.length →
      ∃ out, ss2eth A skb = some out
        ∧ out.len = skb.len + 10
        ∧ (frame_bytes out).take 6 = A.set 5 (sshdr_lo_macs skb &&& 0xF)
        ∧ ((frame_bytes out).drop 6).take 6 = A.set 5 (sshdr_lo_macs skb >>> 4)
        ∧ eth_type out = 0x0800
        ∧ eth_payload out = ss_payload skb)
    ∧ (∀ orig wire : sk_buff, eth2ss orig = some (0, wire) → ETH_HLEN ≤ orig.len →
      orig.data + orig.len ≤ orig.head.length →
      ∃ out, ss2eth A wire = some out
        ∧ (frame_bytes out).take 6 = A.set 5 (h_dest orig 5)
        ∧ ((frame_bytes out).drop 6).take 6 = A.set 5 (h_source orig 5)) := by
  have hE14 : ETH_HLEN = 14 := rfl
  have hS : SIZEOF_SSHDR = 4 := rfl
  constructor
  · intro skb hroom hlen hbuf
    obtain ⟨f1, f2, f3, f4⟩ := ss2eth_frame A skb hA hAb hroom hlen hbuf
    exact ⟨eth_of A skb, ss2eth_eq A skb hroom, eth_of_len A skb, f1, f2, f3, f4⟩
  · intro orig wire hacc hlen hbuf
    obtain ⟨hp, _, rfl⟩ := (eth2ss_zero_iff orig wire).mp hacc
    have hroom : ETH_HLEN - SIZEOF_SSHDR ≤ (wire_of orig).data := by
      rw [wire_of_data, hE14, hS]; omega
    have hlen' : SIZEOF_SSHDR ≤ (wire_of orig).len := by
      rw [wire_of_len, hS]; omega
    have hbuf' : (wire_of orig).data + (wire_of orig).len ≤ (wire_of orig).head.length := by
      rw [wire_of_data, wire_of_len, wire_of_head_length]; omega
    obtain ⟨f1, f2, _, _⟩ := ss2eth_frame A (wire_of orig) hA hAb hroom hlen' hbuf'
    obtain ⟨_, _, b2, _⟩ := wire_byte orig hlen hbuf
    obtain ⟨_, p2, p3⟩ := pack_unpack _ _ hp.2.1 hp.2.2
    have hlt : pack_lo_macs (h_source orig 5) (h_dest orig 5) < 256 := Nat.mod_lt _ (by decide)
    obtain ⟨_, q2, q3⟩ := unpack_pack _ hlt
    have hlo : sshdr_lo_macs (wire_of orig) = pack_lo_macs (h_source orig 5) (h_dest orig 5) := b2
    rw [hlo, ← q3, p3] at f1
    rw [hlo, ← q2, p2] at f2
    exact ⟨eth_of A (wire_of orig), ss2eth_eq A _ hroom, f1, f2⟩

theorem ss2eth_header_witness :
    dev_addr_ok.length = ETH_ALEN ∧ (∀ x ∈ dev_addr_ok, x < 256)
      ∧ eth2ss frame_ok = some (0, wire_of frame_ok) ∧ ETH_HLEN ≤ frame_ok.len
      ∧ frame_ok.data + frame_ok.len ≤ frame_ok.head.length
      ∧ ∃ out, ss2eth dev_addr_ok (wire_of frame_ok) = some out
        ∧ (frame_bytes out).take 6 = dev_addr_ok.set 5 (h_dest frame_ok 5)
        ∧ ((frame_bytes out).drop 6).take 6 = dev_addr_ok.set 5 (h_source frame_ok 5) :=
  ⟨by decide, by decide, by decide, by decide, by decide,
    (ss2eth_header dev_addr_ok (by decide) (by decide)).2 frame_ok (wire_of frame_ok)
      (by decide) (by decide) (by decide)⟩

/-! ## Rejected frames in `ss_tx` -/

theorem eth2ss_crash (skb : sk_buff) (hp : eth2ss_passes skb)
    (hl : ¬ (ETH_HLEN - SIZEOF_SSHDR ≤ skb.len)) : eth2ss skb = none := by
  have hs := lo_mac_range (h_source skb 5) (byte_at_lt _ _)
  have hd := lo_mac_range (h_dest skb 5) (byte_at_lt _ _)
  obtain ⟨h1, h2, h3⟩ := hp
  have c1 : ¬ (h_proto skb ≠ ntohs ETH_P_IP) := fun h => h ((h_proto_ip_iff skb).mpr h1)
  have c2 : ¬ h_dest skb 5 = 0xFF := by omega
  have c3 : ¬ ((h_source skb 5 &&& not32 0xF) ≠ 0 ∨ (h_dest skb 5 &&& not32 0xF) ≠ 0) := by
    intro hc
    rcases hc with hc | hc
    · have := hs.mp hc; omega
    · have := hd.mp hc; omega
  have c4 : ETH_HLEN - SIZEOF_SSHDR > skb.len := by omega
  unfold eth2ss skb_pull
  rw [if_neg c1, if_neg c2, if_neg c3, if_pos c4]

theorem eth2ss_rejected (skb : sk_buff) (hrej : eth2ss_ret skb = some (-1)) :
    eth2ss skb = some (-1, skb) := by
  by_cases hp : eth2ss_passes skb
  · exfalso
    by_cases hl : ETH_HLEN - SIZEOF_SSHDR ≤ skb.len
    · rw [eth2ss_ret, eth2ss_accept skb hp hl] at hrej
      have h0 : (0 : Int) = -1 := Option.some.inj hrej
      exact absurd h0 (by decide)
    · rw [eth2ss_ret, eth2ss_crash skb hp hl] at hrej
      exact Option.noConfusion hrej
  · exact eth2ss_reject skb hp

/-- C2: when the queue is not stopped, `ss_tx` on a frame that `eth2ss`
rejects returns 0 and leaves the device as it was but for two things:
`tx_errors` is one higher and the frame, with its bytes and length as they
were on entry, has been handed to `dev_kfree_skb_any`.  The private area
(free list, pending table, mailbox and its cursors) and the other counters
are unchanged. -/
theorem ss_tx_drops_rejected (env : tx_env) (skb : sk_buff) (netdev : net_device)
    (hq : netdev.queue_stopped = false) (hrej : eth2ss_ret skb = some (-1)) :
    eth2ss skb = some (-1, skb)
    ∧ ss_tx env skb netdev = some
        { ret := 0, skb := skb,
          netdev := { netdev with
            stats := { netdev.stats with tx_errors := u64 (netdev.stats.tx_errors + 1) },
            freed_skbs := skb :: netdev.freed_skbs } }
    ∧ (netdev.stats.tx_errors + 1 < 2 ^ 64 →
        u64 (netdev.stats.tx_errors + 1) = netdev.stats.tx_errors + 1)
    ∧ (∀ res, ss_tx env skb netdev = some res →
        res.ret = 0 ∧ res.ret ≠ NETDEV_TX_BUSY
        ∧ res.skb = skb
        ∧ res.netdev.freed_skbs = skb :: netdev.freed_skbs
        ∧ res.netdev.stats.tx_errors = u64 (netdev.stats.tx_errors + 1)
        ∧ res.netdev.stats.tx_packets = netdev.stats.tx_packets
        ∧ res.netdev.stats.tx_bytes = netdev.stats.tx_bytes
        ∧ res.netdev.priv = netdev.priv
        ∧ tx_free_list res.netdev.priv = tx_free_list netdev.priv
        ∧ res.netdev.priv.mailbox = netdev.priv.mailbox
        ∧ res.netdev.priv.mailbox_cached_read = netdev.priv.mailbox_cached_read
        ∧ res.netdev.priv.mailbox_cached_write = netdev.priv.mailbox_cached_write
        ∧ res.netdev.queue_stopped = false) := by
  have he := eth2ss_rejected skb hrej
  have hrun : ss_tx env skb netdev = some
        { ret := 0, skb := skb,
          netdev := { netdev with
            stats := { netdev.stats with tx_errors := u64 (netdev.stats.tx_errors + 1) },
            freed_skbs := skb :: netdev.freed_skbs } } := by
    unfold ss_tx
    rw [hq, he]
    rfl
  refine ⟨he, hrun, ?_, ?_⟩
  · intro h
    exact Nat.mod_eq_of_lt h
  · intro res hres
    rw [hrun] at hres
    cases hres
    have hb : (0 : Nat) ≠ NETDEV_TX_BUSY := by decide
    exact ⟨rfl, hb, rfl, rfl, rfl, rfl, rfl, rfl, rfl, rfl, rfl, rfl, hq⟩

theorem ss_tx_drops_rejected_witness :
    netdev_ok.queue_stopped = false ∧ eth2ss_ret frame_bcast = some (-1)
      ∧ ss_tx tx_env_ok frame_bcast netdev_ok = some
        { ret := 0, skb := frame_bcast,
          netdev := { netdev_ok with
            stats := { netdev_ok.stats with tx_errors := u64 (netdev_ok.stats.tx_errors + 1) },
            freed_skbs := frame_bcast :: netdev_ok.freed_skbs } } :=
  ⟨by decide, by decide,
    (ss_tx_drops_rejected tx_env_ok frame_bcast netdev_ok (by decide) (by decide)).2.1⟩


/-! ## Receive path -/

theorem frame_bytes_length (skb : sk_buff) (hbuf : skb.data + skb.len ≤ skb.head.length) :
    (frame_bytes skb).length = skb.len := by
  unfold frame_bytes
  rw [List.length_take, List.length_drop]
  omega

/-- The device after `ss_rx_skb`, once the put and the push have gone through. -/
theorem ss_rx_skb_of (netdev : net_device) (rx skb1 skb2 : sk_buff)
    (h1 : skb_put rx (rx_len_of (tail_sshdr_length rx)) = some skb1)
    (h2 : ss2eth netdev.dev_addr skb1 = some skb2) (h3 : ETH_HLEN ≤ skb2.len) :
    ss_rx_skb netdev rx = some { netdev with
        stats := { netdev.stats with
          rx_packets := u64 (netdev.stats.rx_packets + 1),
          rx_bytes := u64 (netdev.stats.rx_bytes + rx_len_of (tail_sshdr_length rx)) },
        rx_delivered :=
          { skb2 with protocol := htons ETH_P_IP, ip_summed := CHECKSUM_UNNECESSARY,
                      mac_header := skb2.data, data := skb2.data + ETH_HLEN,
                      len := skb2.len - ETH_HLEN } :: netdev.rx_delivered } := by
  have c : ¬ (ETH_HLEN > skb2.len) := by omega
  unfold ss_rx_skb
  dsimp only
  rw [h1]
  dsimp only
  rw [h2]
  dsimp only
  unfold skb_pull
  dsimp only
  rw [if_neg c]
  rfl



theorem wire_length_value (skb : sk_buff) (hlen : ETH_HLEN ≤ skb.len)
    (hbuf : skb.data + skb.len ≤ skb.head.length) (hmax : skb.len - 10 ≤ 262144) :
    sshdr_length (wire_of skb) = (skb.len - 10 + 3) / 4 - 1 := by
  have hE : ETH_HLEN = 14 := rfl
  have hq : qb_len_of (skb.len - 10) = (skb.len - 10 + 3) / 4 - 1 :=
    qb_len_of_eq _ (by omega) (by omega)
  rw [wire_length_field skb hlen hbuf]
  unfold u16
  rw [hq]
  apply Nat.mod_eq_of_lt
  omega

theorem rx_sees_wire (rx wire : sk_buff) (rest : List Nat)
    (hwire : rx.head.drop rx.data = frame_bytes wire ++ rest)
    (hbuf : wire.data + wire.len ≤ wire.head.length) (i : Nat) (hi : i < wire.len) :
    byte_at rx i = byte_at wire i := by
  have e1 : rx.head[rx.data + i]? = (rx.head.drop rx.data)[i]? := (List.getElem?_drop _ _ _).symm
  have hl : i < (frame_bytes wire).length := by rw [frame_bytes_length wire hbuf]; exact hi
  rw [byte_at_eq, byte_at_eq, e1, hwire, List.getElem?_append, if_pos hl, frame_bytes_getElem?,
    if_pos hi]

theorem eth_of_payload (A : List Nat) (skb : sk_buff) (hroom : ETH_HLEN - SIZEOF_SSHDR ≤ skb.data)
    (hbuf : skb.data + skb.len ≤ skb.head.length) :
    eth_payload (eth_of A skb) = ss_payload skb := by
  have hE14 : ETH_HLEN = 14 := rfl
  have hS : SIZEOF_SSHDR = 4 := rfl
  rw [hE14, hS] at hroom
  apply List.ext_getElem?
  intro i
  unfold eth_payload ss_payload
  rw [List.getElem?_drop, List.getElem?_drop, frame_bytes_getElem?, frame_bytes_getElem?,
    eth_of_len, eth_of_data, hE14, hS]
  have e : skb.data - 10 + (14 + i) = skb.data + (4 + i) := by omega
  rw [e]
  by_cases h : 4 + i < skb.len
  · have h' : 14 + i < skb.len + 10 := by omega
    rw [if_pos h, if_pos h', (eth_of_head A skb _ hroom (by omega)).1 (by omega)]
  · have h' : ¬ (14 + i < skb.len + 10) := by omega
    rw [if_neg h, if_neg h']

theorem frame_bytes_pulled (skb : sk_buff) (n : Nat) (p i m : Nat) :
    frame_bytes { skb with protocol := p, ip_summed := i, mac_header := m,
                           data := skb.data + n, len := skb.len - n }
      = (frame_bytes skb).drop n := by
  unfold frame_bytes
  rw [List.drop_take, List.drop_drop]

/-- The payload the receive path delivers for a wire frame that sits at
`rx->data` followed by `rest`. -/
theorem rx_delivers (netdev : net_device) (orig rx : sk_buff) (rest : List Nat)
    (hlen : ETH_HLEN ≤ orig.len) (hbuf : orig.data + orig.len ≤ orig.head.length)
    (hmax : (eth_payload orig).length + SIZEOF_SSHDR ≤ 262144)
    (hrx0 : rx.len = 0) (hroom : ETH_HLEN - SIZEOF_SSHDR ≤ rx.data)
    (hwire : rx.head.drop rx.data = frame_bytes (wire_of orig) ++ rest)
    (hfit : rx.data + rx_len_of (sshdr_length (wire_of orig)) ≤ rx.head.length) :
    ∃ nd d, ss_rx_skb netdev rx = some nd ∧ nd.rx_delivered = d :: netdev.rx_delivered
      ∧ frame_bytes d = eth_payload orig
          ++ rest.take (4 * (((eth_payload orig).length + 3) / 4) - (eth_payload orig).length) := by
  have hE14 : ETH_HLEN = 14 := rfl
  have hS : SIZEOF_SSHDR = 4 := rfl
  have hpl := eth_payload_length orig hbuf
  rw [hE14] at hpl
  rw [hS] at hmax
  have hwbuf : (wire_of orig).data + (wire_of orig).len ≤ (wire_of orig).head.length := by
    rw [wire_of_data, wire_of_len, wire_of_head_length]; omega
  have hwlen : (wire_of orig).len = orig.len - 10 := wire_of_len orig
  have hq := wire_length_value orig hlen hbuf (by omega)
  have hq16 : sshdr_length (wire_of orig) < 2 ^ 16 := by rw [hq]; omega
  have hD := rx_len_of_eq _ hq16
  have ht : tail_sshdr_length rx = sshdr_length (wire_of orig) := by
    unfold tail_sshdr_length sshdr_length
    rw [hrx0, rx_sees_wire rx _ rest hwire hwbuf 0 (by omega),
      rx_sees_wire rx _ rest hwire hwbuf (0 + 1) (by omega)]
  have hput : skb_put rx (rx_len_of (tail_sshdr_length rx))
      = some { rx with len := rx.len + rx_len_of (sshdr_length (wire_of orig)) } := by
    unfold skb_put
    rw [ht]
    have c : ¬ (rx.data + rx.len + rx_len_of (sshdr_length (wire_of orig)) > rx.head.length) := by
      omega
    rw [if_neg c]
  have hroom1 : ETH_HLEN - SIZEOF_SSHDR
      ≤ ({ rx with len := rx.len + rx_len_of (sshdr_length (wire_of orig)) } : sk_buff).data :=
    hroom
  have hss := ss2eth_eq netdev.dev_addr _ hroom1
  have h3 : ETH_HLEN ≤ (eth_of netdev.dev_addr
      { rx with len := rx.len + rx_len_of (sshdr_length (wire_of orig)) }).len := by
    rw [eth_of_len, hE14]
    show 14 ≤ rx.len + rx_len_of (sshdr_length (wire_of orig)) + 10
    omega
  refine ⟨_, _, ss_rx_skb_of netdev rx _ _ hput hss h3, rfl, ?_⟩
  rw [frame_bytes_pulled]
  have hbuf1 : ({ rx with len := rx.len + rx_len_of (sshdr_length (wire_of orig)) } : sk_buff).data
      + ({ rx with len := rx.len + rx_len_of (sshdr_length (wire_of orig)) } : sk_buff).len
      ≤ ({ rx with len := rx.len + rx_len_of (sshdr_length (wire_of orig)) } : sk_buff).head.length := by
    show rx.data + (rx.len + rx_len_of (sshdr_length (wire_of orig))) ≤ rx.head.length
    omega
  have hpay := eth_of_payload netdev.dev_addr _ hroom1 hbuf1
  unfold eth_payload at hpay
  rw [hpay]
  unfold ss_payload
  have hfb : frame_bytes ({ rx with len := rx.len + rx_len_of (sshdr_length (wire_of orig)) } : sk_buff)
      = (frame_bytes (wire_of orig) ++ rest).take (rx_len_of (sshdr_length (wire_of orig))) := by
    unfold frame_bytes
    show List.take (rx.len + rx_len_of (sshdr_length (wire_of orig))) (List.drop rx.data rx.head) = _
    rw [hrx0, Nat.zero_add, hwire]
    rfl
  rw [hfb, List.drop_take, hS]
  have hwl : (frame_bytes (wire_of orig)).length = orig.len - 10 := by
    rw [frame_bytes_length _ hwbuf, hwlen]
  have hdrop : List.drop 4 (frame_bytes (wire_of orig) ++ rest) = eth_payload orig ++ rest := by
    rw [List.drop_append_of_le_length (by rw [hwl]; omega)]
    have := wire_payload orig hlen
    unfold ss_payload at this
    rw [hS] at this
    rw [this]
  rw [hdrop, List.take_append_eq_append_take, hD, hq]
  have e1 : 4 * ((orig.len - 10 + 3) / 4 - 1 + 1) - 4 = 4 * ((orig.len - 14 + 3) / 4) := by omega
  rw [e1, hpl]
  rw [List.take_of_length_le (by rw [hpl]; omega)]


/-- C4, as stated, fails: `frame_ok` is accepted and has the 5-byte payload
1, 2, 3, 4, 5; its wire frame, stored at the start of the receive buffer
`rx_ok`, is delivered by `ss_rx_skb` as the 8 bytes
1, 2, 3, 4, 5, 0xAA, 0xBB, 0xCC. -/
theorem rx_roundtrip_counterexample :
    eth2ss frame_ok = some (0, wire_of frame_ok)
      ∧ eth_payload frame_ok = [1, 2, 3, 4, 5]
      ∧ rx_ok.head.drop rx_ok.data
          = frame_bytes (wire_of frame_ok) ++ ([0xAA, 0xBB, 0xCC] ++ List.replicate 8 0)
      ∧ (ss_rx_skb netdev_ok rx_ok).map (fun nd => nd.rx_delivered.map frame_bytes)
          = some [[1, 2, 3, 4, 5, 0xAA, 0xBB, 0xCC]]
      ∧ (ss_rx_skb netdev_ok rx_ok).map (fun nd => nd.rx_delivered.map frame_bytes)
          ≠ some [eth_payload frame_ok] := by
  decide

/-- C4, amended: for a frame that `eth2ss` accepts, with `payload_len`
payload bytes and `payload_len + 4 ≤ 262144`, whose wire frame sits at the
start of a posted receive buffer, `ss_rx_skb` delivers the original payload
followed by the bytes that come next in the receive buffer up to the next
multiple of 4: the delivered length is `payload_len` rounded up to a
multiple of 4, the first `payload_len` bytes are the original payload, and
the two are equal exactly when `payload_len` is a multiple of 4. -/
theorem rx_roundtrip_padded (netdev : net_device) (orig wire rx : sk_buff) (rest : List Nat)
    (hacc : eth2ss orig = some (0, wire))
    (hlen : ETH_HLEN ≤ orig.len) (hbuf : orig.data + orig.len ≤ orig.head.length)
    (hmax : (eth_payload orig).length + SIZEOF_SSHDR ≤ 262144)
    (hrx0 : rx.len = 0) (hroom : ETH_HLEN - SIZEOF_SSHDR ≤ rx.data)
    (hwire : rx.head.drop rx.data = frame_bytes wire ++ rest)
    (hfit : rx.data + rx_len_of (sshdr_length wire) ≤ rx.head.length) :
    ∃ nd d, ss_rx_skb netdev rx = some nd ∧ nd.rx_delivered = d :: netdev.rx_delivered
      ∧ frame_bytes d = eth_payload orig
          ++ rest.take (4 * (((eth_payload orig).length + 3) / 4) - (eth_payload orig).length)
      ∧ (frame_bytes d).length = 4 * (((eth_payload orig).length + 3) / 4)
      ∧ (frame_bytes d).take (eth_payload orig).length = eth_payload orig
      ∧ ((eth_payload orig).length % 4 = 0 ↔ frame_bytes d = eth_payload orig) := by
  have hE14 : ETH_HLEN = 14 := rfl
  have hS : SIZEOF_SSHDR = 4 := rfl
  obtain ⟨_, _, rfl⟩ := (eth2ss_zero_iff orig wire).mp hacc
  obtain ⟨nd, d, h1, h2, h3⟩ := rx_delivers netdev orig rx rest hlen hbuf hmax hrx0 hroom hwire hfit
  have hpl := eth_payload_length orig hbuf
  rw [hE14] at hpl
  rw [hS] at hmax
  have hwbuf : (wire_of orig).data + (wire_of orig).len ≤ (wire_of orig).head.length := by
    rw [wire_of_data, wire_of_len, wire_of_head_length]; omega
  have hq := wire_length_value orig hlen hbuf (by omega)
  have hq16 : sshdr_length (wire_of orig) < 2 ^ 16 := by rw [hq]; omega
  have hD := rx_len_of_eq _ hq16
  have hrest : 4 * (((eth_payload orig).length + 3) / 4) - (eth_payload orig).length
      ≤ rest.length := by
    have hl : (rx.head.drop rx.data).length = (frame_bytes (wire_of orig)).length + rest.length := by
      rw [hwire, List.length_append]
    rw [List.length_drop, frame_bytes_length _ hwbuf, wire_of_len] at hl
    rw [hD, hq] at hfit
    rw [hpl]
    omega
  have hlen_d : (frame_bytes d).length = 4 * (((eth_payload orig).length + 3) / 4) := by
    rw [h3, List.length_append, List.length_take]
    omega
  refine ⟨nd, d, h1, h2, h3, hlen_d, ?_, ?_⟩
  · rw [h3, List.take_append_of_le_length (le_refl _), List.take_length]
  · constructor
    · intro h4
      have e : 4 * (((eth_payload orig).length + 3) / 4) - (eth_payload orig).length = 0 := by
        omega
      rw [h3, e, List.take_zero, List.append_nil]
    · intro heq
      rw [heq] at hlen_d
      omega

theorem rx_roundtrip_padded_witness :
    eth2ss frame_ok = some (0, wire_of frame_ok) ∧ ETH_HLEN ≤ frame_ok.len
      ∧ frame_ok.data + frame_ok.len ≤ frame_ok.head.length
      ∧ (eth_payload frame_ok).length + SIZEOF_SSHDR ≤ 262144
      ∧ rx_ok.len = 0 ∧ ETH_HLEN - SIZEOF_SSHDR ≤ rx_ok.data
      ∧ rx_ok.head.drop rx_ok.data
          = frame_bytes (wire_of frame_ok) ++ ([0xAA, 0xBB, 0xCC] ++ List.replicate 8 0)
      ∧ rx_ok.data + rx_len_of (sshdr_length (wire_of frame_ok)) ≤ rx_ok.head.length
      ∧ ∃ nd d, ss_rx_skb netdev_ok rx_ok = some nd
          ∧ nd.rx_delivered = d :: netdev_ok.rx_delivered
          ∧ frame_bytes d = eth_payload frame_ok
              ++ ([0xAA, 0xBB, 0xCC] ++ List.replicate 8 0).take
                  (4 * (((eth_payload frame_ok).length + 3) / 4) - (eth_payload frame_ok).length)
          ∧ (frame_bytes d).length = 4 * (((eth_payload frame_ok).length + 3) / 4)
          ∧ (frame_bytes d).take (eth_payload frame_ok).length = eth_payload frame_ok
          ∧ ((eth_payload frame_ok).length % 4 = 0 ↔ frame_bytes d = eth_payload frame_ok) :=
  ⟨by decide, by decide, by decide, by decide, by decide, by decide, by decide, by decide,
    rx_roundtrip_padded netdev_ok frame_ok (wire_of frame_ok) rx_ok _
      (by decide) (by decide) (by decide) (by decide) (by decide) (by decide) (by decide)
      (by decide)⟩

/-! ## Transmit pending pool -/

theorem tbl_getD_set_ne (tbl : List pending) (i j : Nat) (e : pending) (h : i ≠ j) :
    (tbl.set i e).getD j pending_zero = tbl.getD j pending_zero := by
  rw [List.getD_eq_getElem?_getD, List.getD_eq_getElem?_getD, List.getElem?_set_ne h]

theorem tbl_getD_set_self (tbl : List pending) (i : Nat) (e : pending) (h : i < tbl.length) :
    (tbl.set i e).getD i pending_zero = e := by
  rw [List.getD_eq_getElem?_getD, List.getElem?_set_self h, Option.getD_some]

theorem is_chain_set (tbl : List pending) (i : Nat) (e : pending) (l : List Nat) :
    ∀ head, i ∉ l → is_chain tbl head l → is_chain (tbl.set i e) head l := by
  induction l with
  | nil => intro head _ h; exact h
  | cons p l ih =>
    intro head hni h
    obtain ⟨h1, h2⟩ := h
    have hip : i ≠ p := fun hc => hni (hc ▸ List.mem_cons_self _ _)
    have hil : i ∉ l := fun hc => hni (List.mem_cons_of_mem _ hc)
    refine ⟨h1, ?_⟩
    rw [tbl_getD_set_ne tbl i p e hip]
    exact ih _ hil h2

theorem free_list_of_chain (tbl : List pending) (l : List Nat) :
    ∀ head fuel, is_chain tbl head l → l.length ≤ fuel → free_list_from tbl fuel head = l := by
  induction l with
  | nil =>
    intro head fuel h _
    have h0 : head = none := h
    rw [h0]
    cases fuel <;> rfl
  | cons p l ih =>
    intro head fuel h hlen
    obtain ⟨h1, h2⟩ := h
    cases fuel with
    | zero => exact absurd hlen (by simp)
    | succ fuel =>
      rw [h1]
      show p :: free_list_from tbl fuel (tbl.getD p pending_zero).next = p :: l
      rw [ih _ fuel h2 (by simpa using hlen)]

theorem alloc_of_chain (ssp : ss_priv) (p : Nat) (l : List Nat)
    (h : is_chain ssp.pending_table ssp.tx_pending_free_list (p :: l)) (hp : p ∉ l) :
    (alloc_tx_pending ssp).1 = some p
    ∧ is_chain (alloc_tx_pending ssp).2.pending_table
        (alloc_tx_pending ssp).2.tx_pending_free_list l
    ∧ (alloc_tx_pending ssp).2.pending_table.length = ssp.pending_table.length := by
  obtain ⟨h1, h2⟩ := h
  unfold alloc_tx_pending
  rw [h1]
  refine ⟨rfl, ?_, ?_⟩
  · show is_chain (ssp.pending_table.set p _) (ssp.pending_table.getD p pending_zero).next l
    exact is_chain_set _ _ _ _ _ hp h2
  · show (ssp.pending_table.set p _).length = _
    rw [List.length_set]

theorem alloc_of_empty (ssp : ss_priv) (h : ssp.tx_pending_free_list = none) :
    alloc_tx_pending ssp = (none, ssp) := by
  unfold alloc_tx_pending
  rw [h]

theorem free_of_chain (ssp : ss_priv) (p : Nat) (l : List Nat)
    (h : is_chain ssp.pending_table ssp.tx_pending_free_list l) (hp : p ∉ l)
    (hlt : p < ssp.pending_table.length) :
    is_chain (free_tx_pending ssp p).pending_table (free_tx_pending ssp p).tx_pending_free_list
        (p :: l)
    ∧ (free_tx_pending ssp p).pending_table.length = ssp.pending_table.length := by
  constructor
  · refine ⟨rfl, ?_⟩
    show is_chain (ssp.pending_table.set p _)
      ((ssp.pending_table.set p _).getD p pending_zero).next l
    rw [tbl_getD_set_self _ _ _ hlt]
    exact is_chain_set _ _ _ _ _ hp h
  · show (ssp.pending_table.set p _).length = _
    rw [List.length_set]

theorem build_free_list_chain (ssp : ss_priv) (h0 : ssp.tx_pending_free_list = none) (n : Nat)
    (hn : n ≤ ssp.pending_table.length) :
    is_chain (build_free_list n ssp).pending_table (build_free_list n ssp).tx_pending_free_list
        (List.range n).reverse
    ∧ (build_free_list n ssp).pending_table.length = ssp.pending_table.length := by
  induction n with
  | zero => exact ⟨h0, rfl⟩
  | succ n ih =>
    obtain ⟨c, hl⟩ := ih (by omega)
    have hni : n ∉ (List.range n).reverse := by
      rw [List.mem_reverse, List.mem_range]; omega
    have := free_of_chain (build_free_list n ssp) n _ c hni (by rw [hl]; omega)
    rw [List.range_succ, List.reverse_append]
    exact ⟨this.1, this.2.trans hl⟩

theorem pool_inv_start (seastar_skb : List Nat) (mbox : mailbox) :
    pool_inv (pool_start seastar_skb mbox) (List.range NUM_TX_PENDINGS).reverse := by
  have hz : (ss_priv_zero seastar_skb mbox).pending_table.length = NUM_PENDINGS :=
    List.length_replicate _ _
  have hb := build_free_list_chain (ss_priv_zero seastar_skb mbox) rfl NUM_TX_PENDINGS
    (by rw [hz]; decide)
  refine ⟨hb.1, ?_, List.nodup_nil, ?_, ?_, ?_, ?_, rfl⟩
  · exact List.nodup_reverse.mpr (List.nodup_range _)
  · intro i
    rw [List.mem_reverse, List.mem_range]
    constructor
    · intro h; exact ⟨h, List.not_mem_nil _⟩
    · intro h; exact h.1
  · intro i hi
    exact absurd hi (List.not_mem_nil _)
  · rw [show (pool_start seastar_skb mbox).ssp = build_free_list NUM_TX_PENDINGS
      (ss_priv_zero seastar_skb mbox) from rfl, hb.2]
    exact hz
  · rw [List.length_reverse, List.length_range]
    rfl



theorem pool_inv_step (st st' : pool_run) (l : List Nat) (op : pool_op)
    (hinv : pool_inv st l) (hstep : pool_step st op = some st') : ∃ l', pool_inv st' l' := by
  obtain ⟨hc, hnl, hnv, hmem, hlt, htl, hcnt, hal⟩ := hinv
  cases op with
  | alloc =>
    cases l with
    | nil =>
      have h0 : st.ssp.tx_pending_free_list = none := hc
      have ha := alloc_of_empty st.ssp h0
      unfold pool_step at hstep
      rw [ha] at hstep
      have e : st' = st := (Option.some.inj hstep).symm
      rw [e]
      exact ⟨[], hc, hnl, hnv, hmem, hlt, htl, hcnt, hal⟩
    | cons p l' =>
      have hpl : p ∉ l' := (List.nodup_cons.mp hnl).1
      obtain ⟨a1, a2, a3⟩ := alloc_of_chain st.ssp p l' hc hpl
      have ha : alloc_tx_pending st.ssp = (some p, (alloc_tx_pending st.ssp).2) :=
        Prod.ext a1 rfl
      unfold pool_step at hstep
      rw [ha] at hstep
      have e : st' = { st with ssp := (alloc_tx_pending st.ssp).2, live := p :: st.live,
                               allocs := st.allocs + 1 } := (Option.some.inj hstep).symm
      have hpv : p ∉ st.live := ((hmem p).mp (List.mem_cons_self _ _)).2
      rw [e]
      refine ⟨l', a2, (List.nodup_cons.mp hnl).2, List.nodup_cons.mpr ⟨hpv, hnv⟩, ?_, ?_,
        a3.trans htl, ?_, ?_⟩
      · intro i
        constructor
        · intro hi
          have := (hmem i).mp (List.mem_cons_of_mem _ hi)
          refine ⟨this.1, ?_⟩
          intro hc'
          rcases List.mem_cons.mp hc' with h | h
          · exact hpl (h ▸ hi)
          · exact this.2 h
        · rintro ⟨h1, h2⟩
          have hip : i ≠ p := fun h => h2 (h ▸ List.mem_cons_self _ _)
          have hiv : i ∉ st.live := fun h => h2 (List.mem_cons_of_mem _ h)
          rcases List.mem_cons.mp ((hmem i).mpr ⟨h1, hiv⟩) with h | h
          · exact absurd h hip
          · exact h
      · intro i hi
        rcases List.mem_cons.mp hi with h | h
        · rw [h]; exact ((hmem p).mp (List.mem_cons_self _ _)).1
        · exact hlt i h
      · show l'.length + (st.live.length + 1) = NUM_TX_PENDINGS
        rw [List.length_cons] at hcnt
        omega
      · show st.allocs + 1 = st.frees + (st.live.length + 1)
        omega
  | free p =>
    change (if p ∈ st.live then _ else none) = some st' at hstep
    by_cases hp : p ∈ st.live
    · rw [if_pos hp] at hstep
      have e : st' = { st with ssp := free_tx_pending st.ssp p, live := st.live.erase p,
                               frees := st.frees + 1 } := (Option.some.inj hstep).symm
      have hpl : p ∉ l := fun h => ((hmem p).mp h).2 hp
      have hp64 : p < NUM_TX_PENDINGS := hlt p hp
      have hplt : p < st.ssp.pending_table.length := by
        rw [htl]
        have : NUM_TX_PENDINGS ≤ NUM_PENDINGS := by decide
        omega
      obtain ⟨f1, f2⟩ := free_of_chain st.ssp p l hc hpl hplt
      rw [e]
      refine ⟨p :: l, f1, List.nodup_cons.mpr ⟨hpl, hnl⟩, hnv.erase p, ?_, ?_, f2.trans htl,
        ?_, ?_⟩
      · intro i
        show i ∈ p :: l ↔ i < NUM_TX_PENDINGS ∧ i ∉ st.live.erase p
        rw [hnv.mem_erase_iff, List.mem_cons]
        constructor
        · rintro (h | h)
          · rw [h]; exact ⟨hp64, fun hc' => hc'.1 rfl⟩
          · exact ⟨((hmem i).mp h).1, fun hc' => ((hmem i).mp h).2 hc'.2⟩
        · rintro ⟨h1, h2⟩
          by_cases hip : i = p
          · exact Or.inl hip
          · exact Or.inr ((hmem i).mpr ⟨h1, fun hv => h2 ⟨hip, hv⟩⟩)
      · intro i hi
        exact hlt i (List.mem_of_mem_erase hi)
      · show (p :: l).length + (st.live.erase p).length = NUM_TX_PENDINGS
        rw [List.length_cons, List.length_erase_of_mem hp]
        have : 0 < st.live.length := List.length_pos_of_mem hp
        omega
      · show st.allocs = st.frees + 1 + (st.live.erase p).length
        rw [List.length_erase_of_mem hp]
        have : 0 < st.live.length := List.length_pos_of_mem hp
        omega
    · rw [if_neg hp] at hstep
      exact Option.noConfusion hstep

theorem pool_inv_exec (ops : List pool_op) :
    ∀ (st st' : pool_run) (l : List Nat), pool_inv st l → pool_exec st ops = some st' →
      ∃ l', pool_inv st' l' := by
  induction ops with
  | nil =>
    intro st st' l hinv h
    have e : st' = st := (Option.some.inj h).symm
    rw [e]
    exact ⟨l, hinv⟩
  | cons op ops ih =>
    intro st st' l hinv h
    unfold pool_exec at h
    cases hs : pool_step st op with
    | none =>
      rw [hs] at h
      exact Option.noConfusion h
    | some st1 =>
      rw [hs] at h
      obtain ⟨l1, h1⟩ := pool_inv_step st st1 l op hinv hs
      exact ih st1 st' l1 h1 h

theorem tx_free_list_of_inv (st : pool_run) (l : List Nat) (hinv : pool_inv st l) :
    tx_free_list st.ssp = l := by
  obtain ⟨hc, _, _, _, _, _, hcnt, _⟩ := hinv
  apply free_list_of_chain _ _ _ _ hc
  have : NUM_TX_PENDINGS ≤ NUM_PENDINGS := by decide
  omega



theorem alloc_some_head (ssp ssp' : ss_priv) (p : Nat)
    (h : alloc_tx_pending ssp = (some p, ssp')) : ssp.tx_pending_free_list = some p := by
  unfold alloc_tx_pending at h
  cases hf : ssp.tx_pending_free_list with
  | none =>
    rw [hf] at h
    exact Option.noConfusion (Prod.mk.inj h).1
  | some q =>
    rw [hf] at h
    exact (Prod.mk.inj h).1

theorem alloc_result_free (st : pool_run) (l : List Nat) (hinv : pool_inv st l)
    (p : Nat) (ssp' : ss_priv) (h : alloc_tx_pending st.ssp = (some p, ssp')) :
    p ∉ st.live ∧ p < NUM_TX_PENDINGS := by
  have hh := alloc_some_head _ _ _ h
  obtain ⟨hc, _, _, hmem, _, _, _, _⟩ := hinv
  cases l with
  | nil =>
    have h0 : st.ssp.tx_pending_free_list = none := hc
    rw [h0] at hh
    exact Option.noConfusion hh
  | cons q l' =>
    have hq : st.ssp.tx_pending_free_list = some q := hc.1
    rw [hq] at hh
    have e : q = p := Option.some.inj hh
    have := (hmem q).mp (List.mem_cons_self _ _)
    rw [e] at this
    exact ⟨this.2, this.1⟩

theorem alloc_n_chain (k : Nat) :
    ∀ (ssp : ss_priv) (l : List Nat), is_chain ssp.pending_table ssp.tx_pending_free_list l →
      l.Nodup → k ≤ l.length →
      (alloc_n k ssp).1 = (l.take k).map some
      ∧ is_chain (alloc_n k ssp).2.pending_table (alloc_n k ssp).2.tx_pending_free_list
          (l.drop k) := by
  induction k with
  | zero =>
    intro ssp l hc _ _
    exact ⟨rfl, hc⟩
  | succ k ih =>
    intro ssp l hc hn hk
    cases l with
    | nil => exact absurd hk (by simp)
    | cons p l' =>
      have hpl : p ∉ l' := (List.nodup_cons.mp hn).1
      obtain ⟨a1, a2, _⟩ := alloc_of_chain ssp p l' hc hpl
      obtain ⟨r1, r2⟩ := ih (alloc_tx_pending ssp).2 l' a2 (List.nodup_cons.mp hn).2
        (by simpa using hk)
      constructor
      · show (alloc_tx_pending ssp).1 :: (alloc_n k (alloc_tx_pending ssp).2).1 = _
        rw [a1, r1]
        rfl
      · exact r2

/-- C9: in every state reached from the free list `ss_probe` builds by calls
of `alloc_tx_pending` and `free_tx_pending` in which a slot is released only
while it is allocated, the allocated slots are pairwise distinct, a slot
`alloc_tx_pending` would return is not allocated, the free list has no
repetition and holds exactly the slots 0..63 that are not allocated, its
length plus the successful allocations is 64 plus the releases, so after as
many releases as successful allocations it is back to 64. -/
theorem pool_invariant (seastar_skb : List Nat) (mbox : mailbox) (ops : List pool_op)
    (st : pool_run) (hrun : pool_exec (pool_start seastar_skb mbox) ops = some st) :
    st.live.Nodup
    ∧ (∀ p ssp', alloc_tx_pending st.ssp = (some p, ssp') → p ∉ st.live)
    ∧ (tx_free_list st.ssp).Nodup
    ∧ (∀ i, i ∈ tx_free_list st.ssp ↔ i < NUM_TX_PENDINGS ∧ i ∉ st.live)
    ∧ is_chain st.ssp.pending_table st.ssp.tx_pending_free_list (tx_free_list st.ssp)
    ∧ (tx_free_list st.ssp).length + st.allocs = NUM_TX_PENDINGS + st.frees
    ∧ (st.allocs = st.frees → (tx_free_list st.ssp).length = NUM_TX_PENDINGS)
    ∧ (tx_free_list (pool_start seastar_skb mbox).ssp).length = NUM_TX_PENDINGS
    ∧ NUM_TX_PENDINGS = 64 := by
  have h0 := pool_inv_start seastar_skb mbox
  obtain ⟨l, hinv⟩ := pool_inv_exec ops _ st _ h0 hrun
  have hfl := tx_free_list_of_inv st l hinv
  have hfl0 := tx_free_list_of_inv _ _ h0
  have hres := alloc_result_free st l hinv
  obtain ⟨hc, hnl, hnv, hmem, _, _, hcnt, hal⟩ := hinv
  rw [hfl, hfl0]
  refine ⟨hnv, fun p ssp' h => (hres p ssp' h).1, hnl, hmem, hc, by omega, fun h => by omega,
    ?_, rfl⟩
  rw [List.length_reverse, List.length_range]

theorem pool_invariant_witness :
    ∃ st, pool_exec (pool_start [] mbox_ok) pool_ops_ok = some st
      ∧ st.live.Nodup
      ∧ (∀ i, i ∈ tx_free_list st.ssp ↔ i < NUM_TX_PENDINGS ∧ i ∉ st.live)
      ∧ (tx_free_list st.ssp).length + st.allocs = NUM_TX_PENDINGS + st.frees := by
  have hs : (pool_exec (pool_start [] mbox_ok) pool_ops_ok).isSome = true := by decide
  obtain ⟨st, h⟩ := Option.isSome_iff_exists.mp hs
  exact ⟨st, h, (pool_invariant [] mbox_ok pool_ops_ok st h).1,
    (pool_invariant [] mbox_ok pool_ops_ok st h).2.2.2.1,
    (pool_invariant [] mbox_ok pool_ops_ok st h).2.2.2.2.2.1⟩

/-- C10: right after `ss_probe` has built the free list, 64 consecutive
calls of `alloc_tx_pending` return the slots 63, 62, ..., 0: pairwise
distinct, each with a table index below `NUM_TX_PENDINGS = 64`; the 65th
call returns `NULL` and leaves the state as it is; and in no run that
follows the discipline does `alloc_tx_pending` return one of the slots
64..127 of the 128-entry table. -/
theorem probe_alloc_exhausts (seastar_skb : List Nat) (mbox : mailbox) :
    (alloc_n NUM_TX_PENDINGS (ss_probe_priv seastar_skb mbox)).1
      = ((List.range NUM_TX_PENDINGS).reverse).map some
    ∧ ((List.range NUM_TX_PENDINGS).reverse).Nodup
    ∧ ((List.range NUM_TX_PENDINGS).reverse).length = 64
    ∧ (∀ s ∈ (List.range NUM_TX_PENDINGS).reverse,
        pending_to_index (ss_probe_priv seastar_skb mbox) s = s
        ∧ pending_to_index (ss_probe_priv seastar_skb mbox) s < NUM_TX_PENDINGS)
    ∧ alloc_tx_pending (alloc_n NUM_TX_PENDINGS (ss_probe_priv seastar_skb mbox)).2
        = (none, (alloc_n NUM_TX_PENDINGS (ss_probe_priv seastar_skb mbox)).2)
    ∧ (∀ ops st p ssp', pool_exec (pool_start seastar_skb mbox) ops = some st →
        alloc_tx_pending st.ssp = (some p, ssp') → p < NUM_TX_PENDINGS)
    ∧ (ss_probe_priv seastar_skb mbox).pending_table.length = 128
    ∧ NUM_TX_PENDINGS = 64 := by
  have h0 := pool_inv_start seastar_skb mbox
  obtain ⟨hc, hnl, _, _, _, htl, _, _⟩ := h0
  have hlen : ((List.range NUM_TX_PENDINGS).reverse).length = NUM_TX_PENDINGS := by
    rw [List.length_reverse, List.length_range]
  obtain ⟨r1, r2⟩ := alloc_n_chain NUM_TX_PENDINGS (ss_probe_priv seastar_skb mbox) _ hc hnl
    (by rw [hlen])
  rw [List.take_of_length_le (by rw [hlen])] at r1
  rw [List.drop_of_length_le (by rw [hlen])] at r2
  refine ⟨r1, hnl, hlen, ?_, alloc_of_empty _ r2, ?_, htl, rfl⟩
  · intro s hs
    rw [List.mem_reverse, List.mem_range] at hs
    have h64 : NUM_TX_PENDINGS = 64 := rfl
    have e : pending_to_index (ss_probe_priv seastar_skb mbox) s = s := by
      unfold pending_to_index u16
      apply Nat.mod_eq_of_lt
      omega
    rw [e]
    exact ⟨rfl, hs⟩
  · intro ops st p ssp' hrun ha
    obtain ⟨l, hinv⟩ := pool_inv_exec ops _ st _ (pool_inv_start seastar_skb mbox) hrun
    exact (alloc_result_free st l hinv p ssp' ha).2

theorem probe_alloc_exhausts_witness :
    ∃ st, pool_exec (pool_start [] mbox_ok) pool_ops_ok = some st
      ∧ alloc_tx_pending st.ssp = (some 61, (alloc_tx_pending st.ssp).2)
      ∧ 61 < NUM_TX_PENDINGS := by
  have hs : (pool_exec (pool_start [] mbox_ok) pool_ops_ok).isSome = true := by decide
  obtain ⟨st, h⟩ := Option.isSome_iff_exists.mp hs
  have h1 : (alloc_tx_pending st.ssp).1 = some 61 := by
    have e : some st = pool_exec (pool_start [] mbox_ok) pool_ops_ok := h.symm
    have hd : ((pool_exec (pool_start [] mbox_ok) pool_ops_ok).map
        (fun s => (alloc_tx_pending s.ssp).1)) = some (some 61) := by decide
    rw [← e] at hd
    exact Option.some.inj hd
  have h2 : alloc_tx_pending st.ssp = (some 61, (alloc_tx_pending st.ssp).2) := Prod.ext h1 rfl
  exact ⟨st, h, h2,
    (probe_alloc_exhausts [] mbox_ok).2.2.2.2.2.1 pool_ops_ok st 61 _ h h2⟩


/-! ## Address translator -/

theorem land_high_mask (x n k : Nat) (hx : x < 2 ^ n) (hk : k ≤ n) :
    x &&& (2 ^ n - 2 ^ k) = 2 ^ k * (x / 2 ^ k) := by
  have hk1 : 2 ^ k - 1 < 2 ^ n := by
    have h1 : 2 ^ k ≤ 2 ^ n := Nat.pow_le_pow_right (by decide) hk
    have h2 : 0 < 2 ^ k := Nat.two_pow_pos k
    omega
  have e0 : 2 ^ n - 2 ^ k = 2 ^ n - (2 ^ k - 1 + 1) := by
    have h2 : 0 < 2 ^ k := Nat.two_pow_pos k
    omega
  rw [e0]
  apply Nat.eq_of_testBit_eq
  intro i
  rw [Nat.testBit_and, Nat.testBit_two_pow_sub_succ hk1, Nat.testBit_two_pow_sub_one]
  have e4 : 2 ^ k * (x / 2 ^ k) = (x >>> k) <<< k := by
    rw [Nat.shiftLeft_eq, Nat.shiftRight_eq_div_pow, Nat.mul_comm]
  rw [e4, Nat.testBit_shiftLeft, Nat.testBit_shiftRight]
  by_cases h2 : i < k
  · have : ¬ (i ≥ k) := by omega
    simp [h2, this]
  · have e : k + (i - k) = i := by omega
    have h3 : i ≥ k := by omega
    rw [e]
    by_cases hn : i < n
    · simp [h2, hn, h3]
    · have : x.testBit i = false := by
        apply Nat.testBit_lt_two_pow
        calc x < 2 ^ n := hx
          _ ≤ 2 ^ i := Nat.pow_le_pow_right (by decide) (by omega)
      simp [this]

theorem map_host_region_base (ssp : ss_priv) (hw : hw_regs) (p : Nat) (hp : p < 2 ^ 64) :
    (seastar_map_host_region ssp hw p).1.host_region_phys = 2 ^ 28 * (p / 2 ^ 28) := by
  show u64 p &&& not_int64 ((1 <<< 28) - 1) = _
  have e1 : u64 p = p := Nat.mod_eq_of_lt hp
  have e2 : not_int64 ((1 <<< 28) - 1) = 2 ^ 64 - 2 ^ 28 := by decide
  rw [e1, e2]
  exact land_high_mask p 64 28 hp (by decide)



theorem virt_to_fw_eq (ssp : ss_priv) (p : Nat) :
    virt_to_fw ssp p
      = 2 ^ 31 + (p % 2 ^ 64 + (2 ^ 64 - ssp.host_region_phys % 2 ^ 64)) % 2 ^ 64 % 2 ^ 29 := by
  have e1 : (2 <<< 28) - 1 = 2 ^ 29 - 1 := by decide
  have e2 : int_to_u64 (8 <<< 28) = 2 ^ 64 - 2 ^ 31 := by decide
  show u32 (u64 ((u64 (u64 p + (2 ^ 64 - u64 ssp.host_region_phys)) &&& ((2 <<< 28) - 1))
    + int_to_u64 (8 <<< 28))) = _
  rw [e1, e2, Nat.and_pow_two_sub_one_eq_mod]
  unfold u32 u64
  generalize (p % 2 ^ 64 + (2 ^ 64 - ssp.host_region_phys % 2 ^ 64)) % 2 ^ 64 = s
  omega

/-- For the physical address `2^27`, itself a 128 MB boundary, the recorded
base is 0, while rounding down to the nearest 128 MB boundary, as the comment
at line 41 of `firmware.c` announces, gives `2^27`. -/
theorem map_host_region_128MB_example :
    (seastar_map_host_region netdev_ok.priv hw_ok (2 ^ 27)).1.host_region_phys = 0
      ∧ spec_round_down_128MB (2 ^ 27) = 2 ^ 27
      ∧ (seastar_map_host_region netdev_ok.priv hw_ok (2 ^ 27)).1.host_region_phys
          ≠ spec_round_down_128MB (2 ^ 27) := by
  decide

/-- C16, what the code does: for every host physical address `p` the base
`seastar_map_host_region` records in `host_region_phys` is `p` rounded down
to the nearest 256 MB boundary, the largest multiple of `2^28` that is at
most `p`, because the mask is `~((1 << 28) - 1)`; the comment above it
announces a rounding to 128 MB. -/
theorem map_host_region_rounds_256MB (ssp : ss_priv) (hw : hw_regs) (p : Nat)
    (hp : p < 2 ^ 64) :
    (seastar_map_host_region ssp hw p).1.host_region_phys = 2 ^ 28 * (p / 2 ^ 28)
    ∧ 2 ^ 28 ∣ (seastar_map_host_region ssp hw p).1.host_region_phys
    ∧ (seastar_map_host_region ssp hw p).1.host_region_phys ≤ p
    ∧ (∀ m, 2 ^ 28 ∣ m → m ≤ p → m ≤ (seastar_map_host_region ssp hw p).1.host_region_phys) := by
  rw [map_host_region_base ssp hw p hp]
  refine ⟨rfl, Dvd.intro _ rfl, ?_, ?_⟩
  · omega
  · intro m hm hle
    obtain ⟨k, rfl⟩ := hm
    have : k ≤ p / 2 ^ 28 := by
      rw [Nat.le_div_iff_mul_le (Nat.two_pow_pos 28)]
      omega
    exact Nat.mul_le_mul_left _ this

theorem map_host_region_rounds_256MB_witness :
    (2 ^ 28 + 2 ^ 27 + 5) < 2 ^ 64
      ∧ (seastar_map_host_region netdev_ok.priv hw_ok (2 ^ 28 + 2 ^ 27 + 5)).1.host_region_phys
          = 2 ^ 28 * ((2 ^ 28 + 2 ^ 27 + 5) / 2 ^ 28) :=
  ⟨by decide,
    (map_host_region_rounds_256MB netdev_ok.priv hw_ok (2 ^ 28 + 2 ^ 27 + 5) (by decide)).1⟩

/-- C17: for a host physical address `p` and mapped base `B`, `virt_to_fw`
returns the 32-bit value `0x80000000 + ((p - B) mod 2^29)`.  For `p` inside
the window `B ≤ p < B + 2^29` this is `0x80000000 + (p - B)`, the
translation is injective on the window, and for every input the result lies
in `[0x80000000, 0xA0000000)`. -/
theorem virt_to_fw_value (ssp : ss_priv) (p : Nat) (hp : p < 2 ^ 64)
    (hB : ssp.host_region_phys < 2 ^ 64) :
    ((virt_to_fw ssp p : Nat) : Int)
        = 0x80000000 + ((p : Int) - (ssp.host_region_phys : Int)) % 2 ^ 29
    ∧ (ssp.host_region_phys ≤ p →
        virt_to_fw ssp p = 0x80000000 + (p - ssp.host_region_phys) % 2 ^ 29)
    ∧ (ssp.host_region_phys ≤ p → p < ssp.host_region_phys + 2 ^ 29 →
        virt_to_fw ssp p = 0x80000000 + (p - ssp.host_region_phys))
    ∧ (∀ q, q < 2 ^ 64 → ssp.host_region_phys ≤ p → p < ssp.host_region_phys + 2 ^ 29 →
        ssp.host_region_phys ≤ q → q < ssp.host_region_phys + 2 ^ 29 →
        virt_to_fw ssp p = virt_to_fw ssp q → p = q)
    ∧ 0x80000000 ≤ virt_to_fw ssp p ∧ virt_to_fw ssp p < 0xA0000000
    ∧ virt_to_fw ssp p < 2 ^ 32 := by
  have key : ∀ x, x < 2 ^ 64 → virt_to_fw ssp x
      = 2 ^ 31 + (x + (2 ^ 64 - ssp.host_region_phys)) % 2 ^ 64 % 2 ^ 29 := by
    intro x hx
    rw [virt_to_fw_eq, Nat.mod_eq_of_lt hx, Nat.mod_eq_of_lt hB]
  have kp := key p hp
  generalize ssp.host_region_phys = B at *
  refine ⟨?_, ?_, ?_, ?_, ?_, ?_, ?_⟩
  · rw [kp]
    push_cast
    omega
  · intro h; rw [kp]; omega
  · intro h1 h2; rw [kp]; omega
  · intro q hq h1 h2 h3 h4 heq
    rw [kp, key q hq] at heq
    omega
  · rw [kp]; omega
  · rw [kp]; omega
  · rw [kp]; omega

theorem virt_to_fw_value_witness :
    (0x10000040 : Nat) < 2 ^ 64
      ∧ (seastar_map_host_region netdev_ok.priv hw_ok 0x10000040).1.host_region_phys < 2 ^ 64
      ∧ 0x80000000 ≤ virt_to_fw (seastar_map_host_region netdev_ok.priv hw_ok 0x10000040).1
          0x10000040
      ∧ virt_to_fw (seastar_map_host_region netdev_ok.priv hw_ok 0x10000040).1 0x10000040
          < 0xA0000000 :=
  ⟨by decide, by decide,
    (virt_to_fw_value (seastar_map_host_region netdev_ok.priv hw_ok 0x10000040).1 0x10000040
      (by decide) (by decide)).2.2.2.2.1,
    (virt_to_fw_value (seastar_map_host_region netdev_ok.priv hw_ok 0x10000040).1 0x10000040
      (by decide) (by decide)).2.2.2.2.2.1⟩


/-! ## Double release -/

theorem free_tx_pending_head (ssp : ss_priv) (p : Nat) :
    (free_tx_pending ssp p).tx_pending_free_list = some p := rfl

theorem free_tx_pending_length (ssp : ss_priv) (p : Nat) :
    (free_tx_pending ssp p).pending_table.length = ssp.pending_table.length := by
  show (ssp.pending_table.set p _).length = _
  rw [List.length_set]

theorem free_tx_pending_next (ssp : ss_priv) (p : Nat) (hp : p < ssp.pending_table.length) :
    (get_pending (free_tx_pending ssp p) p).next = ssp.tx_pending_free_list := by
  show ((ssp.pending_table.set p _).getD p pending_zero).next = _
  rw [tbl_getD_set_self _ _ _ hp]

theorem alloc_tx_pending_some (ssp : ss_priv) (p : Nat) (h : ssp.tx_pending_free_list = some p) :
    (alloc_tx_pending ssp).1 = some p
    ∧ (alloc_tx_pending ssp).2.tx_pending_free_list = (get_pending ssp p).next
    ∧ (alloc_tx_pending ssp).2.pending_table.length = ssp.pending_table.length
    ∧ (p < ssp.pending_table.length → (get_pending (alloc_tx_pending ssp).2 p).next = none) := by
  unfold alloc_tx_pending
  rw [h]
  refine ⟨rfl, rfl, ?_, ?_⟩
  · show (ssp.pending_table.set p _).length = _
    rw [List.length_set]
  · intro hp
    show ((ssp.pending_table.set p _).getD p pending_zero).next = none
    rw [tbl_getD_set_self _ _ _ hp]

theorem free_list_self_loop (tbl : List pending) (s : Nat)
    (h : (tbl.getD s pending_zero).next = some s) :
    ∀ fuel, free_list_from tbl fuel (some s) = List.replicate fuel s := by
  intro fuel
  induction fuel with
  | zero => rfl
  | succ n ih =>
    show s :: free_list_from tbl n (tbl.getD s pending_zero).next = _
    rw [h, ih]
    rfl

/-- C19, as stated, fails: after slot 5 has been released twice in a row
on the device `netdev_ok`, three calls of `alloc_tx_pending` return slot 5,
slot 5 and then `NULL`: the third call reports exhaustion. -/
theorem double_release_counterexample :
    (alloc_n 3 (free_tx_pending (free_tx_pending netdev_ok.priv 5) 5)).1
      = [some 5, some 5, none] := by
  decide

/-- C19, amended: for every pool state and every slot `s` of the table,
two calls `free_tx_pending(s)` in a row leave `s` linked to itself at the
head of the free list, so that only `s` is reachable from the head and the
next two calls of `alloc_tx_pending` both return `s`; the first of them
resets the link of `s` to `NULL`, so the third call reports exhaustion. -/
theorem double_release_self_loop (ssp : ss_priv) (s : Nat)
    (hs : s < ssp.pending_table.length) :
    (free_tx_pending (free_tx_pending ssp s) s).tx_pending_free_list = some s
    ∧ (get_pending (free_tx_pending (free_tx_pending ssp s) s) s).next = some s
    ∧ (∀ fuel, free_list_from (free_tx_pending (free_tx_pending ssp s) s).pending_table fuel
        (free_tx_pending (free_tx_pending ssp s) s).tx_pending_free_list
          = List.replicate fuel s)
    ∧ (∀ q, q ≠ s → q ∉ tx_free_list (free_tx_pending (free_tx_pending ssp s) s))
    ∧ (alloc_n 3 (free_tx_pending (free_tx_pending ssp s) s)).1 = [some s, some s, none] := by
  have h1 : (free_tx_pending ssp s).pending_table.length = ssp.pending_table.length :=
    free_tx_pending_length ssp s
  have hs1 : s < (free_tx_pending ssp s).pending_table.length := by rw [h1]; exact hs
  have hn : (get_pending (free_tx_pending (free_tx_pending ssp s) s) s).next = some s := by
    rw [free_tx_pending_next _ _ hs1]
    rfl
  have hloop := free_list_self_loop _ s hn
  have hs2 : s < (free_tx_pending (free_tx_pending ssp s) s).pending_table.length := by
    rw [free_tx_pending_length]; exact hs1
  obtain ⟨a1, a2, a3, a4⟩ := alloc_tx_pending_some (free_tx_pending (free_tx_pending ssp s) s) s rfl
  rw [hn] at a2
  obtain ⟨b1, b2, b3, _⟩ := alloc_tx_pending_some _ s a2
  rw [a4 hs2] at b2
  have c1 := alloc_of_empty _ b2
  refine ⟨rfl, hn, hloop, ?_, ?_⟩
  · intro q hq hmem
    unfold tx_free_list at hmem
    rw [free_tx_pending_head, hloop] at hmem
    exact hq (List.eq_of_mem_replicate hmem)
  · show [(alloc_tx_pending _).1, (alloc_tx_pending (alloc_tx_pending _).2).1,
      (alloc_tx_pending (alloc_tx_pending (alloc_tx_pending _).2).2).1] = _
    rw [a1, b1, c1]

set_option maxRecDepth 100000 in
theorem double_release_self_loop_witness :
    5 < netdev_ok.priv.pending_table.length
      ∧ (alloc_n 3 (free_tx_pending (free_tx_pending netdev_ok.priv 5) 5)).1
          = [some 5, some 5, none] :=
  ⟨by decide, (double_release_self_loop netdev_ok.priv 5 (by decide)).2.2.2.2⟩


/-! ## Transmit completion -/

theorem ss_tx_end_eq (netdev : net_device) (i : Nat) (hi : i < NUM_PENDINGS) :
    ss_tx_end netdev i = some { netdev with
      priv := free_tx_pending netdev.priv i,
      freed_skbs := (match (get_pending netdev.priv i).skb with
        | some skb => skb :: netdev.freed_skbs
        | none => netdev.freed_skbs),
      kfreed := (match (get_pending netdev.priv i).bounce with
        | some b => b :: netdev.kfreed
        | none => netdev.kfreed),
      queue_stopped := false } := by
  unfold ss_tx_end
  dsimp only
  rw [if_pos hi]
  cases netdev.queue_stopped <;> rfl

/-- C20: `ss_tx_end` for an index `i < 64` whose slot is allocated (not on
the free list) hands the frame buffer recorded in slot `i` to
`dev_kfree_skb_any` and its bounce buffer, if any, to `kfree`, pushes slot
`i` onto the head of the free list, which grows by exactly one so that the
next `alloc_tx_pending` returns slot `i`, and leaves the transmit queue not
stopped, whether or not it was stopped before. -/
theorem ss_tx_end_releases (netdev : net_device) (i : Nat) (l : List Nat)
    (hi : i < NUM_TX_PENDINGS)
    (hlen : netdev.priv.pending_table.length = NUM_PENDINGS)
    (hc : is_chain netdev.priv.pending_table netdev.priv.tx_pending_free_list l)
    (hil : i ∉ l) (hl : l.length < NUM_PENDINGS) :
    ∃ nd, ss_tx_end netdev i = some nd
      ∧ (∀ f, (get_pending netdev.priv i).skb = some f →
          nd.freed_skbs = f :: netdev.freed_skbs)
      ∧ (∀ b, (get_pending netdev.priv i).bounce = some b → nd.kfreed = b :: netdev.kfreed)
      ∧ ((get_pending netdev.priv i).bounce = none → nd.kfreed = netdev.kfreed)
      ∧ tx_free_list netdev.priv = l
      ∧ tx_free_list nd.priv = i :: l
      ∧ (tx_free_list nd.priv).length = (tx_free_list netdev.priv).length + 1
      ∧ (alloc_tx_pending nd.priv).1 = some i
      ∧ nd.queue_stopped = false := by
  have h64 : NUM_TX_PENDINGS = 64 := rfl
  have h128 : NUM_PENDINGS = 128 := rfl
  have hip : i < NUM_PENDINGS := by omega
  have hit : i < netdev.priv.pending_table.length := by rw [hlen]; exact hip
  obtain ⟨f1, _⟩ := free_of_chain netdev.priv i l hc hil hit
  have w0 : tx_free_list netdev.priv = l := free_list_of_chain _ _ _ _ hc (by omega)
  have w1 : tx_free_list (free_tx_pending netdev.priv i) = i :: l :=
    free_list_of_chain _ _ _ _ f1 (by rw [List.length_cons]; omega)
  refine ⟨_, ss_tx_end_eq netdev i hip, ?_, ?_, ?_, w0, w1, ?_, ?_, rfl⟩
  · intro f hf
    show (match (get_pending netdev.priv i).skb with
      | some skb => skb :: netdev.freed_skbs
      | none => netdev.freed_skbs) = _
    rw [hf]
  · intro b hb
    show (match (get_pending netdev.priv i).bounce with
      | some b => b :: netdev.kfreed
      | none => netdev.kfreed) = _
    rw [hb]
  · intro hb
    show (match (get_pending netdev.priv i).bounce with
      | some b => b :: netdev.kfreed
      | none => netdev.kfreed) = _
    rw [hb]
  · show (tx_free_list (free_tx_pending netdev.priv i)).length = _
    rw [w1, w0, List.length_cons]
  · exact (alloc_tx_pending_some (free_tx_pending netdev.priv i) i rfl).1

set_option maxRecDepth 100000 in
theorem ss_tx_end_releases_witness :
    63 < NUM_TX_PENDINGS ∧ netdev_busy.priv.pending_table.length = NUM_PENDINGS
      ∧ is_chain netdev_busy.priv.pending_table netdev_busy.priv.tx_pending_free_list
          (List.range 63).reverse
      ∧ 63 ∉ (List.range 63).reverse ∧ (List.range 63).reverse.length < NUM_PENDINGS
      ∧ netdev_busy.queue_stopped = true
      ∧ ∃ nd, ss_tx_end netdev_busy 63 = some nd
          ∧ (∀ f, (get_pending netdev_busy.priv 63).skb = some f →
              nd.freed_skbs = f :: netdev_busy.freed_skbs)
          ∧ (∀ b, (get_pending netdev_busy.priv 63).bounce = some b →
              nd.kfreed = b :: netdev_busy.kfreed)
          ∧ ((get_pending netdev_busy.priv 63).bounce = none → nd.kfreed = netdev_busy.kfreed)
          ∧ tx_free_list netdev_busy.priv = (List.range 63).reverse
          ∧ tx_free_list nd.priv = 63 :: (List.range 63).reverse
          ∧ (tx_free_list nd.priv).length = (tx_free_list netdev_busy.priv).length + 1
          ∧ (alloc_tx_pending nd.priv).1 = some 63
          ∧ nd.queue_stopped = false :=
  ⟨by decide, by decide, by decide, by decide, by decide, by decide,
    ss_tx_end_releases netdev_busy 63 (List.range 63).reverse (by decide) (by decide)
      (by decide) (by decide) (by decide)⟩


/-! ## Event dispatcher -/

theorem event_type_eq (w : Nat) (hw : w < 2 ^ 32) : event_type w = w >>> 16 := by
  have e : (0xFFFF : Nat) = 2 ^ 16 - 1 := by decide
  unfold event_type
  rw [e, Nat.and_pow_two_sub_one_eq_mod, Nat.shiftRight_eq_div_pow]
  apply Nat.mod_eq_of_lt
  omega

theorem event_index_eq (w : Nat) : event_index w = w % 2 ^ 16 := by
  have e : (0xFFFF : Nat) = 2 ^ 16 - 1 := by decide
  unfold event_index
  rw [e, Nat.and_pow_two_sub_one_eq_mod, Nat.shiftRight_zero]

theorem shift_or_mod (w : Nat) : ((w >>> 16) <<< 16) ||| (w % 2 ^ 16) = w := by
  apply Nat.eq_of_testBit_eq
  intro j
  rw [Nat.testBit_or, Nat.testBit_shiftLeft, Nat.testBit_shiftRight, Nat.testBit_mod_two_pow]
  by_cases h : j < 16
  · have h' : ¬ (j ≥ 16) := by omega
    simp [h, h']
  · have h' : j ≥ 16 := by omega
    have e : 16 + (j - 16) = j := by omega
    simp [h, h', e]

theorem next_event_empty (ssp : ss_priv) (h : ssp.eq.getD ssp.eq_read 0 = 0) :
    next_event ssp = (0, ssp) := by
  unfold next_event
  dsimp only
  rw [if_pos h]

/-- C13: for every 32-bit event word `w` the dispatcher takes
`kind = w >> 16` and `index = w & 0xFFFF`, and `(kind << 16) | index = w`.
When the word at the read cursor is 0, `next_event` returns 0 and leaves
queue and read cursor as they are.  The word `(126 << 16) | 7` goes to the
receive handler `ss_rx` with index 7, and a word whose kind is 125, 126 or
127 is not 0. -/
theorem event_decode :
    (∀ w : Nat, w < 2 ^ 32 →
      event_type w = w >>> 16 ∧ event_index w = w &&& 0xFFFF
      ∧ (event_type w <<< 16) ||| event_index w = w)
    ∧ (∀ ssp : ss_priv, ssp.eq.getD ssp.eq_read 0 = 0 →
        next_event ssp = (0, ssp) ∧ (next_event ssp).2.eq = ssp.eq
        ∧ (next_event ssp).2.eq_read = ssp.eq_read)
    ∧ (event_type ((126 <<< 16) ||| 7) = EVENT_RX ∧ event_index ((126 <<< 16) ||| 7) = 7
        ∧ ∀ (env : irq_env) (netdev : net_device),
            dispatch env netdev ((126 <<< 16) ||| 7) = ss_rx env netdev 7)
    ∧ (∀ w : Nat, event_type w = EVENT_TX_END ∨ event_type w = EVENT_RX
        ∨ event_type w = EVENT_RX_EMPTY → w ≠ 0)
    ∧ EVENT_TX_END = 125 ∧ EVENT_RX = 126 ∧ EVENT_RX_EMPTY = 127 := by
  refine ⟨?_, ?_, ⟨by decide, by decide, ?_⟩, ?_, rfl, rfl, rfl⟩
  · intro w hw
    have e : (0xFFFF : Nat) = 2 ^ 16 - 1 := by decide
    refine ⟨event_type_eq w hw, ?_, ?_⟩
    · rw [event_index_eq, e, Nat.and_pow_two_sub_one_eq_mod]
    · rw [event_type_eq w hw, event_index_eq]
      exact shift_or_mod w
  · intro ssp h
    rw [next_event_empty ssp h]
    exact ⟨rfl, rfl, rfl⟩
  · intro env netdev
    have t : event_type ((126 <<< 16) ||| 7) = EVENT_RX := by decide
    have i7 : event_index ((126 <<< 16) ||| 7) = 7 := by decide
    have c1 : ¬ (EVENT_RX = EVENT_TX_END) := by decide
    unfold dispatch
    dsimp only
    rw [t, i7, if_neg c1, if_pos rfl]
  · intro w h hw0
    rw [hw0] at h
    revert h
    decide

theorem event_decode_witness :
    ((126 <<< 16) ||| 7 : Nat) < 2 ^ 32
      ∧ event_type ((126 <<< 16) ||| 7) = ((126 <<< 16) ||| 7) >>> 16
      ∧ event_index ((126 <<< 16) ||| 7) = ((126 <<< 16) ||| 7) &&& 0xFFFF
      ∧ (event_type ((126 <<< 16) ||| 7) <<< 16) ||| event_index ((126 <<< 16) ||| 7)
          = (126 <<< 16) ||| 7 :=
  ⟨by decide, event_decode.1 ((126 <<< 16) ||| 7) (by decide)⟩



theorem eq_split (eq : List Nat) (s : Nat) (hs : s < eq.length) :
    eq = eq.take s ++ eq.getD s 0 :: eq.drop (s + 1) := by
  have h1 : eq.getD s 0 = eq[s] := List.getD_eq_getElem _ _ hs
  rw [h1, ← List.drop_eq_getElem_cons hs, List.take_append_drop]

theorem eq_set_split (eq : List Nat) (s : Nat) (hs : s < eq.length) :
    eq.set s 0 = eq.take s ++ 0 :: eq.drop (s + 1) := by
  rw [List.set_eq_take_append_cons_drop, if_pos hs]

theorem count_nonzero_set (eq : List Nat) (s : Nat) (hs : s < eq.length)
    (hw : eq.getD s 0 ≠ 0) : count_nonzero (eq.set s 0) + 1 = count_nonzero eq := by
  have h1 := eq_split eq s hs
  have h2 := eq_set_split eq s hs
  unfold count_nonzero
  rw [h2]
  conv => rhs; rw [h1]
  rw [List.countP_append, List.countP_append, List.countP_cons, List.countP_cons]
  have a : ((0 : Nat) != 0) = false := rfl
  have b : (eq.getD s 0 != 0) = true := by
    rw [bne_iff_ne]; exact hw
  rw [a, b]
  simp only [if_true, Bool.false_eq_true, if_false]
  omega

theorem count_nonzero_le (eq : List Nat) : count_nonzero eq ≤ eq.length :=
  List.countP_le_length _

theorem nonzero_run_zero (eq : List Nat) (s : Nat) (hs : s < eq.length)
    (hw : eq.getD s 0 = 0) : nonzero_run eq s = [] := by
  have h1 : eq.drop s = eq.getD s 0 :: eq.drop (s + 1) := by
    rw [List.getD_eq_getElem _ _ hs]
    exact List.drop_eq_getElem_cons hs
  unfold nonzero_run
  rw [h1, hw, List.cons_append, List.takeWhile_cons]
  rfl

theorem takeWhile_append_zero (t : List Nat) :
    (t ++ [0]).takeWhile (fun w => w != 0) = t.takeWhile (fun w => w != 0) := by
  induction t with
  | nil => rfl
  | cons a t ih =>
    rw [List.cons_append, List.takeWhile_cons, List.takeWhile_cons, ih]

theorem nonzero_run_step (eq : List Nat) (s : Nat) (hs : s < eq.length)
    (hw : eq.getD s 0 ≠ 0) :
    nonzero_run eq s
      = eq.getD s 0 :: nonzero_run (eq.set s 0) ((s + 1) % eq.length) := by
  have h1 : eq.drop s = eq.getD s 0 :: eq.drop (s + 1) := by
    rw [List.getD_eq_getElem _ _ hs]
    exact List.drop_eq_getElem_cons hs
  have b : (eq.getD s 0 != 0) = true := by
    rw [bne_iff_ne]; exact hw
  have hd : (eq.set s 0).drop (s + 1) = eq.drop (s + 1) :=
    List.drop_set_of_lt _ _ (by omega)
  have ht : (eq.set s 0).take (s + 1) = eq.take s ++ [0] := by
    rw [eq_set_split eq s hs, List.take_append_eq_append_take, List.length_take,
      Nat.min_eq_left (Nat.le_of_lt hs)]
    have e1 : s + 1 - s = 1 := by omega
    rw [e1, List.take_of_length_le (by rw [List.length_take]; omega)]
    rfl
  have lhs : nonzero_run eq s
      = eq.getD s 0 :: (eq.drop (s + 1) ++ eq.take s).takeWhile (fun w => w != 0) := by
    unfold nonzero_run
    rw [h1, List.cons_append, List.takeWhile_cons, if_pos b]
  rw [lhs]
  congr 1
  by_cases hlast : s + 1 < eq.length
  · rw [Nat.mod_eq_of_lt hlast]
    unfold nonzero_run
    rw [hd, ht, ← List.append_assoc, takeWhile_append_zero]
  · have e : s + 1 = eq.length := by omega
    rw [e, Nat.mod_self]
    unfold nonzero_run
    rw [List.drop_zero, List.take_zero, List.append_nil]
    have hd0 : eq.drop eq.length = [] := List.drop_of_length_le (le_refl _)
    have hfull : eq.set s 0 = eq.take s ++ [0] := by
      rw [eq_set_split eq s hs, e, hd0]
    rw [hd0, List.nil_append, hfull, takeWhile_append_zero]

theorem nonzero_run_length_le (eq : List Nat) (s : Nat) (hs : s ≤ eq.length) :
    (nonzero_run eq s).length ≤ eq.length := by
  unfold nonzero_run
  have h := (List.takeWhile_sublist (l := eq.drop s ++ eq.take s) (fun w => w != 0)).length_le
  rw [List.length_append, List.length_drop, List.length_take] at h
  omega



theorem refill_skb_queue (env : irq_env) (nd : net_device) (i : Nat) :
    (refill_skb env nd i).1.priv.eq = nd.priv.eq
    ∧ (refill_skb env nd i).1.priv.eq_read = nd.priv.eq_read := by
  unfold refill_skb
  cases env.allocs with
  | nil => exact ⟨rfl, rfl⟩
  | cons a rest =>
    cases a with
    | none => exact ⟨rfl, rfl⟩
    | some skb => exact ⟨rfl, rfl⟩

theorem ss_rx_skb_priv (nd nd' : net_device) (skb : sk_buff)
    (h : ss_rx_skb nd skb = some nd') : nd'.priv = nd.priv := by
  unfold ss_rx_skb at h
  dsimp only at h
  cases h1 : skb_put skb (rx_len_of (tail_sshdr_length skb)) with
  | none => rw [h1] at h; exact Option.noConfusion h
  | some skb1 =>
    rw [h1] at h
    dsimp only at h
    cases h2 : ss2eth nd.dev_addr skb1 with
    | none => rw [h2] at h; exact Option.noConfusion h
    | some skb2 =>
      rw [h2] at h
      dsimp only at h
      have e := Option.some.inj h
      rw [← e]

theorem ss_rx_queue (env env' : irq_env) (nd nd' : net_device) (i : Nat)
    (h : ss_rx env nd i = some (nd', env')) :
    nd'.priv.eq = nd.priv.eq ∧ nd'.priv.eq_read = nd.priv.eq_read := by
  unfold ss_rx at h
  by_cases hi : i < NUM_SKBS
  · rw [if_pos hi] at h
    dsimp only at h
    cases h1 : nd.priv.skb_table_virt.getD i none with
    | none => rw [h1] at h; exact Option.noConfusion h
    | some skb =>
      rw [h1] at h
      dsimp only at h
      cases h2 : ss_rx_skb { nd with priv := { nd.priv with
          skb_table_virt := nd.priv.skb_table_virt.set i none } } skb with
      | none => rw [h2] at h; exact Option.noConfusion h
      | some nd2 =>
        rw [h2] at h
        dsimp only at h
        have e := Option.some.inj h
        have hp := ss_rx_skb_priv _ _ _ h2
        have hq := refill_skb_queue env nd2 i
        have e1 : nd' = (refill_skb env nd2 i).1 := by rw [e]
        rw [e1, hq.1, hq.2, hp]
        exact ⟨rfl, rfl⟩
  · rw [if_neg hi] at h
    exact Option.noConfusion h

theorem ss_rx_refill_loop_queue (n : Nat) (env : irq_env) (nd : net_device) :
    (ss_rx_refill_loop n env nd).1.priv.eq = nd.priv.eq
    ∧ (ss_rx_refill_loop n env nd).1.priv.eq_read = nd.priv.eq_read := by
  induction n with
  | zero => exact ⟨rfl, rfl⟩
  | succ n ih =>
    unfold ss_rx_refill_loop
    dsimp only
    by_cases hc : (ss_rx_refill_loop n env nd).1.priv.skb_table_virt.getD n none = none
    · rw [if_pos hc]
      have hq := refill_skb_queue (ss_rx_refill_loop n env nd).2 (ss_rx_refill_loop n env nd).1 n
      exact ⟨hq.1.trans ih.1, hq.2.trans ih.2⟩
    · rw [if_neg hc]
      exact ih

theorem ss_rx_refill_queue (env : irq_env) (nd : net_device) :
    (ss_rx_refill env nd).1.priv.eq = nd.priv.eq
    ∧ (ss_rx_refill env nd).1.priv.eq_read = nd.priv.eq_read := by
  unfold ss_rx_refill
  exact ss_rx_refill_loop_queue _ env nd

theorem ss_tx_end_queue (nd nd' : net_device) (i : Nat) (h : ss_tx_end nd i = some nd') :
    nd'.priv.eq = nd.priv.eq ∧ nd'.priv.eq_read = nd.priv.eq_read := by
  by_cases hi : i < NUM_PENDINGS
  · rw [ss_tx_end_eq nd i hi] at h
    have e := Option.some.inj h
    rw [← e]
    exact ⟨rfl, rfl⟩
  · unfold ss_tx_end at h
    dsimp only at h
    rw [if_neg hi] at h
    exact Option.noConfusion h

theorem dispatch_queue (env env' : irq_env) (nd nd' : net_device) (ev : Nat)
    (h : dispatch env nd ev = some (nd', env')) :
    nd'.priv.eq = nd.priv.eq ∧ nd'.priv.eq_read = nd.priv.eq_read := by
  unfold dispatch at h
  dsimp only at h
  by_cases c1 : event_type ev = EVENT_TX_END
  · rw [if_pos c1] at h
    cases h1 : ss_tx_end nd (event_index ev) with
    | none => rw [h1] at h; exact Option.noConfusion h
    | some nd1 =>
      rw [h1] at h
      have e := Option.some.inj h
      have e1 : nd' = nd1 := by
        have := congrArg Prod.fst e
        exact this.symm
      rw [e1]
      exact ss_tx_end_queue nd nd1 _ h1
  · rw [if_neg c1] at h
    by_cases c2 : event_type ev = EVENT_RX
    · rw [if_pos c2] at h
      exact ss_rx_queue env env' nd nd' _ h
    · rw [if_neg c2] at h
      by_cases c3 : event_type ev = EVENT_RX_EMPTY
      · rw [if_pos c3] at h
        have e := Option.some.inj h
        have e1 : nd' = (ss_rx_refill env nd).1 := by rw [e]
        rw [e1]
        exact ss_rx_refill_queue env nd
      · rw [if_neg c3] at h
        have e := Option.some.inj h
        have e1 : nd' = nd := by
          have := congrArg Prod.fst e
          exact this.symm
        rw [e1]
        exact ⟨rfl, rfl⟩

theorem dispatch_unknown (env : irq_env) (nd : net_device) (ev : Nat) (h : unknown_kind ev) :
    dispatch env nd ev = some (nd, env) := by
  obtain ⟨c1, c2, c3⟩ := h
  unfold dispatch
  dsimp only
  rw [if_neg c1, if_neg c2, if_neg c3]

/-- The device after `next_event` has taken a word from the queue. -/
theorem next_event_take (ssp : ss_priv) (h : ssp.eq.getD ssp.eq_read 0 ≠ 0) :
    next_event ssp = (ssp.eq.getD ssp.eq_read 0,
      { ssp with eq := ssp.eq.set ssp.eq_read 0,
                 eq_read := (ssp.eq_read + 1) % NUM_EQ_ENTRIES }) := by
  unfold next_event
  dsimp only
  rw [if_neg h]

theorem ss_interrupt_stop (fuel : Nat) (env : irq_env) (nd : net_device)
    (h : nd.priv.eq.getD nd.priv.eq_read 0 = 0) :
    ss_interrupt (fuel + 1) env nd = irq_outcome.handled nd [] := by
  unfold ss_interrupt
  dsimp only
  rw [next_event_empty nd.priv h]
  dsimp only
  rw [if_pos rfl]

theorem ss_interrupt_oops (fuel : Nat) (env : irq_env) (nd : net_device)
    (h : nd.priv.eq.getD nd.priv.eq_read 0 ≠ 0)
    (hd : dispatch env { nd with priv := { nd.priv with
        eq := nd.priv.eq.set nd.priv.eq_read 0,
        eq_read := (nd.priv.eq_read + 1) % NUM_EQ_ENTRIES } }
        (nd.priv.eq.getD nd.priv.eq_read 0) = none) :
    ss_interrupt (fuel + 1) env nd = irq_outcome.oops := by
  unfold ss_interrupt
  dsimp only
  rw [next_event_take nd.priv h]
  dsimp only
  rw [if_neg h, hd]

theorem ss_interrupt_more (fuel : Nat) (env env2 : irq_env) (nd nd2 : net_device)
    (h : nd.priv.eq.getD nd.priv.eq_read 0 ≠ 0)
    (hd : dispatch env { nd with priv := { nd.priv with
        eq := nd.priv.eq.set nd.priv.eq_read 0,
        eq_read := (nd.priv.eq_read + 1) % NUM_EQ_ENTRIES } }
        (nd.priv.eq.getD nd.priv.eq_read 0) = some (nd2, env2)) :
    ss_interrupt (fuel + 1) env nd
      = match ss_interrupt fuel env2 nd2 with
        | irq_outcome.handled nd3 evs =>
          irq_outcome.handled nd3 (nd.priv.eq.getD nd.priv.eq_read 0 :: evs)
        | irq_outcome.oops => irq_outcome.oops
        | irq_outcome.spinning => irq_outcome.spinning := by
  conv => lhs; unfold ss_interrupt
  dsimp only
  rw [next_event_take nd.priv h]
  dsimp only
  rw [if_neg h, hd]

theorem eq_getD_set (eq : List Nat) (s j : Nat) :
    (eq.set s 0).getD j 0 = if j = s then 0 else eq.getD j 0 := by
  rw [List.getD_eq_getElem?_getD, List.getD_eq_getElem?_getD, List.getElem?_set]
  by_cases h : s = j
  · rw [if_pos h, if_pos h.symm]
    by_cases h2 : s < eq.length
    · rw [if_pos h2]; rfl
    · rw [if_neg h2]; rfl
  · have h' : ¬ (j = s) := fun e => h e.symm
    rw [if_neg h, if_neg h']



theorem ss_interrupt_drains : ∀ (fuel : Nat) (env : irq_env) (nd : net_device),
    nd.priv.eq.length = NUM_EQ_ENTRIES → nd.priv.eq_read < NUM_EQ_ENTRIES →
    count_nonzero nd.priv.eq < fuel →
    ss_interrupt fuel env nd ≠ irq_outcome.spinning
    ∧ (∀ nd' evs, ss_interrupt fuel env nd = irq_outcome.handled nd' evs →
        evs = nonzero_run nd.priv.eq nd.priv.eq_read
        ∧ nd'.priv.eq.length = NUM_EQ_ENTRIES
        ∧ nd'.priv.eq_read = (nd.priv.eq_read + evs.length) % NUM_EQ_ENTRIES
        ∧ (∀ j, j < NUM_EQ_ENTRIES → nd'.priv.eq.getD j 0 =
            if (j + NUM_EQ_ENTRIES - nd.priv.eq_read) % NUM_EQ_ENTRIES < evs.length then 0
            else nd.priv.eq.getD j 0)
        ∧ nd'.priv.eq.getD nd'.priv.eq_read 0 = 0)
    ∧ ((∀ w ∈ nonzero_run nd.priv.eq nd.priv.eq_read, unknown_kind w) →
        ∃ nd', ss_interrupt fuel env nd
          = irq_outcome.handled nd' (nonzero_run nd.priv.eq nd.priv.eq_read)) := by
  have hN : NUM_EQ_ENTRIES = 1024 := rfl
  intro fuel
  induction fuel with
  | zero =>
    intro env nd _ _ hc
    exact absurd hc (Nat.not_lt_zero _)
  | succ fuel ih =>
    intro env nd hlen hs hc
    by_cases hw : nd.priv.eq.getD nd.priv.eq_read 0 = 0
    · have hrun := nonzero_run_zero nd.priv.eq nd.priv.eq_read (by rw [hlen]; exact hs) hw
      rw [ss_interrupt_stop fuel env nd hw, hrun]
      refine ⟨fun h => irq_outcome.noConfusion h, ?_, fun _ => ⟨nd, rfl⟩⟩
      intro nd' evs h
      have e1 : nd = nd' := irq_outcome.handled.inj h |>.1
      have e2 : [] = evs := irq_outcome.handled.inj h |>.2
      rw [← e1, ← e2]
      refine ⟨rfl, hlen, ?_, ?_, hw⟩
      · rw [List.length_nil, Nat.add_zero, Nat.mod_eq_of_lt hs]
      · intro j _
        rw [List.length_nil, if_neg (Nat.not_lt_zero _)]
    · have hsl : nd.priv.eq_read < nd.priv.eq.length := by rw [hlen]; exact hs
      have hrun := nonzero_run_step nd.priv.eq nd.priv.eq_read hsl hw
      rw [hlen] at hrun
      have hcnt := count_nonzero_set nd.priv.eq nd.priv.eq_read hsl hw
      cases hd : dispatch env { nd with priv := { nd.priv with
          eq := nd.priv.eq.set nd.priv.eq_read 0,
          eq_read := (nd.priv.eq_read + 1) % NUM_EQ_ENTRIES } }
          (nd.priv.eq.getD nd.priv.eq_read 0) with
      | none =>
        rw [ss_interrupt_oops fuel env nd hw hd]
        refine ⟨fun h => irq_outcome.noConfusion h, fun _ _ h => irq_outcome.noConfusion h, ?_⟩
        intro hall
        have hk : unknown_kind (nd.priv.eq.getD nd.priv.eq_read 0) :=
          hall _ (by rw [hrun]; exact List.mem_cons_self _ _)
        rw [dispatch_unknown _ _ _ hk] at hd
        exact Option.noConfusion hd
      | some r =>
        obtain ⟨nd2, env2⟩ := r
        obtain ⟨q1, q2⟩ := dispatch_queue _ _ _ _ _ hd
        have q1' : nd2.priv.eq = nd.priv.eq.set nd.priv.eq_read 0 := q1
        have q2' : nd2.priv.eq_read = (nd.priv.eq_read + 1) % NUM_EQ_ENTRIES := q2
        have hlen2 : nd2.priv.eq.length = NUM_EQ_ENTRIES := by
          rw [q1', List.length_set]; exact hlen
        have hs2 : nd2.priv.eq_read < NUM_EQ_ENTRIES := by
          rw [q2']; exact Nat.mod_lt _ (by decide)
        have hc2 : count_nonzero nd2.priv.eq < fuel := by
          rw [q1']; omega
        obtain ⟨i1, i2, i3⟩ := ih env2 nd2 hlen2 hs2 hc2
        rw [q1', q2'] at i2 i3
        rw [ss_interrupt_more fuel env env2 nd nd2 hw hd]
        cases hr : ss_interrupt fuel env2 nd2 with
        | spinning => exact absurd hr i1
        | oops =>
          dsimp only
          refine ⟨fun h => irq_outcome.noConfusion h, fun _ _ h => irq_outcome.noConfusion h, ?_⟩
          intro hall
          have hk : unknown_kind (nd.priv.eq.getD nd.priv.eq_read 0) :=
            hall _ (by rw [hrun]; exact List.mem_cons_self _ _)
          have hall2 : ∀ w ∈ nonzero_run (nd.priv.eq.set nd.priv.eq_read 0)
              ((nd.priv.eq_read + 1) % NUM_EQ_ENTRIES), unknown_kind w := by
            intro w hmem
            exact hall w (by rw [hrun]; exact List.mem_cons_of_mem _ hmem)
          obtain ⟨nd', h'⟩ := i3 hall2
          rw [hr] at h'
          exact irq_outcome.noConfusion h'
        | handled nd3 evs0 =>
          dsimp only
          obtain ⟨p1, p2, p3, p4, p5⟩ := i2 nd3 evs0 hr
          refine ⟨fun h => irq_outcome.noConfusion h, ?_, ?_⟩
          · intro nd' evs h
            have e1 : nd3 = nd' := irq_outcome.handled.inj h |>.1
            have e2 : nd.priv.eq.getD nd.priv.eq_read 0 :: evs0 = evs :=
              irq_outcome.handled.inj h |>.2
            rw [← e1, ← e2, hrun, ← p1]
            have hl0 : evs0.length ≤ NUM_EQ_ENTRIES := by
              rw [p1]
              have := nonzero_run_length_le (nd.priv.eq.set nd.priv.eq_read 0)
                ((nd.priv.eq_read + 1) % NUM_EQ_ENTRIES)
                (by rw [List.length_set, hlen]; exact Nat.le_of_lt (Nat.mod_lt _ (by decide)))
              rw [List.length_set, hlen] at this
              exact this
            refine ⟨rfl, p2, ?_, ?_, p5⟩
            · rw [p3, List.length_cons, hN]
              rw [hN] at hs
              omega
            · intro j hj
              rw [p4 j hj, eq_getD_set, List.length_cons, hN]
              rw [hN] at hs hj hl0
              generalize nd.priv.eq.getD j 0 = x
              generalize evs0.length = n at *
              generalize nd.priv.eq_read = s at *
              by_cases hjs : j = s
              · have c1 : (j + 1024 - s) % 1024 < n + 1 := by omega
                rw [if_pos hjs, if_pos c1]
                by_cases c2 : (j + 1024 - (s + 1) % 1024) % 1024 < n
                · rw [if_pos c2]
                · rw [if_neg c2]
              · rw [if_neg hjs]
                by_cases c2 : (j + 1024 - (s + 1) % 1024) % 1024 < n
                · have c1 : (j + 1024 - s) % 1024 < n + 1 := by omega
                  rw [if_pos c2, if_pos c1]
                · have c1 : ¬ ((j + 1024 - s) % 1024 < n + 1) := by omega
                  rw [if_neg c2, if_neg c1]
          · intro hall
            have hk : unknown_kind (nd.priv.eq.getD nd.priv.eq_read 0) :=
              hall _ (by rw [hrun]; exact List.mem_cons_self _ _)
            have hall2 : ∀ w ∈ nonzero_run (nd.priv.eq.set nd.priv.eq_read 0)
                ((nd.priv.eq_read + 1) % NUM_EQ_ENTRIES), unknown_kind w := by
              intro w hmem
              exact hall w (by rw [hrun]; exact List.mem_cons_of_mem _ hmem)
            obtain ⟨nd', h'⟩ := i3 hall2
            rw [hr] at h'
            have e2 : evs0 = nonzero_run (nd.priv.eq.set nd.priv.eq_read 0)
                ((nd.priv.eq_read + 1) % NUM_EQ_ENTRIES) := irq_outcome.handled.inj h' |>.2
            exact ⟨nd3, by rw [hrun, e2]⟩



theorem nonzero_run_full (eq : List Nat) (s : Nat) (h : ∀ w ∈ eq, w ≠ 0) :
    nonzero_run eq s = eq.drop s ++ eq.take s := by
  unfold nonzero_run
  rw [List.takeWhile_eq_self_iff]
  intro w hw
  rw [bne_iff_ne]
  rcases List.mem_append.mp hw with h1 | h1
  · exact h w (List.mem_of_mem_drop h1)
  · exact h w (List.mem_of_mem_take h1)

theorem event_type_div (w : Nat) : event_type w = w / 2 ^ 16 % 2 ^ 16 := by
  have e : (0xFFFF : Nat) = 2 ^ 16 - 1 := by decide
  unfold event_type
  rw [e, Nat.and_pow_two_sub_one_eq_mod, Nat.shiftRight_eq_div_pow]

theorem spec_handle_eq (env : irq_env) (nd : net_device) (w : Nat) :
    spec_handle env nd w = dispatch env nd w := by
  unfold spec_handle dispatch
  dsimp only
  rw [← event_type_div, ← event_index_eq]
  by_cases c1 : event_type w = EVENT_TX_END
  · have c1' : event_type w = 125 := c1
    rw [if_pos c1, if_pos c1']
    cases ss_tx_end nd (event_index w) with
    | none => rfl
    | some nd1 => rfl
  · have c1' : ¬ event_type w = 125 := c1
    rw [if_neg c1, if_neg c1']
    by_cases c2 : event_type w = EVENT_RX
    · have c2' : event_type w = 126 := c2
      rw [if_pos c2, if_pos c2']
    · have c2' : ¬ event_type w = 126 := c2
      rw [if_neg c2, if_neg c2']
      by_cases c3 : event_type w = EVENT_RX_EMPTY
      · have c3' : event_type w = 127 := c3
        rw [if_pos c3, if_pos c3']
      · have c3' : ¬ event_type w = 127 := c3
        rw [if_neg c3, if_neg c3']

theorem spec_drain_cons (w : Nat) (ws : List Nat) (env : irq_env) (nd : net_device) :
    spec_drain (w :: ws) env nd
      = match dispatch env { nd with priv := { nd.priv with
            eq := nd.priv.eq.set nd.priv.eq_read 0,
            eq_read := (nd.priv.eq_read + 1) % NUM_EQ_ENTRIES } } w with
        | none => none
        | some (nd1, env1) => spec_drain ws env1 nd1 := by
  rw [spec_drain]
  dsimp only
  rw [spec_handle_eq]

theorem ss_interrupt_eq_spec : ∀ (fuel : Nat) (env : irq_env) (nd : net_device),
    nd.priv.eq.length = NUM_EQ_ENTRIES → nd.priv.eq_read < NUM_EQ_ENTRIES →
    count_nonzero nd.priv.eq < fuel →
    ss_interrupt fuel env nd
      = drain_outcome (spec_drain (nonzero_run nd.priv.eq nd.priv.eq_read) env nd)
          (nonzero_run nd.priv.eq nd.priv.eq_read) := by
  intro fuel
  induction fuel with
  | zero =>
    intro env nd _ _ hc
    exact absurd hc (Nat.not_lt_zero _)
  | succ fuel ih =>
    intro env nd hlen hs hc
    have hsl : nd.priv.eq_read < nd.priv.eq.length := by rw [hlen]; exact hs
    by_cases hw : nd.priv.eq.getD nd.priv.eq_read 0 = 0
    · rw [ss_interrupt_stop fuel env nd hw, nonzero_run_zero _ _ hsl hw]
      rfl
    · rw [nonzero_run_step _ _ hsl hw, hlen, spec_drain_cons]
      cases hd : dispatch env { nd with priv := { nd.priv with
          eq := nd.priv.eq.set nd.priv.eq_read 0,
          eq_read := (nd.priv.eq_read + 1) % NUM_EQ_ENTRIES } }
          (nd.priv.eq.getD nd.priv.eq_read 0) with
      | none =>
        rw [ss_interrupt_oops fuel env nd hw hd]
        rfl
      | some r =>
        obtain ⟨nd2, env2⟩ := r
        rw [ss_interrupt_more fuel env env2 nd nd2 hw hd]
        obtain ⟨q1, q2⟩ := dispatch_queue _ _ _ _ _ hd
        have e1 : nd2.priv.eq = nd.priv.eq.set nd.priv.eq_read 0 := q1
        have e2 : nd2.priv.eq_read = (nd.priv.eq_read + 1) % NUM_EQ_ENTRIES := q2
        have hc2 : count_nonzero nd2.priv.eq < fuel := by
          have := count_nonzero_set nd.priv.eq nd.priv.eq_read hsl hw
          rw [e1]
          omega
        have hrec := ih env2 nd2 (by rw [e1, List.length_set]; exact hlen)
          (by rw [e2]; exact Nat.mod_lt _ (by decide)) hc2
        rw [e1, e2] at hrec
        rw [hrec]
        dsimp only
        cases spec_drain (nonzero_run (nd.priv.eq.set nd.priv.eq_read 0)
            ((nd.priv.eq_read + 1) % NUM_EQ_ENTRIES)) env2 nd2 with
        | none => rfl
        | some r2 => rfl

theorem spec_drain_returns (ws : List Nat) :
    ∀ (env : irq_env) (nd : net_device),
      (∀ w ∈ ws, event_type w ≠ EVENT_RX
        ∧ (event_type w = EVENT_TX_END → event_index w < NUM_PENDINGS)) →
      ∃ r, spec_drain ws env nd = some r := by
  induction ws with
  | nil =>
    intro env nd _
    exact ⟨_, rfl⟩
  | cons w ws ih =>
    intro env nd h
    obtain ⟨h1, h2⟩ := h w (List.mem_cons_self _ _)
    have hrest : ∀ v ∈ ws, event_type v ≠ EVENT_RX
        ∧ (event_type v = EVENT_TX_END → event_index v < NUM_PENDINGS) :=
      fun v hv => h v (List.mem_cons_of_mem _ hv)
    rw [spec_drain_cons]
    generalize ({ nd with priv := { nd.priv with
        eq := nd.priv.eq.set nd.priv.eq_read 0,
        eq_read := (nd.priv.eq_read + 1) % NUM_EQ_ENTRIES } } : net_device) = nd1
    have hd : ∃ r, dispatch env nd1 w = some r := by
      unfold dispatch
      dsimp only
      by_cases c1 : event_type w = EVENT_TX_END
      · rw [if_pos c1, ss_tx_end_eq nd1 _ (h2 c1)]
        exact ⟨_, rfl⟩
      · rw [if_neg c1, if_neg h1]
        by_cases c3 : event_type w = EVENT_RX_EMPTY
        · rw [if_pos c3]
          exact ⟨_, rfl⟩
        · rw [if_neg c3]
          exact ⟨_, rfl⟩
    obtain ⟨r, hr⟩ := hd
    rw [hr]
    exact ih r.2 r.1 hrest

/-- C14, what the code does, for event words whose indices lie inside the
tables of their handlers.  On an event queue nobody else writes during the
call, `ss_interrupt` never runs for more than 1024 rounds plus the one that
finds the empty slot.  It ends as the drain of the specification's dispatcher
over the maximal run of consecutive non-zero words from the read cursor does:
it returns, leaving the device that drain leaves, when every handler returns,
and it does not return when a handler does not.  A run without ReceiveReady
words, whatever else it holds and even if it fills all 1024 slots, is always
drained to the end; a ReceiveReady word for an empty entry or for a frame
that does not fit its buffer makes `ss_rx_skb` fault, and then `ss_interrupt`
does not return.  When it returns, every consumed slot is zero, every other
slot is unchanged, the read cursor has advanced by the run length modulo 1024
and the slot it points to is zero. -/
theorem ss_interrupt_outcome (env : irq_env) (nd : net_device) (fuel : Nat)
    (hlen : nd.priv.eq.length = NUM_EQ_ENTRIES) (hs : nd.priv.eq_read < NUM_EQ_ENTRIES)
    (hf : NUM_EQ_ENTRIES < fuel)
    (hr : events_in_range (nonzero_run nd.priv.eq nd.priv.eq_read)) :
    ss_interrupt fuel env nd ≠ irq_outcome.spinning
    ∧ (nonzero_run nd.priv.eq nd.priv.eq_read).length ≤ 1024
    ∧ ss_interrupt fuel env nd
        = drain_outcome (spec_drain (nonzero_run nd.priv.eq nd.priv.eq_read) env nd)
            (nonzero_run nd.priv.eq nd.priv.eq_read)
    ∧ ((∀ w ∈ nonzero_run nd.priv.eq nd.priv.eq_read, event_type w ≠ EVENT_RX) →
        ∃ nd' env', spec_drain (nonzero_run nd.priv.eq nd.priv.eq_read) env nd = some (nd', env')
          ∧ ss_interrupt fuel env nd
            = irq_outcome.handled nd' (nonzero_run nd.priv.eq nd.priv.eq_read))
    ∧ (spec_drain (nonzero_run nd.priv.eq nd.priv.eq_read) env nd = none →
        ss_interrupt fuel env nd = irq_outcome.oops)
    ∧ (∀ nd' evs, ss_interrupt fuel env nd = irq_outcome.handled nd' evs →
        evs = nonzero_run nd.priv.eq nd.priv.eq_read
        ∧ nd'.priv.eq.length = NUM_EQ_ENTRIES
        ∧ nd'.priv.eq_read = (nd.priv.eq_read + evs.length) % NUM_EQ_ENTRIES
        ∧ (∀ j, j < NUM_EQ_ENTRIES → nd'.priv.eq.getD j 0 =
            if (j + NUM_EQ_ENTRIES - nd.priv.eq_read) % NUM_EQ_ENTRIES < evs.length then 0
            else nd.priv.eq.getD j 0)
        ∧ nd'.priv.eq.getD nd'.priv.eq_read 0 = 0)
    ∧ ((∀ w ∈ nd.priv.eq, w ≠ 0) →
        nonzero_run nd.priv.eq nd.priv.eq_read
          = nd.priv.eq.drop nd.priv.eq_read ++ nd.priv.eq.take nd.priv.eq_read
        ∧ (nonzero_run nd.priv.eq nd.priv.eq_read).length = 1024) := by
  have hN : NUM_EQ_ENTRIES = 1024 := rfl
  have hc : count_nonzero nd.priv.eq < fuel := by
    have := count_nonzero_le nd.priv.eq
    omega
  obtain ⟨d1, d2, _⟩ := ss_interrupt_drains fuel env nd hlen hs hc
  have heq := ss_interrupt_eq_spec fuel env nd hlen hs hc
  have hrl := nonzero_run_length_le nd.priv.eq nd.priv.eq_read (by omega)
  refine ⟨d1, by omega, heq, ?_, ?_, d2, ?_⟩
  · intro hno
    obtain ⟨r, hr1⟩ := spec_drain_returns _ env nd (fun w hw => ⟨hno w hw, (hr w hw).1⟩)
    refine ⟨r.1, r.2, hr1, ?_⟩
    rw [heq, hr1]
    rfl
  · intro hnone
    rw [heq, hnone]
    rfl
  · intro hall
    have hfull := nonzero_run_full nd.priv.eq nd.priv.eq_read hall
    refine ⟨hfull, ?_⟩
    rw [hfull, List.length_append, List.length_drop, List.length_take]
    omega

set_option maxRecDepth 100000 in
theorem ss_interrupt_outcome_witness :
    netdev_rx_twice.priv.eq.length = NUM_EQ_ENTRIES
    ∧ netdev_rx_twice.priv.eq_read < NUM_EQ_ENTRIES
    ∧ NUM_EQ_ENTRIES < 1025
    ∧ nonzero_run netdev_rx_twice.priv.eq netdev_rx_twice.priv.eq_read
        = [(126 <<< 16) ||| 7, (126 <<< 16) ||| 7]
    ∧ events_in_range (nonzero_run netdev_rx_twice.priv.eq netdev_rx_twice.priv.eq_read)
    ∧ netdev_rx_twice.priv.skb_table_virt.getD 7 none ≠ none
    ∧ (spec_drain [(126 <<< 16) ||| 7] irq_env_fail netdev_rx_twice).map
        (fun r => (r.1.priv.skb_table_virt.getD 7 none, r.1.priv.skb_table_phys.getD 7 0,
          r.1.rx_delivered.length, r.1.priv.eq_read))
        = some (none, 16499, 1, 1)
    ∧ ss_interrupt 1025 irq_env_fail netdev_rx_twice = irq_outcome.oops :=
  ⟨by decide, by decide, by decide, by decide, by decide, by decide, by decide,
    (ss_interrupt_outcome irq_env_fail netdev_rx_twice 1025 (by decide) (by decide)
      (by decide) (by decide)).2.2.2.2.1 (Option.isNone_iff_eq_none.mp (by decide))⟩

set_option maxRecDepth 100000 in
/-- A drain that returns: on the device `netdev_tx_done` the two words are
handled to the end; the frame of slot 63 is freed, slot 63 is back at the
head of the free list, the queue runs again and the two slots are zero. -/
theorem ss_interrupt_returns_example :
    ∃ nd', ss_interrupt 1025 irq_env_ok netdev_tx_done
        = irq_outcome.handled nd' [(1 <<< 16) ||| 9, (125 <<< 16) ||| 63]
      ∧ nd'.priv.eq_read = 2 ∧ nd'.priv.eq.take 3 = [0, 0, 0] ∧ nd'.queue_stopped = false
      ∧ nd'.freed_skbs = [wire_of frame_ok] ∧ (tx_free_list nd'.priv).take 2 = [63, 62] := by
  cases h : ss_interrupt 1025 irq_env_ok netdev_tx_done with
  | handled nd' evs =>
    have h2 : (match ss_interrupt 1025 irq_env_ok netdev_tx_done with
      | irq_outcome.handled nd' evs =>
        some (evs, nd'.priv.eq_read, nd'.priv.eq.take 3, nd'.queue_stopped,
          nd'.freed_skbs, (tx_free_list nd'.priv).take 2)
      | irq_outcome.oops => none
      | irq_outcome.spinning => none)
      = some ([(1 <<< 16) ||| 9, (125 <<< 16) ||| 63], 2, [0, 0, 0], false,
          [wire_of frame_ok], [63, 62]) := rfl
    rw [h] at h2
    simp only [Option.some.injEq, Prod.mk.injEq] at h2
    obtain ⟨a, b, c, d, e, f⟩ := h2
    exact ⟨nd', by rw [a], b, c, d, e, f⟩
  | oops => exact absurd h (by decide)
  | spinning => exact absurd h (by decide)


/-! ## Transmit submission -/

theorem seastar_cmd_nowait (env : fw_env) (ssp : ss_priv) (cmd : List Nat)
    (c r : Nat) (rest : List Nat)
    (h : wait_cmd_slot (next_write_of ssp.mailbox_cached_write) env.fw_reads
      ssp.mailbox.commandq_read ssp.mailbox_cached_read = some (c, r, rest)) :
    seastar_cmd env ssp cmd false
      = some (0, cmd_posted ssp cmd c r, { env with fw_reads := rest }) := by
  unfold seastar_cmd
  dsimp only
  unfold next_write_of at h
  rw [h]
  rfl

theorem command_ip_tx_record (op nid len addr idx : Nat) (tail : List Nat) :
    ((command_ip_tx_bytes op nid len addr idx ++ tail).take 64).getD 0 0 = u8 op
    ∧ ((command_ip_tx_bytes op nid len addr idx ++ tail).take 64).getD 1 0 = 0
    ∧ cmd_u16 ((command_ip_tx_bytes op nid len addr idx ++ tail).take 64) 2 = u16 nid
    ∧ cmd_u16 ((command_ip_tx_bytes op nid len addr idx ++ tail).take 64) 4 = u16 len
    ∧ cmd_u16 ((command_ip_tx_bytes op nid len addr idx ++ tail).take 64) 6 = 0
    ∧ cmd_u16 ((command_ip_tx_bytes op nid len addr idx ++ tail).take 64) 16 = u16 idx := by
  have h16 : ∀ v, u16 v % 256 + 256 * (u16 v / 256 % 256) = u16 v := by
    intro v
    have : u16 v < 65536 := Nat.mod_lt _ (by decide)
    omega
  refine ⟨rfl, rfl, ?_, ?_, rfl, ?_⟩
  · exact h16 nid
  · exact h16 len
  · exact h16 idx



theorem tx_submit_eq (env : tx_env) (netdev : net_device) (ssp : ss_priv) (skb : sk_buff)
    (dest_nid msg p c r : Nat) (rest : List Nat)
    (h : wait_cmd_slot (next_write_of ssp.mailbox_cached_write) env.fw.fw_reads
      ssp.mailbox.commandq_read ssp.mailbox_cached_read = some (c, r, rest)) :
    tx_submit env netdev ssp skb dest_nid msg p = some
      { ret := 0, skb := skb,
        netdev := { netdev with
          priv := cmd_posted ssp
            ((command_ip_tx_bytes COMMAND_IP_TX dest_nid (sshdr_length skb)
              (env.virt_to_phys msg >>> 2) (pending_to_index ssp p) ++ env.stack_tail).take 64)
            c r,
          stats := { netdev.stats with
            tx_packets := u64 (netdev.stats.tx_packets + 1),
            tx_bytes := u64 (netdev.stats.tx_bytes + skb.len) } } } := by
  unfold tx_submit seastar_ip_tx_cmd
  dsimp only
  rw [seastar_cmd_nowait env.fw ssp _ c r rest h]

/-- The private area `ss_tx` hands to the command channel on its success
path: slot `p` taken from the free list, the frame and the bounce buffer
recorded in it. -/
theorem tx_slot_state (ssp : ss_priv) (p : Nat) (l : List Nat) (wire : sk_buff)
    (b : Option kbuf)
    (hc : is_chain ssp.pending_table ssp.tx_pending_free_list (p :: l)) (hpl : p ∉ l)
    (hp : p < ssp.pending_table.length) :
    is_chain
      (upd_pending (upd_pending (alloc_tx_pending ssp).2 p (fun e => { e with skb := some wire }))
        p (fun e => { e with bounce := b })).pending_table
      (upd_pending (upd_pending (alloc_tx_pending ssp).2 p (fun e => { e with skb := some wire }))
        p (fun e => { e with bounce := b })).tx_pending_free_list l
    ∧ (get_pending
        (upd_pending (upd_pending (alloc_tx_pending ssp).2 p
          (fun e => { e with skb := some wire })) p (fun e => { e with bounce := b })) p).skb
        = some wire
    ∧ (get_pending
        (upd_pending (upd_pending (alloc_tx_pending ssp).2 p
          (fun e => { e with skb := some wire })) p (fun e => { e with bounce := b })) p).bounce
        = b
    ∧ (upd_pending (upd_pending (alloc_tx_pending ssp).2 p
          (fun e => { e with skb := some wire })) p
          (fun e => { e with bounce := b })).pending_table.length = ssp.pending_table.length
    ∧ (upd_pending (upd_pending (alloc_tx_pending ssp).2 p
          (fun e => { e with skb := some wire })) p (fun e => { e with bounce := b })).mailbox
        = ssp.mailbox
    ∧ (upd_pending (upd_pending (alloc_tx_pending ssp).2 p
          (fun e => { e with skb := some wire })) p
          (fun e => { e with bounce := b })).mailbox_cached_read = ssp.mailbox_cached_read
    ∧ (upd_pending (upd_pending (alloc_tx_pending ssp).2 p
          (fun e => { e with skb := some wire })) p
          (fun e => { e with bounce := b })).mailbox_cached_write = ssp.mailbox_cached_write := by
  obtain ⟨a1, a2, a3⟩ := alloc_of_chain ssp p l hc hpl
  have hh : ssp.tx_pending_free_list = some p := hc.1
  have hm : (alloc_tx_pending ssp).2.mailbox = ssp.mailbox
      ∧ (alloc_tx_pending ssp).2.mailbox_cached_read = ssp.mailbox_cached_read
      ∧ (alloc_tx_pending ssp).2.mailbox_cached_write = ssp.mailbox_cached_write := by
    unfold alloc_tx_pending
    rw [hh]
    exact ⟨rfl, rfl, rfl⟩
  generalize (alloc_tx_pending ssp).2 = s1 at *
  have hp1 : p < s1.pending_table.length := by rw [a3]; exact hp
  have hp2 : p < (s1.pending_table.set p
      ({ get_pending s1 p with skb := some wire } : pending)).length := by
    rw [List.length_set]; exact hp1
  refine ⟨?_, ?_, ?_, ?_, hm.1, hm.2.1, hm.2.2⟩
  · show is_chain ((s1.pending_table.set p _).set p _) s1.tx_pending_free_list l
    exact is_chain_set _ _ _ _ _ hpl (is_chain_set _ _ _ _ _ hpl a2)
  · show (((s1.pending_table.set p _).set p _).getD p pending_zero).skb = some wire
    rw [tbl_getD_set_self _ _ _ hp2]
    show ((s1.pending_table.set p _).getD p pending_zero).skb = some wire
    rw [tbl_getD_set_self _ _ _ hp1]
  · show (((s1.pending_table.set p _).set p _).getD p pending_zero).bounce = b
    rw [tbl_getD_set_self _ _ _ hp2]
  · show ((s1.pending_table.set p _).set p _).length = _
    rw [List.length_set, List.length_set, a3]

/-- The outcome of `ss_tx` on its success path, for the bounce buffer `b`
the alignment of the frame calls for and the message address `msg`. -/
theorem ss_tx_success (env : tx_env) (skb wire : sk_buff) (netdev : net_device) (p : Nat)
    (hq : netdev.queue_stopped = false)
    (hacc : eth2ss skb = some (0, wire))
    (hh : netdev.priv.tx_pending_free_list = some p)
    (hk : (wire.head_addr + wire.data) &&& 0x3 ≠ 0 → env.kmalloc ≠ none) :
    ∃ (b : Option kbuf) (msg : Nat),
      ss_tx env skb netdev = tx_submit env netdev
        (upd_pending (upd_pending (alloc_tx_pending netdev.priv).2 p
          (fun e => { e with skb := some wire })) p (fun e => { e with bounce := b }))
        wire (ntohl (h_dest32 skb)) msg p := by
  have ha : alloc_tx_pending netdev.priv = (some p, (alloc_tx_pending netdev.priv).2) :=
    Prod.ext (alloc_tx_pending_some netdev.priv p hh).1 rfl
  have h0 : ¬ ((0 : Int) ≠ 0) := fun h => h rfl
  by_cases hal : (wire.head_addr + wire.data) &&& 0x3 = 0
  · refine ⟨none, wire.head_addr + wire.data, ?_⟩
    unfold ss_tx
    dsimp only
    rw [hq, hacc]
    dsimp only
    rw [if_neg h0, ha]
    dsimp only
    rw [if_pos hal]
    simp only [Bool.false_eq_true, if_false]
  · cases hm : env.kmalloc with
    | none => exact absurd hm (hk hal)
    | some addr =>
      refine ⟨some { addr := addr, bytes := frame_bytes wire }, addr, ?_⟩
      unfold ss_tx
      dsimp only
      rw [hq, hacc]
      dsimp only
      rw [if_neg h0, ha]
      dsimp only
      rw [if_neg hal, hm]
      simp only [Bool.false_eq_true, if_false]



theorem cmdq_getD_set (q : List (List Nat)) (w j : Nat) (cmd : List Nat) :
    (j ≠ w → (q.set w cmd).getD j [] = q.getD j [])
    ∧ (w < q.length → (q.set w cmd).getD w [] = cmd) := by
  constructor
  · intro h
    rw [List.getD_eq_getElem?_getD, List.getD_eq_getElem?_getD,
      List.getElem?_set_ne (fun e => h e.symm)]
  · intro h
    rw [List.getD_eq_getElem?_getD, List.getElem?_set_self h, Option.getD_some]

theorem le_bytes_length (v n : Nat) : (le_bytes v n).length = n := by
  induction n generalizing v with
  | zero => rfl
  | succ k ih => rw [le_bytes, List.length_cons, ih]

theorem put_le_length (buf : List Nat) (off n v : Nat) (h : off + n ≤ buf.length) :
    (put_le buf off n v).length = buf.length := by
  unfold put_le
  rw [List.length_append, List.length_append, List.length_take, List.length_drop,
    le_bytes_length]
  omega

theorem put_le_getD_out (buf : List Nat) (off n v i : Nat) (h : off + n ≤ buf.length)
    (hi : i < off ∨ off + n ≤ i) :
    (put_le buf off n v).getD i 0 = buf.getD i 0 := by
  unfold put_le
  rw [List.getD_eq_getElem?_getD, List.getD_eq_getElem?_getD]
  congr 1
  have hl1 : (buf.take off).length = off := by rw [List.length_take]; omega
  rcases hi with hi | hi
  · rw [List.append_assoc, List.getElem?_append_left (by rw [hl1]; exact hi),
      List.getElem?_take_of_lt hi]
  · have hl2 : (buf.take off ++ le_bytes v n).length = off + n := by
      rw [List.length_append, hl1, le_bytes_length]
    rw [List.getElem?_append_right (by rw [hl2]; exact hi), hl2, List.getElem?_drop]
    congr 1
    omega

theorem put_le_getD_in (buf : List Nat) (off n v i : Nat) (h : off + n ≤ buf.length)
    (hi : i < n) :
    (put_le buf off n v).getD (off + i) 0 = (le_bytes v n).getD i 0 := by
  unfold put_le
  rw [List.getD_eq_getElem?_getD, List.getD_eq_getElem?_getD]
  congr 1
  have hl1 : (buf.take off).length = off := by rw [List.length_take]; omega
  rw [List.append_assoc, List.getElem?_append_right (by rw [hl1]; omega), hl1,
    List.getElem?_append_left (by rw [le_bytes_length]; omega)]
  congr 1
  omega




theorem put_le_keep (buf : List Nat) (off n v i : Nat) (hl : buf.length = 64)
    (h : off + n ≤ 64) (hi : i < off ∨ off + n ≤ i) :
    (put_le buf off n v).length = 64 ∧ (put_le buf off n v).getD i 0 = buf.getD i 0 :=
  ⟨by rw [put_le_length buf off n v (by omega), hl],
   put_le_getD_out buf off n v i (by omega) hi⟩

theorem take_all_getD (l : List Nat) (i : Nat) (hl : l.length = 64) :
    (l.take 64).getD i 0 = l.getD i 0 := by
  rw [List.take_of_length_le (by omega)]

/-- The Init record keeps what the stack held in the bytes of `pad` and `pid`
(2 to 5) and behind the 60 bytes of `struct command_init` (60 to 63). -/
theorem hw_init_cmd_unassigned (stack : List Nat)
    (lower_pending up_pending lower_eqcb eqheap num_eq i : Nat)
    (hl : stack.length = 64) (hi : (2 ≤ i ∧ i < 6) ∨ 60 ≤ i) :
    ((hw_init_cmd stack lower_pending up_pending lower_eqcb eqheap num_eq).take 64).getD i 0
      = stack.getD i 0 := by
  have s1 := put_le_keep (stack) 0 1 COMMAND_INIT i hl (by omega) (by omega)
  have s2 := put_le_keep (put_le (stack) 0 1 COMMAND_INIT) 1 1 1 i s1.1 (by omega) (by omega)
  have s3 := put_le_keep (put_le (put_le (stack) 0 1 COMMAND_INIT) 1 1 1) 56 4 0 i s2.1 (by omega) (by omega)
  have s4 := put_le_keep (put_le (put_le (put_le (stack) 0 1 COMMAND_INIT) 1 1 1) 56 4 0) 6 2 0 i s3.1 (by omega) (by omega)
  have s5 := put_le_keep (put_le (put_le (put_le (put_le (stack) 0 1 COMMAND_INIT) 1 1 1) 56 4 0) 6 2 0) 8 2 NUM_PENDINGS i s4.1 (by omega) (by omega)
  have s6 := put_le_keep (put_le (put_le (put_le (put_le (put_le (stack) 0 1 COMMAND_INIT) 1 1 1) 56 4 0) 6 2 0) 8 2 NUM_PENDINGS) 14 2 NUM_TX_PENDINGS i s5.1 (by omega) (by omega)
  have s7 := put_le_keep (put_le (put_le (put_le (put_le (put_le (put_le (stack) 0 1 COMMAND_INIT) 1 1 1) 56 4 0) 6 2 0) 8 2 NUM_PENDINGS) 14 2 NUM_TX_PENDINGS) 16 4 lower_pending i s6.1 (by omega) (by omega)
  have s8 := put_le_keep (put_le (put_le (put_le (put_le (put_le (put_le (put_le (stack) 0 1 COMMAND_INIT) 1 1 1) 56 4 0) 6 2 0) 8 2 NUM_PENDINGS) 14 2 NUM_TX_PENDINGS) 16 4 lower_pending) 20 4 up_pending i s7.1 (by omega) (by omega)
  have s9 := put_le_keep (put_le (put_le (put_le (put_le (put_le (put_le (put_le (put_le (stack) 0 1 COMMAND_INIT) 1 1 1) 56 4 0) 6 2 0) 8 2 NUM_PENDINGS) 14 2 NUM_TX_PENDINGS) 16 4 lower_pending) 20 4 up_pending) 24 4 0 i s8.1 (by omega) (by omega)
  have s10 := put_le_keep (put_le (put_le (put_le (put_le (put_le (put_le (put_le (put_le (put_le (stack) 0 1 COMMAND_INIT) 1 1 1) 56 4 0) 6 2 0) 8 2 NUM_PENDINGS) 14 2 NUM_TX_PENDINGS) 16 4 lower_pending) 20 4 up_pending) 24 4 0) 10 2 0 i s9.1 (by omega) (by omega)
  have s11 := put_le_keep (put_le (put_le (put_le (put_le (put_le (put_le (put_le (put_le (put_le (put_le (stack) 0 1 COMMAND_INIT) 1 1 1) 56 4 0) 6 2 0) 8 2 NUM_PENDINGS) 14 2 NUM_TX_PENDINGS) 16 4 lower_pending) 20 4 up_pending) 24 4 0) 10 2 0) 28 4 0 i s10.1 (by omega) (by omega)
  have s12 := put_le_keep (put_le (put_le (put_le (put_le (put_le (put_le (put_le (put_le (put_le (put_le (put_le (stack) 0 1 COMMAND_INIT) 1 1 1) 56 4 0) 6 2 0) 8 2 NUM_PENDINGS) 14 2 NUM_TX_PENDINGS) 16 4 lower_pending) 20 4 up_pending) 24 4 0) 10 2 0) 28 4 0) 12 2 num_eq i s11.1 (by omega) (by omega)
  have s13 := put_le_keep (put_le (put_le (put_le (put_le (put_le (put_le (put_le (put_le (put_le (put_le (put_le (put_le (stack) 0 1 COMMAND_INIT) 1 1 1) 56 4 0) 6 2 0) 8 2 NUM_PENDINGS) 14 2 NUM_TX_PENDINGS) 16 4 lower_pending) 20 4 up_pending) 24 4 0) 10 2 0) 28 4 0) 12 2 num_eq) 32 4 lower_eqcb i s12.1 (by omega) (by omega)
  have s14 := put_le_keep (put_le (put_le (put_le (put_le (put_le (put_le (put_le (put_le (put_le (put_le (put_le (put_le (put_le (stack) 0 1 COMMAND_INIT) 1 1 1) 56 4 0) 6 2 0) 8 2 NUM_PENDINGS) 14 2 NUM_TX_PENDINGS) 16 4 lower_pending) 20 4 up_pending) 24 4 0) 10 2 0) 28 4 0) 12 2 num_eq) 32 4 lower_eqcb) 44 4 eqheap i s13.1 (by omega) (by omega)
  have s15 := put_le_keep (put_le (put_le (put_le (put_le (put_le (put_le (put_le (put_le (put_le (put_le (put_le (put_le (put_le (put_le (stack) 0 1 COMMAND_INIT) 1 1 1) 56 4 0) 6 2 0) 8 2 NUM_PENDINGS) 14 2 NUM_TX_PENDINGS) 16 4 lower_pending) 20 4 up_pending) 24 4 0) 10 2 0) 28 4 0) 12 2 num_eq) 32 4 lower_eqcb) 44 4 eqheap) 48 4 (NUM_EQ_ENTRIES * 4) i s14.1 (by omega) (by omega)
  have s16 := put_le_keep (put_le (put_le (put_le (put_le (put_le (put_le (put_le (put_le (put_le (put_le (put_le (put_le (put_le (put_le (put_le (stack) 0 1 COMMAND_INIT) 1 1 1) 56 4 0) 6 2 0) 8 2 NUM_PENDINGS) 14 2 NUM_TX_PENDINGS) 16 4 lower_pending) 20 4 up_pending) 24 4 0) 10 2 0) 28 4 0) 12 2 num_eq) 32 4 lower_eqcb) 44 4 eqheap) 48 4 (NUM_EQ_ENTRIES * 4)) 36 4 0 i s15.1 (by omega) (by omega)
  have s17 := put_le_keep (put_le (put_le (put_le (put_le (put_le (put_le (put_le (put_le (put_le (put_le (put_le (put_le (put_le (put_le (put_le (put_le (stack) 0 1 COMMAND_INIT) 1 1 1) 56 4 0) 6 2 0) 8 2 NUM_PENDINGS) 14 2 NUM_TX_PENDINGS) 16 4 lower_pending) 20 4 up_pending) 24 4 0) 10 2 0) 28 4 0) 12 2 num_eq) 32 4 lower_eqcb) 44 4 eqheap) 48 4 (NUM_EQ_ENTRIES * 4)) 36 4 0) 40 4 0 i s16.1 (by omega) (by omega)
  have s18 := put_le_keep (put_le (put_le (put_le (put_le (put_le (put_le (put_le (put_le (put_le (put_le (put_le (put_le (put_le (put_le (put_le (put_le (put_le (stack) 0 1 COMMAND_INIT) 1 1 1) 56 4 0) 6 2 0) 8 2 NUM_PENDINGS) 14 2 NUM_TX_PENDINGS) 16 4 lower_pending) 20 4 up_pending) 24 4 0) 10 2 0) 28 4 0) 12 2 num_eq) 32 4 lower_eqcb) 44 4 eqheap) 48 4 (NUM_EQ_ENTRIES * 4)) 36 4 0) 40 4 0) 52 4 0 i s17.1 (by omega) (by omega)
  rw [take_all_getD _ i (by unfold hw_init_cmd; exact s18.1)]
  unfold hw_init_cmd
  dsimp only
  rw [s18.2, s17.2, s16.2, s15.2, s14.2, s13.2, s12.2, s11.2, s10.2, s9.2, s8.2, s7.2, s6.2, s5.2, s4.2, s3.2, s2.2, s1.2]

/-- The InitEventQueue record keeps what the stack held in the byte of `pad`
(1) and behind the 12 bytes of `struct command_init_eqcb`. -/
theorem hw_eqcb_cmd_unassigned (stack : List Nat) (base i : Nat)
    (hl : stack.length = 64) (hi : i = 1 ∨ 12 ≤ i) :
    ((hw_eqcb_cmd stack base).take 64).getD i 0 = stack.getD i 0 := by
  have s1 := put_le_keep (stack) 0 1 COMMAND_INIT_EQCB i hl (by omega) (by omega)
  have s2 := put_le_keep (put_le (stack) 0 1 COMMAND_INIT_EQCB) 2 2 0 i s1.1 (by omega) (by omega)
  have s3 := put_le_keep (put_le (put_le (stack) 0 1 COMMAND_INIT_EQCB) 2 2 0) 4 4 base i s2.1 (by omega) (by omega)
  have s4 := put_le_keep (put_le (put_le (put_le (stack) 0 1 COMMAND_INIT_EQCB) 2 2 0) 4 4 base) 8 4 NUM_EQ_ENTRIES i s3.1 (by omega) (by omega)
  rw [take_all_getD _ i (by unfold hw_eqcb_cmd; exact s4.1)]
  unfold hw_eqcb_cmd
  dsimp only
  rw [s4.2, s3.2, s2.2, s1.2]

/-- The MarkAlive record keeps what the stack held behind the 2 bytes of
`struct command_mark_alive`. -/
theorem hw_alive_cmd_unassigned (stack : List Nat) (i : Nat)
    (hl : stack.length = 64) (hi : 2 ≤ i) :
    ((hw_alive_cmd stack).take 64).getD i 0 = stack.getD i 0 := by
  have s1 := put_le_keep (stack) 0 1 COMMAND_MARK_ALIVE i hl (by omega) (by omega)
  have s2 := put_le_keep (put_le (stack) 0 1 COMMAND_MARK_ALIVE) 1 1 1 i s1.1 (by omega) (by omega)
  rw [take_all_getD _ i (by unfold hw_alive_cmd; exact s2.1)]
  unfold hw_alive_cmd
  dsimp only
  rw [s2.2, s1.2]

theorem put_le_head (buf : List Nat) (n v : Nat) (hn : 0 < n) :
    (put_le buf 0 n v).getD 0 0 = v % 256 := by
  unfold put_le
  obtain ⟨k, rfl⟩ : ∃ k, n = k + 1 := ⟨n - 1, by omega⟩
  rfl



theorem hw_init_cmd_op (stack : List Nat)
    (lower_pending up_pending lower_eqcb eqheap num_eq : Nat) (hl : stack.length = 64) :
    ((hw_init_cmd stack lower_pending up_pending lower_eqcb eqheap num_eq).take 64).getD 0 0
      = COMMAND_INIT := by
  have s1 : (put_le stack 0 1 COMMAND_INIT).length = 64 := by
    rw [put_le_length stack 0 1 COMMAND_INIT (by omega), hl]
  have s2 := put_le_keep (put_le stack 0 1 COMMAND_INIT) 1 1 1 0 s1 (by omega) (by omega)
  have s3 := put_le_keep (put_le (put_le stack 0 1 COMMAND_INIT) 1 1 1) 56 4 0 0 s2.1 (by omega) (by omega)
  have s4 := put_le_keep (put_le (put_le (put_le stack 0 1 COMMAND_INIT) 1 1 1) 56 4 0) 6 2 0 0 s3.1 (by omega) (by omega)
  have s5 := put_le_keep (put_le (put_le (put_le (put_le stack 0 1 COMMAND_INIT) 1 1 1) 56 4 0) 6 2 0) 8 2 NUM_PENDINGS 0 s4.1 (by omega) (by omega)
  have s6 := put_le_keep (put_le (put_le (put_le (put_le (put_le stack 0 1 COMMAND_INIT) 1 1 1) 56 4 0) 6 2 0) 8 2 NUM_PENDINGS) 14 2 NUM_TX_PENDINGS 0 s5.1 (by omega) (by omega)
  have s7 := put_le_keep (put_le (put_le (put_le (put_le (put_le (put_le stack 0 1 COMMAND_INIT) 1 1 1) 56 4 0) 6 2 0) 8 2 NUM_PENDINGS) 14 2 NUM_TX_PENDINGS) 16 4 lower_pending 0 s6.1 (by omega) (by omega)
  have s8 := put_le_keep (put_le (put_le (put_le (put_le (put_le (put_le (put_le stack 0 1 COMMAND_INIT) 1 1 1) 56 4 0) 6 2 0) 8 2 NUM_PENDINGS) 14 2 NUM_TX_PENDINGS) 16 4 lower_pending) 20 4 up_pending 0 s7.1 (by omega) (by omega)
  have s9 := put_le_keep (put_le (put_le (put_le (put_le (put_le (put_le (put_le (put_le stack 0 1 COMMAND_INIT) 1 1 1) 56 4 0) 6 2 0) 8 2 NUM_PENDINGS) 14 2 NUM_TX_PENDINGS) 16 4 lower_pending) 20 4 up_pending) 24 4 0 0 s8.1 (by omega) (by omega)
  have s10 := put_le_keep (put_le (put_le (put_le (put_le (put_le (put_le (put_le (put_le (put_le stack 0 1 COMMAND_INIT) 1 1 1) 56 4 0) 6 2 0) 8 2 NUM_PENDINGS) 14 2 NUM_TX_PENDINGS) 16 4 lower_pending) 20 4 up_pending) 24 4 0) 10 2 0 0 s9.1 (by omega) (by omega)
  have s11 := put_le_keep (put_le (put_le (put_le (put_le (put_le (put_le (put_le (put_le (put_le (put_le stack 0 1 COMMAND_INIT) 1 1 1) 56 4 0) 6 2 0) 8 2 NUM_PENDINGS) 14 2 NUM_TX_PENDINGS) 16 4 lower_pending) 20 4 up_pending) 24 4 0) 10 2 0) 28 4 0 0 s10.1 (by omega) (by omega)
  have s12 := put_le_keep (put_le (put_le (put_le (put_le (put_le (put_le (put_le (put_le (put_le (put_le (put_le stack 0 1 COMMAND_INIT) 1 1 1) 56 4 0) 6 2 0) 8 2 NUM_PENDINGS) 14 2 NUM_TX_PENDINGS) 16 4 lower_pending) 20 4 up_pending) 24 4 0) 10 2 0) 28 4 0) 12 2 num_eq 0 s11.1 (by omega) (by omega)
  have s13 := put_le_keep (put_le (put_le (put_le (put_le (put_le (put_le (put_le (put_le (put_le (put_le (put_le (put_le stack 0 1 COMMAND_INIT) 1 1 1) 56 4 0) 6 2 0) 8 2 NUM_PENDINGS) 14 2 NUM_TX_PENDINGS) 16 4 lower_pending) 20 4 up_pending) 24 4 0) 10 2 0) 28 4 0) 12 2 num_eq) 32 4 lower_eqcb 0 s12.1 (by omega) (by omega)
  have s14 := put_le_keep (put_le (put_le (put_le (put_le (put_le (put_le (put_le (put_le (put_le (put_le (put_le (put_le (put_le stack 0 1 COMMAND_INIT) 1 1 1) 56 4 0) 6 2 0) 8 2 NUM_PENDINGS) 14 2 NUM_TX_PENDINGS) 16 4 lower_pending) 20 4 up_pending) 24 4 0) 10 2 0) 28 4 0) 12 2 num_eq) 32 4 lower_eqcb) 44 4 eqheap 0 s13.1 (by omega) (by omega)
  have s15 := put_le_keep (put_le (put_le (put_le (put_le (put_le (put_le (put_le (put_le (put_le (put_le (put_le (put_le (put_le (put_le stack 0 1 COMMAND_INIT) 1 1 1) 56 4 0) 6 2 0) 8 2 NUM_PENDINGS) 14 2 NUM_TX_PENDINGS) 16 4 lower_pending) 20 4 up_pending) 24 4 0) 10 2 0) 28 4 0) 12 2 num_eq) 32 4 lower_eqcb) 44 4 eqheap) 48 4 (NUM_EQ_ENTRIES * 4) 0 s14.1 (by omega) (by omega)
  have s16 := put_le_keep (put_le (put_le (put_le (put_le (put_le (put_le (put_le (put_le (put_le (put_le (put_le (put_le (put_le (put_le (put_le stack 0 1 COMMAND_INIT) 1 1 1) 56 4 0) 6 2 0) 8 2 NUM_PENDINGS) 14 2 NUM_TX_PENDINGS) 16 4 lower_pending) 20 4 up_pending) 24 4 0) 10 2 0) 28 4 0) 12 2 num_eq) 32 4 lower_eqcb) 44 4 eqheap) 48 4 (NUM_EQ_ENTRIES * 4)) 36 4 0 0 s15.1 (by omega) (by omega)
  have s17 := put_le_keep (put_le (put_le (put_le (put_le (put_le (put_le (put_le (put_le (put_le (put_le (put_le (put_le (put_le (put_le (put_le (put_le stack 0 1 COMMAND_INIT) 1 1 1) 56 4 0) 6 2 0) 8 2 NUM_PENDINGS) 14 2 NUM_TX_PENDINGS) 16 4 lower_pending) 20 4 up_pending) 24 4 0) 10 2 0) 28 4 0) 12 2 num_eq) 32 4 lower_eqcb) 44 4 eqheap) 48 4 (NUM_EQ_ENTRIES * 4)) 36 4 0) 40 4 0 0 s16.1 (by omega) (by omega)
  have s18 := put_le_keep (put_le (put_le (put_le (put_le (put_le (put_le (put_le (put_le (put_le (put_le (put_le (put_le (put_le (put_le (put_le (put_le (put_le stack 0 1 COMMAND_INIT) 1 1 1) 56 4 0) 6 2 0) 8 2 NUM_PENDINGS) 14 2 NUM_TX_PENDINGS) 16 4 lower_pending) 20 4 up_pending) 24 4 0) 10 2 0) 28 4 0) 12 2 num_eq) 32 4 lower_eqcb) 44 4 eqheap) 48 4 (NUM_EQ_ENTRIES * 4)) 36 4 0) 40 4 0) 52 4 0 0 s17.1 (by omega) (by omega)
  rw [take_all_getD _ 0 (by unfold hw_init_cmd; exact s18.1)]
  unfold hw_init_cmd
  dsimp only
  rw [s18.2, s17.2, s16.2, s15.2, s14.2, s13.2, s12.2, s11.2, s10.2, s9.2, s8.2, s7.2, s6.2, s5.2, s4.2, s3.2, s2.2, put_le_head stack 1 COMMAND_INIT (by omega)]
  rfl

theorem hw_eqcb_cmd_op (stack : List Nat) (base : Nat) (hl : stack.length = 64) :
    ((hw_eqcb_cmd stack base).take 64).getD 0 0 = COMMAND_INIT_EQCB := by
  have s1 : (put_le stack 0 1 COMMAND_INIT_EQCB).length = 64 := by
    rw [put_le_length stack 0 1 COMMAND_INIT_EQCB (by omega), hl]
  have s2 := put_le_keep (put_le stack 0 1 COMMAND_INIT_EQCB) 2 2 0 0 s1 (by omega) (by omega)
  have s3 := put_le_keep (put_le (put_le stack 0 1 COMMAND_INIT_EQCB) 2 2 0) 4 4 base 0 s2.1 (by omega) (by omega)
  have s4 := put_le_keep (put_le (put_le (put_le stack 0 1 COMMAND_INIT_EQCB) 2 2 0) 4 4 base) 8 4 NUM_EQ_ENTRIES 0 s3.1 (by omega) (by omega)
  rw [take_all_getD _ 0 (by unfold hw_eqcb_cmd; exact s4.1)]
  unfold hw_eqcb_cmd
  dsimp only
  rw [s4.2, s3.2, s2.2, put_le_head stack 1 COMMAND_INIT_EQCB (by omega)]
  rfl

theorem hw_alive_cmd_op (stack : List Nat) (hl : stack.length = 64) :
    ((hw_alive_cmd stack).take 64).getD 0 0 = COMMAND_MARK_ALIVE := by
  have s1 : (put_le stack 0 1 COMMAND_MARK_ALIVE).length = 64 := by
    rw [put_le_length stack 0 1 COMMAND_MARK_ALIVE (by omega), hl]
  have s2 := put_le_keep (put_le stack 0 1 COMMAND_MARK_ALIVE) 1 1 1 0 s1 (by omega) (by omega)
  rw [take_all_getD _ 0 (by unfold hw_alive_cmd; exact s2.1)]
  unfold hw_alive_cmd
  dsimp only
  rw [s2.2, put_le_head stack 1 COMMAND_MARK_ALIVE (by omega)]
  rfl

/-- C18, what the code does: when the command gets through, the record that
`seastar_ip_tx_cmd` leaves in the ring slot is 64 bytes long, has opcode 13
in byte 0, `nid` at bytes 2-3, `length` at bytes 4-5, `address` at bytes
8-15, `pending_index` at bytes 16-17 and zero in bytes 1, 6 and 7; its bytes
18 to 63 are the 46 bytes that lie behind the 18-byte `tx_cmd` in the stack
frame, whatever they are, because `seastar_cmd` copies a whole 64-byte
`struct command` from the address of `tx_cmd`.  They are zero only if that
stack memory happens to be. -/
theorem ip_tx_record_copies_stack (env : fw_env) (stack_tail : List Nat) (ssp : ss_priv)
    (nid length address pending_index c r : Nat) (rest : List Nat)
    (hw : wait_cmd_slot (next_write_of ssp.mailbox_cached_write) env.fw_reads
      ssp.mailbox.commandq_read ssp.mailbox_cached_read = some (c, r, rest))
    (hcw : ssp.mailbox_cached_write < ssp.mailbox.commandq.length)
    (hst : 46 ≤ stack_tail.length) :
    ∃ ssp1 env1 record,
      seastar_ip_tx_cmd env stack_tail ssp nid length address pending_index = some (ssp1, env1)
      ∧ record = ssp1.mailbox.commandq.getD ssp.mailbox_cached_write []
      ∧ record.length = 64
      ∧ record.getD 0 0 = COMMAND_IP_TX
      ∧ record.getD 1 0 = 0
      ∧ cmd_u16 record 2 = u16 nid
      ∧ cmd_u16 record 4 = u16 length
      ∧ record.getD 6 0 = 0 ∧ record.getD 7 0 = 0
      ∧ (record.drop 8).take 8 = le_bytes (u64 address) 8
      ∧ cmd_u16 record 16 = u16 pending_index
      ∧ ∀ i, i < 46 → record.getD (i + 18) 0 = stack_tail.getD i 0 := by
  have hrec := command_ip_tx_record COMMAND_IP_TX nid length address pending_index stack_tail
  obtain ⟨r0, r1, r2, r4, r6, r16⟩ := hrec
  refine ⟨cmd_posted ssp
      ((command_ip_tx_bytes COMMAND_IP_TX nid length address pending_index ++ stack_tail).take 64)
      c r, { env with fw_reads := rest },
    (command_ip_tx_bytes COMMAND_IP_TX nid length address pending_index ++ stack_tail).take 64,
    ?_, ?_, ?_, r0, r1, r2, r4, rfl, rfl, rfl, r16, ?_⟩
  · unfold seastar_ip_tx_cmd
    dsimp only
    rw [seastar_cmd_nowait env ssp _ c r rest hw]
  · exact ((cmdq_getD_set ssp.mailbox.commandq ssp.mailbox_cached_write
      ssp.mailbox_cached_write _).2 hcw).symm
  · rw [List.length_take, List.length_append]
    have : (command_ip_tx_bytes COMMAND_IP_TX nid length address pending_index).length = 18 := rfl
    omega
  · intro i hi
    show (List.take 46 stack_tail).getD i 0 = stack_tail.getD i 0
    rw [List.getD_eq_getElem?_getD, List.getD_eq_getElem?_getD, List.getElem?_take_of_lt hi]

set_option maxRecDepth 100000 in
theorem ip_tx_record_copies_stack_witness :
    ∃ ssp1 env1 record,
      seastar_ip_tx_cmd tx_env_ok.fw (List.replicate 46 0xFF) netdev_ok.priv 10 2 0x1002 63
        = some (ssp1, env1)
      ∧ record = ssp1.mailbox.commandq.getD 0 []
      ∧ record.length = 64
      ∧ record.getD 0 0 = 13
      ∧ record.getD 18 0 = 0xFF
      ∧ record.getD 63 0 = 0xFF := by
  obtain ⟨ssp1, env1, record, h1, h2, h3, h4, _, _, _, _, _, _, _, h⟩ :=
    ip_tx_record_copies_stack tx_env_ok.fw (List.replicate 46 0xFF) netdev_ok.priv
      10 2 0x1002 63 0 0 [] (by decide) (by decide) (by decide)
  exact ⟨ssp1, env1, record, h1, h2, h3, h4, h 0 (by decide), h 45 (by decide)⟩

/-- The three records of a bring-up on a stack that holds 0xEE: the Init
record carries 0xEE in `pad` and `pid` (bytes 2 to 5) and in bytes 60 to 63,
the InitEventQueue record in `pad` (byte 1) and from byte 12 on, the
MarkAlive record from byte 2 on. -/
theorem hw_init_records_example :
    (seastar_hw_init hw_env_ok hw_ok netdev_ok.priv).map
      (fun out =>
        (((out.2.1.mailbox.commandq.getD 0 []).take 6,
          (out.2.1.mailbox.commandq.getD 0 []).drop 60),
         ((out.2.1.mailbox.commandq.getD 1 []).take 4,
          (out.2.1.mailbox.commandq.getD 1 []).drop 60),
         ((out.2.1.mailbox.commandq.getD 2 []).take 4,
          (out.2.1.mailbox.commandq.getD 2 []).drop 60)))
      = some (([0, 1, 0xEE, 0xEE, 0xEE, 0xEE], [0xEE, 0xEE, 0xEE, 0xEE]),
              ([2, 0xEE, 0, 0], [0xEE, 0xEE, 0xEE, 0xEE]),
              ([1, 1, 0xEE, 0xEE], [0xEE, 0xEE, 0xEE, 0xEE])) := by
  decide

/-! ## Bring-up (`seastar_hw_init`) -/

theorem wait_cmd_slot_free (nw : Nat) (reads : List Nat) (cur cached : Nat)
    (h : nw ≠ cached) : wait_cmd_slot nw reads cur cached = some (cached, cur, reads) := by
  cases reads with
  | nil => rw [wait_cmd_slot, if_pos h]
  | cons a l => rw [wait_cmd_slot, if_pos h]

theorem next_write_of_eq (w : Nat) (h : w < COMMAND_Q_LENGTH) :
    next_write_of w = (w + 1) % 63 := by
  unfold next_write_of u32
  unfold COMMAND_Q_LENGTH at *
  by_cases e : (w + 1) % 2 ^ 32 = 63
  · rw [if_pos e]; omega
  · rw [if_neg e]; omega

theorem seastar_cmd_wait (env : fw_env) (ssp : ss_priv) (cmd : List Nat) (v : Nat)
    (h : next_write_of ssp.mailbox_cached_write ≠ ssp.mailbox_cached_read)
    (hr : ssp.mailbox.resultq_read = ssp.mailbox.resultq_write)
    (hv : env.fw_result = some v) :
    seastar_cmd env ssp cmd true
      = some (u32 v, cmd_answered ssp cmd v,
          { fw_reads := env.fw_reads, fw_result := none }) := by
  unfold seastar_cmd
  dsimp only
  unfold next_write_of at h
  rw [wait_cmd_slot_free _ _ _ _ h]
  dsimp only
  rw [if_neg (by decide), if_neg (by rw [hr]; exact fun h => h rfl), hv]
  rfl

theorem cmd_answered_results (ssp : ss_priv) (cmd : List Nat) (v : Nat)
    (hrr : ssp.mailbox.resultq_read < RESULT_Q_LENGTH) :
    (cmd_answered ssp cmd v).mailbox.resultq_read
        = (ssp.mailbox.resultq_read + 1) % 2
    ∧ (cmd_answered ssp cmd v).mailbox.resultq_read
        = (cmd_answered ssp cmd v).mailbox.resultq_write
    ∧ (cmd_answered ssp cmd v).mailbox.resultq_read < RESULT_Q_LENGTH := by
  have e : (cmd_answered ssp cmd v).mailbox.resultq_read
      = if ssp.mailbox.resultq_read ≥ RESULT_Q_LENGTH - 1 then 0
        else ssp.mailbox.resultq_read + 1 := rfl
  have e2 : (cmd_answered ssp cmd v).mailbox.resultq_write
      = (ssp.mailbox.resultq_read + 1) % RESULT_Q_LENGTH := rfl
  rw [e, e2]
  unfold RESULT_Q_LENGTH at *
  by_cases c : ssp.mailbox.resultq_read ≥ 2 - 1
  · rw [if_pos c]; omega
  · rw [if_neg c]; omega

theorem cmd_answered_step (S : ss_priv) (cmd : List Nat) (v : Nat)
    (hcw : S.mailbox_cached_write < COMMAND_Q_LENGTH)
    (hlen : S.mailbox.commandq.length = COMMAND_Q_LENGTH)
    (hrr : S.mailbox.resultq_read < RESULT_Q_LENGTH) :
    (cmd_answered S cmd v).mailbox_cached_write = (S.mailbox_cached_write + 1) % 63
    ∧ (cmd_answered S cmd v).mailbox.commandq_write = (S.mailbox_cached_write + 1) % 63
    ∧ (cmd_answered S cmd v).mailbox_cached_read = S.mailbox_cached_read
    ∧ (cmd_answered S cmd v).mailbox.commandq.length = COMMAND_Q_LENGTH
    ∧ (cmd_answered S cmd v).mailbox.commandq.getD S.mailbox_cached_write [] = cmd
    ∧ (∀ j, j ≠ S.mailbox_cached_write →
        (cmd_answered S cmd v).mailbox.commandq.getD j [] = S.mailbox.commandq.getD j [])
    ∧ (cmd_answered S cmd v).mailbox.resultq_read = (S.mailbox.resultq_read + 1) % 2
    ∧ (cmd_answered S cmd v).mailbox.resultq_read
        = (cmd_answered S cmd v).mailbox.resultq_write
    ∧ (cmd_answered S cmd v).mailbox.resultq_read < RESULT_Q_LENGTH := by
  obtain ⟨r1, r2, r3⟩ := cmd_answered_results S cmd v hrr
  have q := cmdq_getD_set S.mailbox.commandq S.mailbox_cached_write
  refine ⟨?_, ?_, rfl, ?_, ?_, ?_, r1, r2, r3⟩
  · exact next_write_of_eq _ hcw
  · exact next_write_of_eq _ hcw
  · show (S.mailbox.commandq.set S.mailbox_cached_write cmd).length = COMMAND_Q_LENGTH
    rw [List.length_set, hlen]
  · exact (q S.mailbox_cached_write cmd).2 (by rw [hlen]; exact hcw)
  · intro j hj
    exact (q j cmd).1 hj

theorem ring_three_slots (w r : Nat) (h2 : (w + 2) % 63 ≠ r)
    (h3 : (w + 3) % 63 ≠ r) :
    ((w + 1) % 63 + 1) % 63 ≠ r
    ∧ (((w + 1) % 63 + 1) % 63 + 1) % 63 ≠ r
    ∧ w ≠ (w + 1) % 63
    ∧ w ≠ ((w + 1) % 63 + 1) % 63
    ∧ (w + 1) % 63 ≠ ((w + 1) % 63 + 1) % 63
    ∧ (w + 2) % 63 = ((w + 1) % 63 + 1) % 63
    ∧ (((w + 1) % 63 + 1) % 63 + 1) % 63 = (w + 3) % 63 := by
  omega

theorem result_three_slots (rr : Nat) :
    ((rr + 1) % 2 + 1) % 2 = (rr + 2) % 2
    ∧ (((rr + 1) % 2 + 1) % 2 + 1) % 2 = (rr + 3) % 2 := by
  omega

/-- C12: with room for three commands in the command ring, an empty result
ring and a firmware that answers the three commands with `v1`, `v2`, `v3`,
`seastar_hw_init` returns, and it returns 0 exactly when the results are 0, 1
and 0, and -1 otherwise.  It submits `n` commands, where `n` is 1 if the
first result is not 0, 2 if the first is 0 and the second is not 1, and 3
otherwise: the write cursor ends `n` slots on, the `n` slots from the old
write cursor hold, in this order, opcode 0 (Init), opcode 2 (InitEventQueue)
and opcode 1 (MarkAlive), no other slot of the ring is written, and one result
has been taken from the result ring for each submitted command. -/
theorem hw_init_sequence (env : hw_env) (hw : hw_regs) (ssp : ss_priv) (v1 v2 v3 : Nat)
    (hq : ssp.mailbox.commandq.length = COMMAND_Q_LENGTH)
    (hwr : ssp.mailbox.commandq_write < COMMAND_Q_LENGTH)
    (hroom : ∀ k, 1 ≤ k → k ≤ 3 →
      (ssp.mailbox.commandq_write + k) % COMMAND_Q_LENGTH ≠ ssp.mailbox.commandq_read)
    (hres : ssp.mailbox.resultq_read = ssp.mailbox.resultq_write)
    (hrr : ssp.mailbox.resultq_read < RESULT_Q_LENGTH)
    (hs1 : env.stack_init.length = 64) (hs2 : env.stack_eqcb.length = 64)
    (hs3 : env.stack_alive.length = 64)
    (h1 : env.res_init = some v1) (h2 : env.res_eqcb = some v2)
    (h3 : env.res_alive = some v3) :
    ∃ ret ssp1 hw1 n,
      seastar_hw_init env hw ssp = some (ret, ssp1, hw1)
      ∧ (ret = 0 ↔ (u32 v1 = 0 ∧ u32 v2 = 1 ∧ u32 v3 = 0))
      ∧ (ret = 0 ∨ ret = -1)
      ∧ n = (if u32 v1 ≠ 0 then 1 else if u32 v2 ≠ 1 then 2 else 3)
      ∧ ssp1.mailbox.commandq_write = (ssp.mailbox.commandq_write + n) % COMMAND_Q_LENGTH
      ∧ (∀ k, k < n →
          (ssp1.mailbox.commandq.getD
              ((ssp.mailbox.commandq_write + k) % COMMAND_Q_LENGTH) []).getD 0 0
            = [COMMAND_INIT, COMMAND_INIT_EQCB, COMMAND_MARK_ALIVE].getD k 0)
      ∧ (∀ j, (∀ k, k < n → j ≠ (ssp.mailbox.commandq_write + k) % COMMAND_Q_LENGTH) →
          ssp1.mailbox.commandq.getD j [] = ssp.mailbox.commandq.getD j [])
      ∧ ssp1.mailbox.resultq_read = (ssp.mailbox.resultq_read + n) % RESULT_Q_LENGTH := by
  unfold seastar_hw_init
  dsimp only
  generalize hS : ({ (seastar_map_host_region ssp
      { hw with niccb_local_nid := u16 hw.tx_source } env.pa_ssp).1 with
      mailbox_cached_read := (seastar_map_host_region ssp
        { hw with niccb_local_nid := u16 hw.tx_source } env.pa_ssp).1.mailbox.commandq_read
      mailbox_cached_write := (seastar_map_host_region ssp
        { hw with niccb_local_nid := u16 hw.tx_source } env.pa_ssp).1.mailbox.commandq_write }
        : ss_priv) = S1
  have f1 : S1.mailbox = ssp.mailbox := by rw [← hS]; rfl
  have f2 : S1.mailbox_cached_read = ssp.mailbox.commandq_read := by rw [← hS]; rfl
  have f3 : S1.mailbox_cached_write = ssp.mailbox.commandq_write := by rw [← hS]; rfl
  clear hS
  generalize hc1 : List.take 64 (hw_init_cmd env.stack_init _ _ _ _ _) = c1
  have o1 : c1.getD 0 0 = COMMAND_INIT := by
    rw [← hc1]; exact hw_init_cmd_op _ _ _ _ _ _ hs1
  clear hc1
  generalize (seastar_map_host_region ssp
      { hw with niccb_local_nid := u16 hw.tx_source } env.pa_ssp).2 = hw2
  have hw63 : ssp.mailbox.commandq_write < 63 := hwr
  have hrr2 : ssp.mailbox.resultq_read < 2 := hrr
  have hroom1 : ∀ k, 1 ≤ k → k ≤ 3 →
      (ssp.mailbox.commandq_write + k) % 63 ≠ ssp.mailbox.commandq_read := hroom
  have hr1 := hroom1 1 (by omega) (by omega)
  have hr2 := hroom1 2 (by omega) (by omega)
  have hr3 := hroom1 3 (by omega) (by omega)
  obtain ⟨ar1, ar2, ne01, ne02, ne12, e12, e23⟩ :=
    ring_three_slots ssp.mailbox.commandq_write ssp.mailbox.commandq_read hr2 hr3
  obtain ⟨rs2, rs3⟩ := result_three_slots ssp.mailbox.resultq_read
  clear hroom hroom1 hr2 hr3
  unfold COMMAND_Q_LENGTH RESULT_Q_LENGTH
  -- the Init command
  have t1 := cmd_answered_step S1 c1 v1 (by rw [f3]; exact hwr) (by rw [f1]; exact hq)
    (by rw [f1]; exact hrr)
  rw [f3, f2, f1] at t1
  obtain ⟨a1, b1, cr1, d1, g1, k1, m1, p1, q1⟩ := t1
  have A1 := seastar_cmd_wait ({ fw_reads := env.fw_reads, fw_result := env.res_init } : fw_env)
    S1 c1 v1 (by rw [f3, f2, next_write_of_eq _ hwr]; exact hr1) (by rw [f1]; exact hres) h1
  rw [A1]
  dsimp only
  clear A1
  generalize cmd_answered S1 c1 v1 = S2 at *
  by_cases e1 : u32 v1 = 0
  swap
  · rw [if_pos e1]
    refine ⟨-1, S2, hw2, 1, rfl, ?_, Or.inr rfl, ?_, b1, ?_, ?_, m1⟩
    · constructor
      · intro h; exact absurd h (by decide)
      · intro h; exact absurd h.1 e1
    · rw [if_pos e1]
    · intro k hk
      obtain rfl : k = 0 := by omega
      rw [Nat.add_zero, Nat.mod_eq_of_lt hw63, g1]
      exact o1
    · intro j hj
      have := hj 0 (by omega)
      rw [Nat.add_zero, Nat.mod_eq_of_lt hw63] at this
      exact k1 j this
  rw [if_neg (not_not.mpr e1)]
  -- the InitEventQueue command
  generalize hc2 : List.take 64 (hw_eqcb_cmd env.stack_eqcb _) = c2
  have o2 : c2.getD 0 0 = COMMAND_INIT_EQCB := by
    rw [← hc2]; exact hw_eqcb_cmd_op _ _ hs2
  clear hc2
  have lt1 : (ssp.mailbox.commandq_write + 1) % 63 < COMMAND_Q_LENGTH :=
    Nat.mod_lt _ (by decide)
  have lt2 : ((ssp.mailbox.commandq_write + 1) % 63 + 1) % 63 < COMMAND_Q_LENGTH :=
    Nat.mod_lt _ (by decide)
  have t2 := cmd_answered_step S2 c2 v2 (by rw [a1]; exact lt1) d1 q1
  rw [a1, cr1] at t2
  obtain ⟨a2, b2, cr2, d2, g2, k2, m2, p2, q2⟩ := t2
  have A2 := seastar_cmd_wait ({ fw_reads := env.fw_reads, fw_result := env.res_eqcb } : fw_env)
    S2 c2 v2
    (by rw [a1, cr1, next_write_of_eq _ lt1]; exact ar1) p1 h2
  rw [A2]
  dsimp only
  clear A2
  generalize cmd_answered S2 c2 v2 = S3 at *
  by_cases e2 : u32 v2 = 1
  swap
  · rw [if_pos e2]
    refine ⟨-1, S3, hw2, 2, rfl, ?_, Or.inr rfl, ?_, ?_, ?_, ?_, ?_⟩
    · constructor
      · intro h; exact absurd h (by decide)
      · intro h; exact absurd h.2.1 e2
    · rw [if_neg (not_not.mpr e1), if_pos e2]
    · rw [b2, e12]
    · intro k hk
      have hk2 : k = 0 ∨ k = 1 := by omega
      rcases hk2 with rfl | rfl
      · rw [Nat.add_zero, Nat.mod_eq_of_lt hw63, k2 _ ne01, g1]
        exact o1
      · rw [g2]
        exact o2
    · intro j hj
      have j0 := hj 0 (by omega)
      have j1 := hj 1 (by omega)
      rw [Nat.add_zero, Nat.mod_eq_of_lt hw63] at j0
      rw [k2 j j1, k1 j j0]
    · rw [m2, m1, rs2]
  rw [if_neg (not_not.mpr e2)]
  -- the MarkAlive command
  generalize hc3 : List.take 64 (hw_alive_cmd env.stack_alive) = c3
  have o3 : c3.getD 0 0 = COMMAND_MARK_ALIVE := by
    rw [← hc3]; exact hw_alive_cmd_op _ hs3
  clear hc3
  have t3 := cmd_answered_step S3 c3 v3 (by rw [a2]; exact lt2) d2 q2
  rw [a2, cr2] at t3
  obtain ⟨a3, b3, cr3, d3, g3, k3, m3, p3, q3⟩ := t3
  have A3 := seastar_cmd_wait ({ fw_reads := env.fw_reads, fw_result := env.res_alive } : fw_env)
    S3 c3 v3
    (by rw [a2, cr2, next_write_of_eq _ lt2]; exact ar2) p2 h3
  rw [A3]
  dsimp only
  clear A3
  generalize cmd_answered S3 c3 v3 = S4 at *
  have props : S4.mailbox.commandq_write = (ssp.mailbox.commandq_write + 3) % 63
      ∧ (∀ k, k < 3 →
          (S4.mailbox.commandq.getD ((ssp.mailbox.commandq_write + k) % 63) []).getD 0 0
            = [COMMAND_INIT, COMMAND_INIT_EQCB, COMMAND_MARK_ALIVE].getD k 0)
      ∧ (∀ j, (∀ k, k < 3 → j ≠ (ssp.mailbox.commandq_write + k) % 63) →
          S4.mailbox.commandq.getD j [] = ssp.mailbox.commandq.getD j [])
      ∧ S4.mailbox.resultq_read = (ssp.mailbox.resultq_read + 3) % 2 := by
    refine ⟨?_, ?_, ?_, ?_⟩
    · rw [b3, e23]
    · intro k hk
      have hk3 : k = 0 ∨ k = 1 ∨ k = 2 := by omega
      rcases hk3 with rfl | rfl | rfl
      · rw [Nat.add_zero, Nat.mod_eq_of_lt hw63, k3 _ ne02, k2 _ ne01, g1]
        exact o1
      · rw [k3 _ ne12, g2]
        exact o2
      · rw [e12, g3]
        exact o3
    · intro j hj
      have j0 := hj 0 (by omega)
      have j1 := hj 1 (by omega)
      have j2 := hj 2 (by omega)
      rw [Nat.add_zero, Nat.mod_eq_of_lt hw63] at j0
      rw [e12] at j2
      rw [k3 j j2, k2 j j1, k1 j j0]
    · rw [m3, m2, m1, rs3]
  have hn : (3 : Nat) = if u32 v1 ≠ 0 then 1 else if u32 v2 ≠ 1 then 2 else 3 := by
    rw [if_neg (not_not.mpr e1), if_neg (not_not.mpr e2)]
  by_cases e3 : u32 v3 = 0
  · rw [if_neg (not_not.mpr e3)]
    exact ⟨0, S4, hw2, 3, rfl, ⟨fun _ => ⟨e1, e2, e3⟩, fun _ => rfl⟩, Or.inl rfl, hn, props⟩
  · rw [if_pos e3]
    exact ⟨-1, S4, hw2, 3, rfl,
      ⟨fun h => absurd h (by decide), fun h => absurd h.2.2 e3⟩, Or.inr rfl, hn, props⟩

set_option maxRecDepth 100000 in
theorem hw_init_sequence_witness :
    ∃ ssp1 hw1, seastar_hw_init hw_env_ok hw_ok netdev_ok.priv = some (0, ssp1, hw1)
      ∧ ssp1.mailbox.commandq_write = 3
      ∧ (ssp1.mailbox.commandq.getD 0 []).getD 0 0 = COMMAND_INIT
      ∧ (ssp1.mailbox.commandq.getD 1 []).getD 0 0 = COMMAND_INIT_EQCB
      ∧ (ssp1.mailbox.commandq.getD 2 []).getD 0 0 = COMMAND_MARK_ALIVE := by
  obtain ⟨ret, ssp1, hw1, n, h, hiff, _, hn, hwq, hop, _, _⟩ :=
    hw_init_sequence hw_env_ok hw_ok netdev_ok.priv 0 1 0 (by decide) (by decide)
      (fun k h1 h2 => by
        show (0 + k) % 63 ≠ 0
        omega)
      (by decide) (by decide) (by decide) (by decide) (by decide) rfl rfl rfl
  have hret : ret = 0 := hiff.mpr ⟨by decide, by decide, by decide⟩
  have hn3 : n = 3 := hn.trans (by decide)
  subst hret
  subst hn3
  exact ⟨ssp1, hw1, h, hwq, hop 0 (by decide), hop 1 (by decide), hop 2 (by decide)⟩

/-! ## Command ring protocol -/

theorem ring_range_length (r n : Nat) : (ring_range r n).length = n := by
  induction n generalizing r with
  | zero => rfl
  | succ k ih => rw [ring_range, List.length_cons, ih]

theorem mem_ring_range (r n x : Nat) (hr : r < 63) (h : x ∈ ring_range r n) :
    ∃ i, i < n ∧ x = (r + i) % 63 := by
  induction n generalizing r with
  | zero => rw [ring_range] at h; exact absurd h (List.not_mem_nil _)
  | succ k ih =>
    rw [ring_range, List.mem_cons] at h
    rcases h with h | h
    · exact ⟨0, by omega, by omega⟩
    · obtain ⟨i, hi, e⟩ := ih ((r + 1) % 63) (Nat.mod_lt _ (by decide)) h
      exact ⟨i + 1, by omega, by omega⟩

theorem ring_range_drop (r n k : Nat) (hr : r < 63) (hk : k ≤ n) :
    (ring_range r n).drop k = ring_range ((r + k) % 63) (n - k) := by
  induction k generalizing r n with
  | zero => rw [List.drop_zero, Nat.add_zero, Nat.mod_eq_of_lt hr, Nat.sub_zero]
  | succ j ih =>
    obtain ⟨m, rfl⟩ : ∃ m, n = m + 1 := ⟨n - 1, by omega⟩
    rw [ring_range, List.drop_succ_cons,
      ih ((r + 1) % COMMAND_Q_LENGTH) m (Nat.mod_lt _ (by decide)) (by omega)]
    have e1 : m + 1 - (j + 1) = m - j := by omega
    have e2 : ((r + 1) % COMMAND_Q_LENGTH + j) % 63 = (r + (j + 1)) % 63 := by
      unfold COMMAND_Q_LENGTH; omega
    rw [e1, e2]

theorem ring_range_snoc (r n : Nat) (hr : r < 63) :
    ring_range r n ++ [(r + n) % 63] = ring_range r (n + 1) := by
  induction n generalizing r with
  | zero =>
    rw [ring_range, ring_range, ring_range, Nat.add_zero, Nat.mod_eq_of_lt hr]
    rfl
  | succ k ih =>
    rw [ring_range, List.cons_append]
    have e : (r + (k + 1)) % 63 = ((r + 1) % COMMAND_Q_LENGTH + k) % 63 := by
      unfold COMMAND_Q_LENGTH; omega
    rw [e, ih ((r + 1) % COMMAND_Q_LENGTH) (Nat.mod_lt _ (by decide))]
    rfl


theorem ring_dist_eq (a b : Nat) : ring_dist a b = (b + 63 - a) % 63 := rfl

theorem fw_move_ok_iff (r w r1 : Nat) :
    fw_move_ok r w r1 = true ↔ r1 < 63 ∧ (r1 + 63 - r) % 63 ≤ (w + 63 - r) % 63 := by
  unfold fw_move_ok
  rw [Bool.and_eq_true, decide_eq_true_eq, decide_eq_true_eq]
  rfl

theorem ring_compose (cur r r1 w : Nat) (hc : cur < 63) (hr : r < 63) (hr1 : r1 < 63)
    (hw : w < 63) (h1 : (r + 63 - cur) % 63 ≤ (w + 63 - cur) % 63)
    (h2 : (r1 + 63 - r) % 63 ≤ (w + 63 - r) % 63) :
    (r1 + 63 - cur) % 63 ≤ (w + 63 - cur) % 63
    ∧ (r + 63 - cur) % 63 + (r1 + 63 - r) % 63 = (r1 + 63 - cur) % 63 := by
  omega

theorem wait_cmd_slot_inv (w nw : Nat) (hw : w < 63) (reads : List Nat) :
    ∀ (cur cached c1 r1 : Nat) (rest : List Nat),
      cur < 63 → cached < 63 →
      (cur + 63 - cached) % 63 ≤ (w + 63 - cached) % 63 →
      polls_ok w nw reads cur cached = true →
      wait_cmd_slot nw reads cur cached = some (c1, r1, rest) →
      c1 < 63 ∧ r1 < 63 ∧ nw ≠ c1
        ∧ (r1 + 63 - c1) % 63 ≤ (w + 63 - c1) % 63
        ∧ (r1 + 63 - cur) % 63 ≤ (w + 63 - cur) % 63 := by
  induction reads with
  | nil =>
    intro cur cached c1 r1 rest hcur hcached hd _ hwait
    rw [wait_cmd_slot] at hwait
    by_cases h : nw ≠ cached
    · rw [if_pos h] at hwait
      injection hwait with e
      injection e with e1 e2
      injection e2 with e2 e3
      subst e1; subst e2
      exact ⟨hcached, hcur, h, hd, by omega⟩
    · rw [if_neg h] at hwait
      by_cases h2 : nw = cur
      · rw [if_pos h2] at hwait
        exact absurd hwait (by intro e; cases e)
      · rw [if_neg h2] at hwait
        injection hwait with e
        injection e with e1 e2
        injection e2 with e2 e3
        subst e1; subst e2
        exact ⟨hcur, hcur, h2, by omega, by omega⟩
  | cons r rs ih =>
    intro cur cached c1 r1 rest hcur hcached hd hp hwait
    rw [wait_cmd_slot] at hwait
    rw [polls_ok] at hp
    by_cases h : nw ≠ cached
    · rw [if_pos h] at hwait
      injection hwait with e
      injection e with e1 e2
      injection e2 with e2 e3
      subst e1; subst e2
      exact ⟨hcached, hcur, h, hd, by omega⟩
    · rw [if_neg h] at hwait
      rw [if_neg h, Bool.and_eq_true, fw_move_ok_iff] at hp
      obtain ⟨⟨hr, hmv⟩, hp2⟩ := hp
      obtain ⟨a1, a2, a3, a4, a5⟩ := ih r r c1 r1 rest hr hr (by omega) hp2 hwait
      exact ⟨a1, a2, a3, a4, (ring_compose cur r r1 w hcur hr a2 hw hmv a5).1⟩


theorem seastar_cmd_cursors (env : fw_env) (ssp : ss_priv) (cmd : List Nat) (wait : Bool)
    (ret : Nat) (ssp1 : ss_priv) (env1 : fw_env)
    (h : seastar_cmd env ssp cmd wait = some (ret, ssp1, env1)) :
    ∃ c1 r1 rest,
      wait_cmd_slot (next_write_of ssp.mailbox_cached_write) env.fw_reads
        ssp.mailbox.commandq_read ssp.mailbox_cached_read = some (c1, r1, rest)
      ∧ ssp1.mailbox.commandq_read = r1
      ∧ ssp1.mailbox.commandq_write = next_write_of ssp.mailbox_cached_write
      ∧ ssp1.mailbox_cached_read = c1
      ∧ ssp1.mailbox_cached_write = next_write_of ssp.mailbox_cached_write
      ∧ ssp1.mailbox.commandq = ssp.mailbox.commandq.set ssp.mailbox_cached_write cmd := by
  unfold seastar_cmd at h
  dsimp only at h
  unfold next_write_of
  cases hw : wait_cmd_slot (if u32 (ssp.mailbox_cached_write + 1) = COMMAND_Q_LENGTH then 0
      else u32 (ssp.mailbox_cached_write + 1)) env.fw_reads ssp.mailbox.commandq_read
      ssp.mailbox_cached_read with
  | none =>
    rw [hw] at h
    exact absurd h (by intro e; cases e)
  | some t =>
    obtain ⟨c1, r1, rest⟩ := t
    rw [hw] at h
    dsimp only at h
    refine ⟨c1, r1, rest, rfl, ?_⟩
    cases wait with
    | false =>
      rw [if_pos (by decide)] at h
      injection h with e
      injection e with e1 e2
      injection e2 with e2 e3
      subst e2
      exact ⟨rfl, rfl, rfl, rfl, rfl⟩
    | true =>
      rw [if_neg (by decide)] at h
      by_cases ht : ssp.mailbox.resultq_read ≠ ssp.mailbox.resultq_write
      · rw [if_pos ht] at h
        injection h with e
        injection e with e1 e2
        injection e2 with e2 e3
        subst e2
        exact ⟨rfl, rfl, rfl, rfl, rfl⟩
      · rw [if_neg ht] at h
        cases hv : env.fw_result with
        | none =>
          rw [hv] at h
          exact absurd h (by intro e; cases e)
        | some v =>
          rw [hv] at h
          dsimp only at h
          injection h with e
          injection e with e1 e2
          injection e2 with e2 e3
          subst e2
          exact ⟨rfl, rfl, rfl, rfl, rfl⟩


theorem ring_after_move (r r1 w : Nat) (hr : r < 63) (hr1 : r1 < 63) (hw : w < 63)
    (h : (r1 + 63 - r) % 63 ≤ (w + 63 - r) % 63) :
    (r + (r1 + 63 - r) % 63) % 63 = r1
    ∧ (w + 63 - r) % 63 - (r1 + 63 - r) % 63 = (w + 63 - r1) % 63 := by
  omega

theorem ring_after_write (c1 r1 w : Nat) (hc : c1 < 63) (hr : r1 < 63) (hw : w < 63)
    (hne : (w + 1) % 63 ≠ c1) (h : (r1 + 63 - c1) % 63 ≤ (w + 63 - c1) % 63) :
    (r1 + 63 - c1) % 63 ≤ ((w + 1) % 63 + 63 - c1) % 63
    ∧ (w + 1) % 63 ≠ r1
    ∧ ((w + 1) % 63 + 63 - r1) % 63 = (w + 63 - r1) % 63 + 1
    ∧ (r1 + (w + 63 - r1) % 63) % 63 = w := by
  omega

theorem ring_slot_free (r w i : Nat)
    (hi : i < (w + 63 - r) % 63) : w ≠ (r + i) % 63 := by
  omega

theorem chan_unread_moved (st : chan_run) (r1 : Nat) (hinv : chan_inv st) (hr1 : r1 < 63)
    (hmv : (r1 + 63 - st.ssp.mailbox.commandq_read) % 63
      ≤ (st.ssp.mailbox.commandq_write + 63 - st.ssp.mailbox.commandq_read) % 63) :
    st.unread.drop (ring_dist st.ssp.mailbox.commandq_read r1)
      = ring_range r1 (ring_dist r1 st.ssp.mailbox.commandq_write) := by
  obtain ⟨_, i2, i3, _, _, i6⟩ := hinv
  obtain ⟨e1, e2⟩ := ring_after_move _ r1 _ i3 hr1 i2 hmv
  rw [i6, ring_dist_eq, ring_dist_eq, ring_dist_eq, ring_range_drop _ _ _ i3 hmv, e1, e2]

theorem chan_inv_fw (st st1 : chan_run) (r1 : Nat) (hinv : chan_inv st)
    (h : chan_step st (chan_op.fw r1) = some st1) : chan_inv st1 := by
  rw [chan_step] at h
  by_cases hm : fw_move_ok st.ssp.mailbox.commandq_read st.ssp.mailbox.commandq_write r1 = true
  · rw [if_pos hm] at h
    injection h with h
    subst h
    obtain ⟨hr1, hmv⟩ := (fw_move_ok_iff _ _ _).mp hm
    have hu := chan_unread_moved st r1 hinv hr1 hmv
    obtain ⟨i1, i2, i3, i4, i5, _⟩ := hinv
    exact ⟨i1, i2, hr1, i4, (ring_compose _ _ r1 _ i4 i3 hr1 i2 i5 hmv).1, hu⟩
  · rw [if_neg hm] at h
    exact absurd h (by intro e; cases e)

theorem chan_inv_cmd (st st1 : chan_run) (env : fw_env) (cmd : List Nat) (wait : Bool)
    (hinv : chan_inv st)
    (h : chan_step st (chan_op.cmd env cmd wait) = some st1) :
    chan_inv st1
    ∧ st1.ssp.mailbox.commandq_write = next_write_of st.ssp.mailbox.commandq_write
    ∧ st1.ssp.mailbox.commandq_write ≠ st1.ssp.mailbox.commandq_read
    ∧ (∀ r2, fw_move_ok st1.ssp.mailbox.commandq_read st.ssp.mailbox.commandq_write r2 = true →
        st1.ssp.mailbox.commandq_write ≠ r2)
    ∧ st1.ssp.mailbox.commandq
        = st.ssp.mailbox.commandq.set st.ssp.mailbox_cached_write cmd := by
  rw [chan_step] at h
  by_cases hp : polls_ok st.ssp.mailbox.commandq_write (next_write_of st.ssp.mailbox_cached_write)
      env.fw_reads st.ssp.mailbox.commandq_read st.ssp.mailbox_cached_read = true
  swap
  · rw [if_neg hp] at h
    exact absurd h (by intro e; cases e)
  rw [if_pos hp] at h
  cases hc : seastar_cmd env st.ssp cmd wait with
  | none =>
    rw [hc] at h
    exact absurd h (by intro e; cases e)
  | some t =>
    obtain ⟨ret, ssp1, env1⟩ := t
    rw [hc] at h
    dsimp only at h
    injection h with h
    subst h
    obtain ⟨c1, r1, rest, hwait, q1, q2, q3, q4, q5⟩ := seastar_cmd_cursors _ _ _ _ _ _ _ hc
    have hu : ∀ hr1 hmv, _ := chan_unread_moved st r1 hinv
    obtain ⟨i1, i2, i3, i4, i5, i6⟩ := hinv
    have hnw : next_write_of st.ssp.mailbox_cached_write
        = (st.ssp.mailbox.commandq_write + 1) % 63 := by
      rw [i1]; exact next_write_of_eq _ i2
    obtain ⟨a1, a2, a3, a4, a5⟩ := wait_cmd_slot_inv st.ssp.mailbox.commandq_write _ i2
      env.fw_reads _ _ c1 r1 rest i3 i4 i5 hp hwait
    rw [hnw] at a3
    obtain ⟨b1, b2, b3, b4⟩ := ring_after_write c1 r1 _ a1 a2 i2 a3 a4
    have hw1 : ssp1.mailbox.commandq_write = (st.ssp.mailbox.commandq_write + 1) % 63 := by
      rw [q2, hnw]
    refine ⟨⟨?_, ?_, ?_, ?_, ?_, ?_⟩, ?_, ?_, ?_, q5⟩
    · show ssp1.mailbox_cached_write = ssp1.mailbox.commandq_write
      rw [q4, q2]
    · show ssp1.mailbox.commandq_write < 63
      rw [hw1]; exact Nat.mod_lt _ (by decide)
    · show ssp1.mailbox.commandq_read < 63
      rw [q1]; exact a2
    · show ssp1.mailbox_cached_read < 63
      rw [q3]; exact a1
    · show (ssp1.mailbox.commandq_read + 63 - ssp1.mailbox_cached_read) % 63
        ≤ (ssp1.mailbox.commandq_write + 63 - ssp1.mailbox_cached_read) % 63
      rw [q1, q3, hw1]; exact b1
    · show st.unread.drop (ring_dist st.ssp.mailbox.commandq_read ssp1.mailbox.commandq_read)
          ++ [st.ssp.mailbox_cached_write]
        = ring_range ssp1.mailbox.commandq_read
            (ring_dist ssp1.mailbox.commandq_read ssp1.mailbox.commandq_write)
      rw [q1, hw1, hu a2 a5, i1, ring_dist_eq, ring_dist_eq, b3]
      have := ring_range_snoc r1 ((st.ssp.mailbox.commandq_write + 63 - r1) % 63) a2
      rw [b4] at this
      exact this
    · show ssp1.mailbox.commandq_write = next_write_of st.ssp.mailbox.commandq_write
      rw [q2, i1]
    · show ssp1.mailbox.commandq_write ≠ ssp1.mailbox.commandq_read
      rw [hw1, q1]; exact b2
    · intro r2 hr2
      show ssp1.mailbox.commandq_write ≠ r2
      rw [q1] at hr2
      obtain ⟨hr2a, hr2b⟩ := (fw_move_ok_iff _ _ _).mp hr2
      have c := (ring_compose c1 r1 r2 _ a1 a2 hr2a i2 a4 hr2b).1
      rw [hw1]
      exact (ring_after_write c1 r2 _ a1 hr2a i2 a3 c).2.1

theorem chan_inv_of_start (st : chan_run) (h : chan_start st) : chan_inv st := by
  obtain ⟨h1, h2, h3, h4, h5⟩ := h
  refine ⟨h4, h2, h1, by rw [h3]; exact h1, ?_, h5⟩
  rw [h3, ring_dist_eq, ring_dist_eq]
  have : st.ssp.mailbox.commandq_read < 63 := h1
  omega

theorem chan_inv_exec (ops : List chan_op) :
    ∀ (st0 st : chan_run), chan_inv st0 → chan_exec st0 ops = some st → chan_inv st := by
  induction ops with
  | nil =>
    intro st0 st hinv h
    rw [chan_exec] at h
    injection h with h
    rw [← h]; exact hinv
  | cons op ops ih =>
    intro st0 st hinv h
    rw [chan_exec] at h
    cases hs : chan_step st0 op with
    | none =>
      rw [hs] at h
      exact absurd h (by intro e; cases e)
    | some st1 =>
      rw [hs] at h
      dsimp only at h
      cases op with
      | fw r1 => exact ih st1 st (chan_inv_fw st0 st1 r1 hinv hs) h
      | cmd env cmd wait => exact ih st1 st (chan_inv_cmd st0 st1 env cmd wait hinv hs).1 h

theorem chan_inv_unread (st : chan_run) (hinv : chan_inv st) :
    st.unread.length = ring_dist st.ssp.mailbox.commandq_read st.ssp.mailbox.commandq_write
    ∧ st.unread.length ≤ 62
    ∧ st.ssp.mailbox_cached_write ∉ st.unread := by
  obtain ⟨i1, i2, i3, _, _, i6⟩ := hinv
  have hl : st.unread.length
      = ring_dist st.ssp.mailbox.commandq_read st.ssp.mailbox.commandq_write := by
    rw [i6, ring_range_length]
  refine ⟨hl, ?_, ?_⟩
  · rw [hl, ring_dist_eq]
    omega
  · intro hm
    rw [i6, i1] at hm
    obtain ⟨i, hi, e⟩ := mem_ring_range _ _ _ i3 hm
    exact ring_slot_free _ _ i hi e

/-- C11: start from a channel whose two cursors are slots 0..62 of the ring,
as `seastar_hw_init` leaves it, and let any sequence of `seastar_cmd` calls
and firmware moves follow, the firmware moving its read cursor only forward
round the ring and never past the write cursor.  In every state reached the
cursors are slots 0..62, and the commands submitted and not yet read are
those between the read and the write cursor, at most 62.  Every
`seastar_cmd` call that returns from such a state has advanced the write
cursor by one slot to a value in 0..62 that differs from the firmware's read
cursor, both as last read by the host and wherever an allowed firmware move
has taken it since; the slot the command was copied into is the old write
cursor and held no unread command; and at most 62 commands are unread
afterwards. -/
theorem cmd_ring_no_overrun (st0 : chan_run) (ops : List chan_op) (st : chan_run)
    (h0 : chan_start st0) (hrun : chan_exec st0 ops = some st) :
    st.ssp.mailbox.commandq_write < COMMAND_Q_LENGTH
    ∧ st.ssp.mailbox.commandq_read < COMMAND_Q_LENGTH
    ∧ st.unread = ring_range st.ssp.mailbox.commandq_read
        (ring_dist st.ssp.mailbox.commandq_read st.ssp.mailbox.commandq_write)
    ∧ st.unread.length ≤ 62
    ∧ ∀ (env : fw_env) (cmd : List Nat) (wait : Bool) (st1 : chan_run),
        chan_step st (chan_op.cmd env cmd wait) = some st1 →
        st1.ssp.mailbox.commandq_write = next_write_of st.ssp.mailbox.commandq_write
        ∧ st1.ssp.mailbox.commandq_write < COMMAND_Q_LENGTH
        ∧ st1.ssp.mailbox.commandq_write ≠ st1.ssp.mailbox.commandq_read
        ∧ (∀ r2, fw_move_ok st1.ssp.mailbox.commandq_read st.ssp.mailbox.commandq_write r2 = true →
            st1.ssp.mailbox.commandq_write ≠ r2)
        ∧ st1.ssp.mailbox.commandq
            = st.ssp.mailbox.commandq.set st.ssp.mailbox.commandq_write cmd
        ∧ st.ssp.mailbox.commandq_write ∉ st.unread
        ∧ st1.unread = st.unread.drop
              (ring_dist st.ssp.mailbox.commandq_read st1.ssp.mailbox.commandq_read)
            ++ [st.ssp.mailbox.commandq_write]
        ∧ st1.unread.length ≤ 62 := by
  have hinv := chan_inv_exec ops st0 st (chan_inv_of_start st0 h0) hrun
  obtain ⟨_, u2, u3⟩ := chan_inv_unread st hinv
  refine ⟨hinv.2.1, hinv.2.2.1, hinv.2.2.2.2.2, u2, ?_⟩
  intro env cmd wait st1 hstep
  obtain ⟨j1, j2, j3, j4, j5⟩ := chan_inv_cmd st st1 env cmd wait hinv hstep
  have e := hinv.1
  rw [e] at j5 u3
  refine ⟨j2, j1.2.1, j3, j4, j5, u3, ?_, (chan_inv_unread st1 j1).2.1⟩
  rw [chan_step] at hstep
  by_cases hp : polls_ok st.ssp.mailbox.commandq_write (next_write_of st.ssp.mailbox_cached_write)
      env.fw_reads st.ssp.mailbox.commandq_read st.ssp.mailbox_cached_read = true
  · rw [if_pos hp] at hstep
    cases hc : seastar_cmd env st.ssp cmd wait with
    | none =>
      rw [hc] at hstep
      exact absurd hstep (by intro e; cases e)
    | some t =>
      rw [hc] at hstep
      dsimp only at hstep
      injection hstep with hstep
      rw [← hstep, e]
  · rw [if_neg hp] at hstep
    exact absurd hstep (by intro e; cases e)

set_option maxRecDepth 100000 in
theorem cmd_ring_no_overrun_witness :
    chan_start chan_ok
    ∧ ∃ st st1, chan_exec chan_ok chan_ops_ok = some st
      ∧ chan_step st (chan_op.cmd { fw_reads := [], fw_result := none }
          (List.replicate 64 4) false) = some st1
      ∧ st.unread.length ≤ 62
      ∧ st1.ssp.mailbox.commandq_write = next_write_of st.ssp.mailbox.commandq_write
      ∧ st1.ssp.mailbox.commandq_write < COMMAND_Q_LENGTH
      ∧ st1.ssp.mailbox.commandq_write ≠ st1.ssp.mailbox.commandq_read
      ∧ st.ssp.mailbox.commandq_write ∉ st.unread
      ∧ st1.unread.length ≤ 62 := by
  have h : ((chan_exec chan_ok chan_ops_ok).bind (fun st =>
      chan_step st (chan_op.cmd { fw_reads := [], fw_result := none }
        (List.replicate 64 4) false))).isSome = true := by decide
  cases h1 : chan_exec chan_ok chan_ops_ok with
  | none =>
    rw [h1] at h
    exact absurd h (by decide)
  | some st =>
    rw [h1] at h
    cases h2 : chan_step st (chan_op.cmd { fw_reads := [], fw_result := none }
        (List.replicate 64 4) false) with
    | none =>
      rw [Option.some_bind, h2] at h
      exact absurd h (by decide)
    | some st1 =>
      obtain ⟨_, _, _, a4, a5⟩ := cmd_ring_no_overrun chan_ok chan_ops_ok st (by decide) h1
      obtain ⟨b1, b2, b3, _, _, b6, _, b8⟩ := a5 _ _ _ st1 h2
      exact ⟨by decide, st, st1, rfl, h2, a4, b1, b2, b3, b6, b8⟩

/-! ## Destination node id of a transmit command -/

theorem nid_of_dest (a b c d : Nat) (ha : a < 256) (hb : b < 256) (hc : c < 256)
    (hd : d < 256) :
    u16 (ntohl (a + 2 ^ 8 * b + 2 ^ 16 * c + 2 ^ 24 * d)) = 256 * c + d
    ∧ ntohl (a + 2 ^ 8 * b + 2 ^ 16 * c + 2 ^ 24 * d)
        = a * 2 ^ 24 + b * 2 ^ 16 + c * 2 ^ 8 + d := by
  have e0 : (a + 2 ^ 8 * b + 2 ^ 16 * c + 2 ^ 24 * d) % 256 = a := by omega
  have e1 : (a + 2 ^ 8 * b + 2 ^ 16 * c + 2 ^ 24 * d) / 2 ^ 8 % 256 = b := by omega
  have e2 : (a + 2 ^ 8 * b + 2 ^ 16 * c + 2 ^ 24 * d) / 2 ^ 16 % 256 = c := by omega
  have e3 : (a + 2 ^ 8 * b + 2 ^ 16 * c + 2 ^ 24 * d) / 2 ^ 24 % 256 = d := by omega
  unfold u16 ntohl
  rw [e0, e1, e2, e3]
  constructor
  · omega
  · rfl

theorem shl8_or (c d : Nat) (hd : d < 256) : (c <<< 8) ||| d = 256 * c + d := by
  have h : d < 2 ^ 8 := hd
  rw [Nat.shiftLeft_eq, Nat.mul_comm, ← Nat.mul_add_lt_is_or h c]

theorem tx_slot_mailbox (ssp : ss_priv) (p : Nat) (wire : sk_buff) (b : Option kbuf)
    (hh : ssp.tx_pending_free_list = some p) :
    (upd_pending (upd_pending (alloc_tx_pending ssp).2 p
        (fun e => { e with skb := some wire })) p (fun e => { e with bounce := b })).mailbox
      = ssp.mailbox
    ∧ (upd_pending (upd_pending (alloc_tx_pending ssp).2 p
        (fun e => { e with skb := some wire })) p
        (fun e => { e with bounce := b })).mailbox_cached_read = ssp.mailbox_cached_read
    ∧ (upd_pending (upd_pending (alloc_tx_pending ssp).2 p
        (fun e => { e with skb := some wire })) p
        (fun e => { e with bounce := b })).mailbox_cached_write = ssp.mailbox_cached_write := by
  unfold alloc_tx_pending
  rw [hh]
  exact ⟨rfl, rfl, rfl⟩

/-- C25: on the path where `ss_tx` submits the transmit command, the `nid`
field of the command record (bytes 2-3) is `(dest[2] << 8) | dest[3]`, the
16-bit big-endian value of bytes 2 and 3 of the destination hardware address
of the frame as it was handed to `ss_tx`, before `eth2ss` rewrote the
header: the 32-bit value read is `dest[0..3]` in network order, and bytes 0
and 1 go when it is cut to the 16-bit `nid` parameter. -/
theorem tx_nid_from_dest (env : tx_env) (skb wire : sk_buff) (netdev : net_device)
    (p c r : Nat) (rest : List Nat)
    (hq : netdev.queue_stopped = false)
    (hacc : eth2ss skb = some (0, wire))
    (hh : netdev.priv.tx_pending_free_list = some p)
    (hk : (wire.head_addr + wire.data) &&& 0x3 ≠ 0 → env.kmalloc ≠ none)
    (hw : wait_cmd_slot (next_write_of netdev.priv.mailbox_cached_write) env.fw.fw_reads
      netdev.priv.mailbox.commandq_read netdev.priv.mailbox_cached_read = some (c, r, rest))
    (hcw : netdev.priv.mailbox_cached_write < netdev.priv.mailbox.commandq.length) :
    ∃ res, ss_tx env skb netdev = some res
      ∧ res.ret = 0
      ∧ res.skb = wire
      ∧ (res.netdev.priv.mailbox.commandq.getD netdev.priv.mailbox_cached_write []).getD 0 0
          = COMMAND_IP_TX
      ∧ cmd_u16 (res.netdev.priv.mailbox.commandq.getD netdev.priv.mailbox_cached_write []) 2
          = (h_dest skb 2 <<< 8) ||| h_dest skb 3
      ∧ (h_dest skb 2 <<< 8) ||| h_dest skb 3 = 256 * h_dest skb 2 + h_dest skb 3
      ∧ ntohl (h_dest32 skb)
          = h_dest skb 0 * 2 ^ 24 + h_dest skb 1 * 2 ^ 16 + h_dest skb 2 * 2 ^ 8 + h_dest skb 3
      ∧ u16 (ntohl (h_dest32 skb)) = (h_dest skb 2 <<< 8) ||| h_dest skb 3 := by
  obtain ⟨b, msg, hrun⟩ := ss_tx_success env skb wire netdev p hq hacc hh hk
  obtain ⟨m1, m2, m3⟩ := tx_slot_mailbox netdev.priv p wire b hh
  obtain ⟨n1, n2⟩ := nid_of_dest (h_dest skb 0) (h_dest skb 1) (h_dest skb 2) (h_dest skb 3)
    (byte_at_lt _ _) (byte_at_lt _ _) (byte_at_lt _ _) (byte_at_lt _ _)
  have n3 := shl8_or (h_dest skb 2) (h_dest skb 3) (byte_at_lt _ _)
  generalize (upd_pending (upd_pending (alloc_tx_pending netdev.priv).2 p
    (fun e => { e with skb := some wire })) p (fun e => { e with bounce := b })) = S at *
  rw [← m1, ← m2, ← m3] at hw
  rw [tx_submit_eq env netdev S wire _ msg p c r rest hw] at hrun
  obtain ⟨r1, _, r2, _, _, _⟩ := command_ip_tx_record COMMAND_IP_TX (ntohl (h_dest32 skb))
    (sshdr_length wire) (env.virt_to_phys msg >>> 2) (pending_to_index S p) env.stack_tail
  generalize ((command_ip_tx_bytes COMMAND_IP_TX (ntohl (h_dest32 skb)) (sshdr_length wire)
    (env.virt_to_phys msg >>> 2) (pending_to_index S p) ++ env.stack_tail).take 64) = record at *
  have hrec : (cmd_posted S record c r).mailbox.commandq.getD netdev.priv.mailbox_cached_write []
      = record := by
    rw [← m3]
    exact (cmdq_getD_set S.mailbox.commandq S.mailbox_cached_write S.mailbox_cached_write
      record).2 (by rw [m1, m3]; exact hcw)
  refine ⟨_, hrun, rfl, rfl, ?_, ?_, n3, n2, ?_⟩
  · show ((cmd_posted S record c r).mailbox.commandq.getD
      netdev.priv.mailbox_cached_write []).getD 0 0 = _
    rw [hrec, r1]
    rfl
  · show cmd_u16 ((cmd_posted S record c r).mailbox.commandq.getD
      netdev.priv.mailbox_cached_write []) 2 = _
    rw [hrec, r2, n3]
    exact n1
  · rw [n3]
    exact n1

set_option maxRecDepth 100000 in
theorem tx_nid_from_dest_witness :
    h_dest frame_ok 2 = 3 ∧ h_dest frame_ok 3 = 4
    ∧ ∃ res, ss_tx tx_env_ok frame_ok netdev_ok = some res
      ∧ res.ret = 0
      ∧ cmd_u16 (res.netdev.priv.mailbox.commandq.getD 0 []) 2 = 0x0304
      ∧ (h_dest res.skb 2 <<< 8) ||| h_dest res.skb 3 ≠ 0x0304 := by
  obtain ⟨res, h1, h2, h3, _, h5, _, _, _⟩ :=
    tx_nid_from_dest tx_env_ok frame_ok (wire_of frame_ok) netdev_ok 63 0 0 []
      (by decide) (by decide) (by decide) (fun _ => by decide) (by decide) (by decide)
  refine ⟨by decide, by decide, res, h1, h2, h5, ?_⟩
  rw [h3]
  decide

/-! ## The busy path of `ss_tx` -/

theorem tx_submit_some (env : tx_env) (netdev : net_device) (ssp : ss_priv) (skb : sk_buff)
    (dest_nid msg p : Nat) (res : tx_result)
    (h : tx_submit env netdev ssp skb dest_nid msg p = some res) :
    res.ret = 0 ∧ res.skb = skb ∧ res.netdev.queue_stopped = netdev.queue_stopped
    ∧ ∃ ssp1 env1, seastar_ip_tx_cmd env.fw env.stack_tail ssp dest_nid (sshdr_length skb)
        (env.virt_to_phys msg >>> 2) (pending_to_index ssp p) = some (ssp1, env1)
      ∧ res.netdev.priv = ssp1 := by
  unfold tx_submit at h
  cases hc : seastar_ip_tx_cmd env.fw env.stack_tail ssp dest_nid (sshdr_length skb)
      (env.virt_to_phys msg >>> 2) (pending_to_index ssp p) with
  | none =>
    rw [hc] at h
    exact absurd h (by intro e; cases e)
  | some t =>
    obtain ⟨ssp1, env1⟩ := t
    rw [hc] at h
    dsimp only at h
    injection h with h
    subst h
    exact ⟨rfl, rfl, rfl, ssp1, env1, rfl, rfl⟩

theorem wire_of_cursor (skb : sk_buff) :
    (wire_of skb).data = skb.data + 10 ∧ (wire_of skb).len = skb.len - 10
    ∧ wire_of skb ≠ skb := by
  have h : (wire_of skb).data = skb.data + 10 := rfl
  refine ⟨h, rfl, ?_⟩
  intro e
  rw [e] at h
  omega

/-- C23, what the code does: when the queue is already stopped `ss_tx`
returns `NETDEV_TX_BUSY` and leaves frame and device as they are; when the
queue is running, `eth2ss` accepts the frame and no pending slot is free, it
returns `NETDEV_TX_BUSY` after `eth2ss` has rewritten the frame: the frame
handed back starts 10 bytes further on, is 10 bytes shorter and carries the
wire header, so it is not the frame that was submitted.  These are the only
two ways `ss_tx` returns `NETDEV_TX_BUSY`. -/
theorem ss_tx_busy_frame (env : tx_env) (skb : sk_buff) (netdev : net_device) :
    (netdev.queue_stopped = true →
      ss_tx env skb netdev = some { ret := NETDEV_TX_BUSY, skb := skb, netdev := netdev })
    ∧ (∀ wire, netdev.queue_stopped = false → eth2ss skb = some (0, wire) →
        netdev.priv.tx_pending_free_list = none →
        ss_tx env skb netdev
          = some { ret := NETDEV_TX_BUSY, skb := wire,
                   netdev := { netdev with queue_stopped := true } }
        ∧ wire = wire_of skb ∧ wire.data = skb.data + 10 ∧ wire.len = skb.len - 10
        ∧ wire ≠ skb)
    ∧ (∀ res, ss_tx env skb netdev = some res → res.ret = NETDEV_TX_BUSY →
        (netdev.queue_stopped = true ∧ res.skb = skb)
        ∨ (netdev.queue_stopped = false ∧ netdev.priv.tx_pending_free_list = none
            ∧ eth2ss skb = some (0, res.skb) ∧ res.skb = wire_of skb ∧ res.skb ≠ skb)) := by
  have h0 : ¬ ((0 : Int) ≠ 0) := fun h => h rfl
  have hbusy : (0 : Nat) ≠ NETDEV_TX_BUSY := by decide
  refine ⟨?_, ?_, ?_⟩
  · intro hq
    unfold ss_tx
    dsimp only
    rw [hq]
    rfl
  · intro wire hq hacc hh
    have hw : wire = wire_of skb := ((eth2ss_zero_iff skb wire).mp hacc).2.2
    obtain ⟨w1, w2, w3⟩ := wire_of_cursor skb
    refine ⟨?_, hw, by rw [hw]; exact w1, by rw [hw]; exact w2, by rw [hw]; exact w3⟩
    unfold ss_tx
    dsimp only
    rw [hq, hacc]
    dsimp only
    rw [if_neg h0, alloc_of_empty _ hh]
    rfl
  · intro res h hret
    by_cases hq : netdev.queue_stopped = true
    · left
      unfold ss_tx at h
      dsimp only at h
      rw [hq] at h
      injection h with h
      subst h
      exact ⟨hq, rfl⟩
    · right
      have hq' : netdev.queue_stopped = false := by
        cases hb : netdev.queue_stopped with
        | true => exact absurd hb hq
        | false => rfl
      unfold ss_tx at h
      dsimp only at h
      rw [hq'] at h
      cases he : eth2ss skb with
      | none =>
        rw [he] at h
        exact absurd h (by intro e; cases e)
      | some t =>
        obtain ⟨rv, skb1⟩ := t
        rw [he] at h
        dsimp only at h
        by_cases hr : rv ≠ 0
        · rw [if_neg (by decide), if_pos hr] at h
          injection h with h
          subst h
          exact absurd hret hbusy
        · rw [if_neg (by decide), if_neg hr] at h
          have hrv : rv = 0 := not_not.mp hr
          subst hrv
          cases hh : netdev.priv.tx_pending_free_list with
          | none =>
            rw [alloc_of_empty _ hh] at h
            dsimp only at h
            injection h with h
            subst h
            have hw : skb1 = wire_of skb := ((eth2ss_zero_iff skb skb1).mp he).2.2
            refine ⟨hq', rfl, rfl, hw, ?_⟩
            show skb1 ≠ skb
            rw [hw]
            exact (wire_of_cursor skb).2.2
          | some p =>
            exfalso
            have ha : alloc_tx_pending netdev.priv = (some p, (alloc_tx_pending netdev.priv).2) :=
              Prod.ext (alloc_tx_pending_some netdev.priv p hh).1 rfl
            rw [ha] at h
            dsimp only at h
            by_cases hal : (skb1.head_addr + skb1.data) &&& 0x3 = 0
            · rw [if_pos hal] at h
              exact hbusy ((tx_submit_some _ _ _ _ _ _ _ _ h).1.symm.trans hret)
            · rw [if_neg hal] at h
              cases hk : env.kmalloc with
              | none =>
                rw [hk] at h
                dsimp only at h
                injection h with h
                subst h
                exact hbusy hret
              | some addr =>
                rw [hk] at h
                dsimp only at h
                exact hbusy ((tx_submit_some _ _ _ _ _ _ _ _ h).1.symm.trans hret)

set_option maxRecDepth 100000 in
theorem ss_tx_busy_frame_witness :
    netdev_full.queue_stopped = false
    ∧ eth2ss frame_ok = some (0, wire_of frame_ok)
    ∧ netdev_full.priv.tx_pending_free_list = none
    ∧ ss_tx tx_env_ok frame_ok netdev_full
        = some { ret := NETDEV_TX_BUSY, skb := wire_of frame_ok,
                 netdev := { netdev_full with queue_stopped := true } }
    ∧ (wire_of frame_ok).data = 12 ∧ frame_ok.data = 2
    ∧ (wire_of frame_ok).len = 9 ∧ frame_ok.len = 19
    ∧ wire_of frame_ok ≠ frame_ok :=
  ⟨by decide, by decide, by decide,
    ((ss_tx_busy_frame tx_env_ok frame_ok netdev_full).2.1 (wire_of frame_ok)
      (by decide) (by decide) (by decide)).1,
    by decide, by decide, by decide, by decide, by decide⟩

set_option maxRecDepth 100000 in
/-- The frame `frame_ok` handed back by the busy path is rejected when it is
submitted again: `eth2ss` no longer finds a link-layer header, the frame is
dropped and counted as a transmit error. -/
theorem ss_tx_busy_resubmit_example :
    (ss_tx tx_env_ok (wire_of frame_ok) netdev_ok).map
        (fun res => (res.ret, res.netdev.stats.tx_errors, res.netdev.freed_skbs.length,
          decide (res.netdev.priv = netdev_ok.priv)))
      = some (0, 1, 1, true) := by
  decide

/-! ## Receive with a failing refill -/

theorem refill_skb_fail (env : irq_env) (nd : net_device) (i : Nat)
    (hfail : env.allocs.headD none = none) : (refill_skb env nd i).1 = nd := by
  unfold refill_skb
  cases ha : env.allocs with
  | nil => rfl
  | cons a rest =>
    rw [ha] at hfail
    have : a = none := hfail
    subst this
    rfl

/-- C22, what the code does: when `ss_rx` handles index `i` and the
allocation in `refill_skb` fails, entry `i` of `skb_table_virt` is empty
afterwards, but `skb_table_phys` is exactly what it was before the call:
entry `i` still holds the adapter-visible address of the buffer that has just
been handed to `netif_rx`.  `ss_rx` clears only the buffer reference, and a
failing `refill_skb` writes neither table. -/
theorem ss_rx_failed_refill (env env1 : irq_env) (nd nd1 : net_device) (i : Nat)
    (hfail : env.allocs.headD none = none)
    (hlen : nd.priv.skb_table_virt.length = NUM_SKBS)
    (h : ss_rx env nd i = some (nd1, env1)) :
    i < NUM_SKBS
    ∧ nd1.priv.skb_table_virt.getD i none = none
    ∧ nd1.priv.skb_table_phys = nd.priv.skb_table_phys
    ∧ ∃ skb, nd.priv.skb_table_virt.getD i none = some skb
        ∧ ∃ nd2, ss_rx_skb { nd with priv := { nd.priv with
              skb_table_virt := nd.priv.skb_table_virt.set i none } } skb = some nd2
          ∧ nd1.rx_delivered = nd2.rx_delivered := by
  unfold ss_rx at h
  by_cases hi : i < NUM_SKBS
  swap
  · rw [if_neg hi] at h
    exact absurd h (by intro e; cases e)
  rw [if_pos hi] at h
  dsimp only at h
  cases hv : nd.priv.skb_table_virt.getD i none with
  | none =>
    rw [hv] at h
    exact absurd h (by intro e; cases e)
  | some skb =>
    rw [hv] at h
    dsimp only at h
    cases hs : ss_rx_skb { nd with priv := { nd.priv with
        skb_table_virt := nd.priv.skb_table_virt.set i none } } skb with
    | none =>
      rw [hs] at h
      exact absurd h (by intro e; cases e)
    | some nd2 =>
      rw [hs] at h
      dsimp only at h
      have hp := ss_rx_skb_priv _ nd2 skb hs
      have hr := refill_skb_fail env nd2 i hfail
      injection h with h
      have h1 : nd1 = nd2 := by rw [← hr, h]
      subst h1
      refine ⟨hi, ?_, ?_, skb, rfl, nd1, hs, rfl⟩
      · rw [hp]
        show (nd.priv.skb_table_virt.set i none).getD i none = none
        rw [List.getD_eq_getElem?_getD, List.getElem?_set_self (by rw [hlen]; exact hi)]
        rfl
      · rw [hp]

set_option maxRecDepth 100000 in
theorem ss_rx_failed_refill_witness :
    netdev_opened.priv.skb_table_phys.getD 7 0 = 16499
    ∧ ∃ nd1 env1, ss_rx irq_env_fail netdev_opened 7 = some (nd1, env1)
      ∧ nd1.priv.skb_table_virt.getD 7 none = none
      ∧ nd1.priv.skb_table_phys.getD 7 0 = 16499 := by
  have hsome : (ss_rx irq_env_fail netdev_opened 7).isSome = true := by decide
  obtain ⟨⟨nd1, env1⟩, h⟩ := Option.isSome_iff_exists.mp hsome
  obtain ⟨_, h2, h3, _⟩ :=
    ss_rx_failed_refill irq_env_fail env1 netdev_opened nd1 7 (by decide) (by decide) h
  refine ⟨by decide, nd1, env1, h, h2, ?_⟩
  rw [h3]
  decide

/-! ## The refill sweep (`ss_rx_refill`) -/

theorem empty_below_succ (virt : List (Option sk_buff)) (n : Nat) (hn : n < virt.length) :
    empty_below virt (n + 1)
      = empty_below virt n + (if virt.getD n none = none then 1 else 0) := by
  unfold empty_below
  rw [List.take_succ, List.countP_append, List.getD_eq_getElem?_getD,
    List.getElem?_eq_getElem hn]
  cases virt[n] with
  | none => rfl
  | some b => rfl

theorem refill_skb_spec (env : irq_env) (nd : net_device) (i : Nat) :
    (refill_skb env nd i).2.allocs = env.allocs.drop 1
    ∧ (refill_skb env nd i).2.virt_to_phys = env.virt_to_phys
    ∧ (∀ skb, env.allocs.getD 0 none = some skb →
        (refill_skb env nd i).1.priv.skb_table_virt
            = nd.priv.skb_table_virt.set i (some (skb_reserve skb SKB_PAD))
        ∧ (refill_skb env nd i).1.priv.skb_table_phys
            = nd.priv.skb_table_phys.set i
                (u64 (env.virt_to_phys ((skb_reserve skb SKB_PAD).head_addr
                  + (skb_reserve skb SKB_PAD).data) >>> 2)))
    ∧ (env.allocs.getD 0 none = none → (refill_skb env nd i).1 = nd) := by
  unfold refill_skb
  cases ha : env.allocs with
  | nil =>
    refine ⟨?_, rfl, ?_, fun _ => rfl⟩
    · show env.allocs = _
      rw [ha]; rfl
    · intro skb h
      exact absurd h (by intro e; cases e)
  | cons a rest =>
    cases a with
    | none =>
      refine ⟨rfl, rfl, ?_, fun _ => rfl⟩
      intro skb h
      exact absurd h (by intro e; cases e)
    | some b =>
      refine ⟨rfl, rfl, ?_, ?_⟩
      · intro skb h
        have e : b = skb := Option.some.inj h
        subst e
        exact ⟨rfl, rfl⟩
      · intro h
        exact absurd h (by intro e; cases e)

theorem getD_set_ne_opt (l : List (Option sk_buff)) (i j : Nat) (e : Option sk_buff)
    (h : i ≠ j) : (l.set i e).getD j none = l.getD j none := by
  rw [List.getD_eq_getElem?_getD, List.getD_eq_getElem?_getD, List.getElem?_set_ne h]

theorem getD_set_self_opt (l : List (Option sk_buff)) (i : Nat) (e : Option sk_buff)
    (h : i < l.length) : (l.set i e).getD i none = e := by
  rw [List.getD_eq_getElem?_getD, List.getElem?_set_self h, Option.getD_some]

theorem getD_set_ne_nat (l : List Nat) (i j e : Nat) (h : i ≠ j) :
    (l.set i e).getD j 0 = l.getD j 0 := by
  rw [List.getD_eq_getElem?_getD, List.getD_eq_getElem?_getD, List.getElem?_set_ne h]

theorem getD_set_self_nat (l : List Nat) (i e : Nat) (h : i < l.length) :
    (l.set i e).getD i 0 = e := by
  rw [List.getD_eq_getElem?_getD, List.getElem?_set_self h, Option.getD_some]

theorem refill_expected_skip (v2p : Nat → Nat) (virt : List (Option sk_buff))
    (phys : List Nat) (allocs : List (Option sk_buff)) (n i : Nat)
    (h : i ≠ n ∨ virt.getD n none ≠ none) :
    refill_expected v2p virt phys allocs (n + 1) i = refill_expected v2p virt phys allocs n i := by
  unfold refill_expected
  by_cases c : i < n ∧ virt.getD i none = none
  · rw [if_pos c, if_pos ⟨by omega, c.2⟩]
  · rw [if_neg c, if_neg]
    intro c2
    rcases h with h | h
    · exact c ⟨by omega, c2.2⟩
    · by_cases e : i = n
      · subst e; exact h c2.2
      · exact c ⟨by omega, c2.2⟩

theorem refill_expected_old (v2p : Nat → Nat) (virt : List (Option sk_buff))
    (phys : List Nat) (allocs : List (Option sk_buff)) (n i : Nat) (h : ¬ i < n) :
    refill_expected v2p virt phys allocs n i = (virt.getD i none, phys.getD i 0) := by
  unfold refill_expected
  rw [if_neg (fun c => h c.1)]

theorem refill_expected_new (v2p : Nat → Nat) (virt : List (Option sk_buff))
    (phys : List Nat) (allocs : List (Option sk_buff)) (n : Nat)
    (h : virt.getD n none = none) :
    refill_expected v2p virt phys allocs (n + 1) n
      = match allocs.getD (empty_below virt n) none with
        | some skb =>
          (some (skb_reserve skb SKB_PAD),
            u64 (v2p ((skb_reserve skb SKB_PAD).head_addr
              + (skb_reserve skb SKB_PAD).data) >>> 2))
        | none => (none, phys.getD n 0) := by
  unfold refill_expected
  rw [if_pos ⟨by omega, h⟩]

theorem allocs_drop_head (allocs : List (Option sk_buff)) (k : Nat) :
    (allocs.drop k).getD 0 none = allocs.getD k none
    ∧ (allocs.drop k).drop 1 = allocs.drop (k + 1) := by
  constructor
  · rw [List.getD_eq_getElem?_getD, List.getD_eq_getElem?_getD, List.getElem?_drop,
      Nat.add_zero]
  · rw [List.drop_drop, Nat.add_comm]

theorem rx_refill_loop_inv (env : irq_env) (nd : net_device)
    (hv : nd.priv.skb_table_virt.length = NUM_SKBS)
    (hp : nd.priv.skb_table_phys.length = NUM_SKBS) (n : Nat) (hn : n ≤ NUM_SKBS) :
    (ss_rx_refill_loop n env nd).1.priv.skb_table_virt.length = NUM_SKBS
    ∧ (ss_rx_refill_loop n env nd).1.priv.skb_table_phys.length = NUM_SKBS
    ∧ (ss_rx_refill_loop n env nd).2.allocs
        = env.allocs.drop (empty_below nd.priv.skb_table_virt n)
    ∧ (ss_rx_refill_loop n env nd).2.virt_to_phys = env.virt_to_phys
    ∧ ∀ i, ((ss_rx_refill_loop n env nd).1.priv.skb_table_virt.getD i none,
            (ss_rx_refill_loop n env nd).1.priv.skb_table_phys.getD i 0)
        = refill_expected env.virt_to_phys nd.priv.skb_table_virt nd.priv.skb_table_phys
            env.allocs n i := by
  induction n with
  | zero =>
    refine ⟨hv, hp, rfl, rfl, ?_⟩
    intro i
    rw [refill_expected_old _ _ _ _ 0 i (by omega)]
    rfl
  | succ n ih =>
    obtain ⟨i1, i2, i3, i4, i5⟩ := ih (by omega)
    have hn1 : n < NUM_SKBS := hn
    rw [ss_rx_refill_loop]
    generalize ss_rx_refill_loop n env nd = r at *
    have hrn := i5 n
    rw [refill_expected_old _ _ _ _ n n (by omega)] at hrn
    have hrv : r.1.priv.skb_table_virt.getD n none = nd.priv.skb_table_virt.getD n none :=
      congrArg Prod.fst hrn
    have hrp : r.1.priv.skb_table_phys.getD n 0 = nd.priv.skb_table_phys.getD n 0 :=
      congrArg Prod.snd hrn
    have hes := empty_below_succ nd.priv.skb_table_virt n (by rw [hv]; exact hn1)
    by_cases c : nd.priv.skb_table_virt.getD n none = none
    · rw [if_pos (hrv.trans c)]
      rw [if_pos c] at hes
      obtain ⟨s1, s2, s3, s4⟩ := refill_skb_spec r.2 r.1 n
      obtain ⟨d1, d2⟩ := allocs_drop_head env.allocs (empty_below nd.priv.skb_table_virt n)
      rw [i3, d1] at s3 s4
      rw [i3, d2, ← hes] at s1
      have hnew := refill_expected_new env.virt_to_phys nd.priv.skb_table_virt
        nd.priv.skb_table_phys env.allocs n c
      cases ha : env.allocs.getD (empty_below nd.priv.skb_table_virt n) none with
      | none =>
        rw [ha] at hnew
        rw [s4 ha]
        refine ⟨i1, i2, s1, s2.trans i4, ?_⟩
        intro i
        by_cases e : i = n
        · subst e
          rw [hnew, hrv, hrp, c]
        · rw [refill_expected_skip _ _ _ _ n i (Or.inl e)]
          exact i5 i
      | some skb =>
        rw [ha] at hnew
        obtain ⟨t1, t2⟩ := s3 skb ha
        rw [i4] at t2
        rw [t1, t2]
        refine ⟨by rw [List.length_set]; exact i1, by rw [List.length_set]; exact i2, s1,
          s2.trans i4, ?_⟩
        intro i
        by_cases e : i = n
        · subst e
          rw [hnew, getD_set_self_opt _ _ _ (by rw [i1]; exact hn1),
            getD_set_self_nat _ _ _ (by rw [i2]; exact hn1)]
        · rw [refill_expected_skip _ _ _ _ n i (Or.inl e),
            getD_set_ne_opt _ _ _ _ (fun h => e h.symm),
            getD_set_ne_nat _ _ _ _ (fun h => e h.symm)]
          exact i5 i
    · rw [if_neg (fun h => c (hrv.symm.trans h))]
      rw [if_neg c, Nat.add_zero] at hes
      refine ⟨i1, i2, by rw [hes]; exact i3, i4, ?_⟩
      intro i
      rw [refill_expected_skip _ _ _ _ n i (Or.inr c)]
      exact i5 i

theorem empty_below_mono (virt : List (Option sk_buff)) (n d : Nat) :
    empty_below virt n ≤ empty_below virt (n + d) := by
  induction d with
  | zero => exact Nat.le_refl _
  | succ d ih =>
    refine Nat.le_trans ih ?_
    unfold empty_below
    rw [← Nat.add_assoc, List.take_succ, List.countP_append]
    exact Nat.le_add_right _ _

/-- C21: `ss_rx_refill` on a device whose receive buffer table has its 64
entries.  An entry that holds a buffer keeps that buffer and its
adapter-visible address.  The empty entries get, in table order, the
outcomes of the successive `dev_alloc_skb` calls, one call per empty entry
and none for the others: where the allocation succeeds the entry holds the
fresh buffer and its data address divided by 4, where it fails the entry
stays empty.  The sweep makes as many allocation attempts as there are empty
entries, and when all of them succeed no entry is empty afterwards. -/
theorem rx_refill_sweep (env : irq_env) (nd : net_device)
    (hv : nd.priv.skb_table_virt.length = NUM_SKBS)
    (hp : nd.priv.skb_table_phys.length = NUM_SKBS) :
    (∀ i, i < NUM_SKBS →
      (∀ b, nd.priv.skb_table_virt.getD i none = some b →
        (ss_rx_refill env nd).1.priv.skb_table_virt.getD i none = some b
        ∧ (ss_rx_refill env nd).1.priv.skb_table_phys.getD i 0
            = nd.priv.skb_table_phys.getD i 0)
      ∧ (nd.priv.skb_table_virt.getD i none = none →
          (∀ skb, env.allocs.getD (empty_below nd.priv.skb_table_virt i) none = some skb →
            (ss_rx_refill env nd).1.priv.skb_table_virt.getD i none
                = some (skb_reserve skb SKB_PAD)
            ∧ (ss_rx_refill env nd).1.priv.skb_table_phys.getD i 0
                = u64 (env.virt_to_phys ((skb_reserve skb SKB_PAD).head_addr
                    + (skb_reserve skb SKB_PAD).data) >>> 2))
          ∧ (env.allocs.getD (empty_below nd.priv.skb_table_virt i) none = none →
              (ss_rx_refill env nd).1.priv.skb_table_virt.getD i none = none
              ∧ (ss_rx_refill env nd).1.priv.skb_table_phys.getD i 0
                  = nd.priv.skb_table_phys.getD i 0)))
    ∧ (ss_rx_refill env nd).2.allocs
        = env.allocs.drop (nd.priv.skb_table_virt.countP (fun e => e.isNone))
    ∧ ((∀ k, k < nd.priv.skb_table_virt.countP (fun e => e.isNone) →
          env.allocs.getD k none ≠ none) →
        ∀ i, i < NUM_SKBS → (ss_rx_refill env nd).1.priv.skb_table_virt.getD i none ≠ none) := by
  obtain ⟨_, _, i3, _, i5⟩ := rx_refill_loop_inv env nd hv hp NUM_SKBS (Nat.le_refl _)
  have hr : ss_rx_refill env nd = ss_rx_refill_loop NUM_SKBS env nd := by
    unfold ss_rx_refill
    rfl
  rw [hr]
  clear hr
  generalize ss_rx_refill_loop NUM_SKBS env nd = r at *
  have hall : empty_below nd.priv.skb_table_virt NUM_SKBS
      = nd.priv.skb_table_virt.countP (fun e => e.isNone) := by
    unfold empty_below
    rw [List.take_of_length_le (by rw [hv])]
  have hentry : ∀ i, i < NUM_SKBS →
      (∀ b, nd.priv.skb_table_virt.getD i none = some b →
        r.1.priv.skb_table_virt.getD i none = some b
        ∧ r.1.priv.skb_table_phys.getD i 0
            = nd.priv.skb_table_phys.getD i 0)
      ∧ (nd.priv.skb_table_virt.getD i none = none →
          (∀ skb, env.allocs.getD (empty_below nd.priv.skb_table_virt i) none = some skb →
            r.1.priv.skb_table_virt.getD i none
                = some (skb_reserve skb SKB_PAD)
            ∧ r.1.priv.skb_table_phys.getD i 0
                = u64 (env.virt_to_phys ((skb_reserve skb SKB_PAD).head_addr
                    + (skb_reserve skb SKB_PAD).data) >>> 2))
          ∧ (env.allocs.getD (empty_below nd.priv.skb_table_virt i) none = none →
              r.1.priv.skb_table_virt.getD i none = none
              ∧ r.1.priv.skb_table_phys.getD i 0
                  = nd.priv.skb_table_phys.getD i 0)) := by
    intro i hi
    have h := i5 i
    unfold refill_expected at h
    refine ⟨?_, ?_⟩
    · intro b hb
      rw [if_neg (by rw [hb]; exact fun c => Option.noConfusion c.2)] at h
      exact ⟨(congrArg Prod.fst h).trans hb, congrArg Prod.snd h⟩
    · intro hnone
      rw [if_pos ⟨hi, hnone⟩] at h
      refine ⟨?_, ?_⟩
      · intro skb ha
        rw [ha] at h
        exact ⟨congrArg Prod.fst h, congrArg Prod.snd h⟩
      · intro ha
        rw [ha] at h
        exact ⟨congrArg Prod.fst h, congrArg Prod.snd h⟩
  refine ⟨hentry, ?_, ?_⟩
  · rw [← hall]
    exact i3
  · intro hsucc i hi
    obtain ⟨e1, e2⟩ := hentry i hi
    cases hb : nd.priv.skb_table_virt.getD i none with
    | some b =>
      rw [(e1 b hb).1]
      exact fun c => Option.noConfusion c
    | none =>
      have hlt : empty_below nd.priv.skb_table_virt i
          < nd.priv.skb_table_virt.countP (fun e => e.isNone) := by
        have s := empty_below_succ nd.priv.skb_table_virt i (by rw [hv]; exact hi)
        rw [if_pos hb] at s
        have m := empty_below_mono nd.priv.skb_table_virt (i + 1) (NUM_SKBS - (i + 1))
        have e : i + 1 + (NUM_SKBS - (i + 1)) = NUM_SKBS := by omega
        rw [e, hall] at m
        omega
      cases ha : env.allocs.getD (empty_below nd.priv.skb_table_virt i) none with
      | none => exact absurd ha (hsucc _ hlt)
      | some skb =>
        rw [((e2 hb).1 skb ha).1]
        exact fun c => Option.noConfusion c

set_option maxRecDepth 100000 in
theorem rx_refill_sweep_witness :
    netdev_gaps.priv.skb_table_virt.length = NUM_SKBS
    ∧ netdev_gaps.priv.skb_table_phys.length = NUM_SKBS
    ∧ netdev_gaps.priv.skb_table_virt.getD 3 none = none
    ∧ netdev_gaps.priv.skb_table_virt.getD 9 none = none
    ∧ (ss_rx_refill irq_env_one netdev_gaps).1.priv.skb_table_virt.getD 3 none
        = some { head_addr := 0x20000, head := List.replicate 32 0, data := 12, len := 0 }
    ∧ (ss_rx_refill irq_env_one netdev_gaps).1.priv.skb_table_phys.getD 3 0 = 0x2000C / 4
    ∧ (ss_rx_refill irq_env_one netdev_gaps).1.priv.skb_table_virt.getD 9 none = none
    ∧ (ss_rx_refill irq_env_one netdev_gaps).1.priv.skb_table_virt.getD 7 none
        = some { head_addr := 0x101C0, head := List.replicate 32 0, data := 12, len := 0 }
    ∧ (ss_rx_refill irq_env_one netdev_gaps).1.priv.skb_table_phys.getD 7 0 = 16499
    ∧ (ss_rx_refill irq_env_one netdev_gaps).2.allocs = [] := by
  have h := rx_refill_sweep irq_env_one netdev_gaps (by decide) (by decide)
  have h3 := ((h.1 3 (by decide)).2 (by decide)).1
    { head_addr := 0x20000, head := List.replicate 32 0, data := 0, len := 0 } (by decide)
  have h9 := ((h.1 9 (by decide)).2 (by decide)).2 (by decide)
  have h7 := (h.1 7 (by decide)).1
    { head_addr := 0x101C0, head := List.replicate 32 0, data := 12, len := 0 } (by decide)
  refine ⟨by decide, by decide, by decide, by decide, h3.1, h3.2.trans (by decide), h9.1,
    h7.1, h7.2.trans (by decide), h.2.1.trans (by decide)⟩

/-! ## Backpressure (`ss_open`, `ss_tx`, `ss_tx_end`) -/

theorem slots_length_le (l : List Nat) (hnd : l.Nodup) (hlt : ∀ i ∈ l, i < NUM_TX_PENDINGS) :
    l.length ≤ NUM_TX_PENDINGS := by
  have hsub : l ⊆ List.range NUM_TX_PENDINGS := fun i hi => List.mem_range.mpr (hlt i hi)
  have := (List.subperm_of_subset hnd hsub).length_le
  rw [List.length_range] at this
  exact this

theorem chain_head_none (tbl : List pending) (head : Option Nat) (l : List Nat)
    (hc : is_chain tbl head l) (hh : head = none) : l = [] := by
  cases l with
  | nil => rfl
  | cons p l =>
    have : head = some p := hc.1
    rw [hh] at this
    exact Option.noConfusion this

theorem chain_head_some (tbl : List pending) (head : Option Nat) (l : List Nat) (p : Nat)
    (hc : is_chain tbl head l) (hh : head = some p) : ∃ l1, l = p :: l1 := by
  cases l with
  | nil =>
    have : head = none := hc
    rw [hh] at this
    exact Option.noConfusion this
  | cons q l =>
    have : head = some q := hc.1
    rw [hh] at this
    have e : p = q := Option.some.inj this
    exact ⟨l, by rw [e]⟩

theorem drv_inv_free_list (nd : net_device) (l : List Nat) (h : drv_inv nd l) :
    tx_free_list nd.priv = l := by
  obtain ⟨hc, hnd, hlt, _, _⟩ := h
  have := slots_length_le l hnd hlt
  exact free_list_of_chain _ _ _ _ hc (by unfold NUM_PENDINGS NUM_RX_PENDINGS; omega)

theorem refill_skb_pool (env : irq_env) (nd : net_device) (i : Nat) :
    (refill_skb env nd i).1.priv.pending_table = nd.priv.pending_table
    ∧ (refill_skb env nd i).1.priv.tx_pending_free_list = nd.priv.tx_pending_free_list
    ∧ (refill_skb env nd i).1.queue_stopped = nd.queue_stopped := by
  unfold refill_skb
  cases env.allocs with
  | nil => exact ⟨rfl, rfl, rfl⟩
  | cons a rest =>
    cases a with
    | none => exact ⟨rfl, rfl, rfl⟩
    | some skb => exact ⟨rfl, rfl, rfl⟩

theorem ss_open_loop_pool (n : Nat) (env : irq_env) (nd : net_device) :
    (ss_open_loop n env nd).1.priv.pending_table = nd.priv.pending_table
    ∧ (ss_open_loop n env nd).1.priv.tx_pending_free_list = nd.priv.tx_pending_free_list
    ∧ (ss_open_loop n env nd).1.queue_stopped = nd.queue_stopped := by
  induction n with
  | zero => exact ⟨rfl, rfl, rfl⟩
  | succ n ih =>
    rw [ss_open_loop]
    generalize ss_open_loop n env nd = r at *
    obtain ⟨a, b, c⟩ := ih
    obtain ⟨a1, b1, c1⟩ := refill_skb_pool r.2
      { r.1 with priv := { r.1.priv with
          skb_table_phys := r.1.priv.skb_table_phys.set n 0
          skb_table_virt := r.1.priv.skb_table_virt.set n none } } n
    exact ⟨a1.trans a, b1.trans b, c1.trans c⟩

theorem ss_open_pool (env : irq_env) (nd : net_device) :
    (ss_open env nd).2.1.priv.pending_table = nd.priv.pending_table
    ∧ (ss_open env nd).2.1.priv.tx_pending_free_list = nd.priv.tx_pending_free_list
    ∧ (ss_open env nd).2.1.queue_stopped = false
    ∧ (ss_open env nd).1 = 0 := by
  have h := ss_open_loop_pool NUM_SKBS env { nd with queue_stopped := false }
  have e : ss_open env nd
      = (0, (ss_open_loop NUM_SKBS env { nd with queue_stopped := false }).1,
          (ss_open_loop NUM_SKBS env { nd with queue_stopped := false }).2) := by
    unfold ss_open
    rfl
  rw [e]
  generalize ss_open_loop NUM_SKBS env { nd with queue_stopped := false } = r at *
  obtain ⟨a, b, c⟩ := h
  exact ⟨a, b, c, rfl⟩

theorem seastar_cmd_pool (env : fw_env) (ssp : ss_priv) (cmd : List Nat) (wait : Bool)
    (ret : Nat) (ssp1 : ss_priv) (env1 : fw_env)
    (h : seastar_cmd env ssp cmd wait = some (ret, ssp1, env1)) :
    ssp1.pending_table = ssp.pending_table
    ∧ ssp1.tx_pending_free_list = ssp.tx_pending_free_list := by
  unfold seastar_cmd at h
  dsimp only at h
  cases hw : wait_cmd_slot (if u32 (ssp.mailbox_cached_write + 1) = COMMAND_Q_LENGTH then 0
      else u32 (ssp.mailbox_cached_write + 1)) env.fw_reads ssp.mailbox.commandq_read
      ssp.mailbox_cached_read with
  | none =>
    rw [hw] at h
    exact absurd h (by intro e; cases e)
  | some t =>
    obtain ⟨c1, r1, rest⟩ := t
    rw [hw] at h
    dsimp only at h
    cases wait with
    | false =>
      rw [if_pos (by decide)] at h
      injection h with e
      injection e with e1 e2
      injection e2 with e2 e3
      subst e2
      exact ⟨rfl, rfl⟩
    | true =>
      rw [if_neg (by decide)] at h
      by_cases ht : ssp.mailbox.resultq_read ≠ ssp.mailbox.resultq_write
      · rw [if_pos ht] at h
        injection h with e
        injection e with e1 e2
        injection e2 with e2 e3
        subst e2
        exact ⟨rfl, rfl⟩
      · rw [if_neg ht] at h
        cases hv : env.fw_result with
        | none =>
          rw [hv] at h
          exact absurd h (by intro e; cases e)
        | some v =>
          rw [hv] at h
          dsimp only at h
          injection h with e
          injection e with e1 e2
          injection e2 with e2 e3
          subst e2
          exact ⟨rfl, rfl⟩

theorem ip_tx_cmd_some (env : fw_env) (stack_tail : List Nat) (ssp : ss_priv)
    (nid length address pending_index : Nat) (ssp1 : ss_priv) (env1 : fw_env)
    (h : seastar_ip_tx_cmd env stack_tail ssp nid length address pending_index
      = some (ssp1, env1)) :
    ssp1.pending_table = ssp.pending_table
    ∧ ssp1.tx_pending_free_list = ssp.tx_pending_free_list
    ∧ ∃ record, ssp1.mailbox.commandq = ssp.mailbox.commandq.set ssp.mailbox_cached_write record
        ∧ record.getD 0 0 = COMMAND_IP_TX := by
  unfold seastar_ip_tx_cmd at h
  dsimp only at h
  cases hc : seastar_cmd env ssp
      ((command_ip_tx_bytes COMMAND_IP_TX nid length address pending_index
        ++ stack_tail).take 64) false with
  | none =>
    rw [hc] at h
    exact absurd h (by intro e; cases e)
  | some t =>
    obtain ⟨ret, s, e⟩ := t
    rw [hc] at h
    dsimp only at h
    injection h with h
    injection h with h1 h2
    subst h1
    obtain ⟨p1, p2⟩ := seastar_cmd_pool _ _ _ _ _ _ _ hc
    obtain ⟨_, _, _, _, _, _, _, _, q5⟩ := seastar_cmd_cursors _ _ _ _ _ _ _ hc
    exact ⟨p1, p2, _, q5,
      (command_ip_tx_record COMMAND_IP_TX nid length address pending_index stack_tail).1⟩

theorem tx_submit_pool (env : tx_env) (nd : net_device) (S : ss_priv) (wire : sk_buff)
    (dest_nid msg p : Nat) (res : tx_result) (l1 : List Nat)
    (hq : nd.queue_stopped = false)
    (hc : is_chain S.pending_table S.tx_pending_free_list l1)
    (hnd : l1.Nodup) (hlt : ∀ i ∈ l1, i < NUM_TX_PENDINGS)
    (hlen : S.pending_table.length = NUM_PENDINGS)
    (hm : S.mailbox = nd.priv.mailbox) (hcw : S.mailbox_cached_write = nd.priv.mailbox_cached_write)
    (h : tx_submit env nd S wire dest_nid msg p = some res) :
    drv_inv res.netdev l1 ∧ res.ret = 0
    ∧ ∃ record, res.netdev.priv.mailbox.commandq
          = nd.priv.mailbox.commandq.set nd.priv.mailbox_cached_write record
        ∧ record.getD 0 0 = COMMAND_IP_TX := by
  obtain ⟨t1, _, t3, ssp1, env1, t4, t5⟩ := tx_submit_some _ _ _ _ _ _ _ _ h
  obtain ⟨u1, u2, record, u3, u4⟩ := ip_tx_cmd_some _ _ _ _ _ _ _ _ _ t4
  refine ⟨⟨?_, hnd, hlt, ?_, ?_⟩, t1, record, ?_, u4⟩
  · rw [t5, u1, u2]; exact hc
  · rw [t5, u1]; exact hlen
  · intro hs
    rw [t3, hq] at hs
    exact absurd hs (by decide)
  · rw [t5, u3, hm, hcw]

theorem ss_tx_pool (env : tx_env) (skb : sk_buff) (nd : net_device) (res : tx_result)
    (l : List Nat) (hinv : drv_inv nd l) (h : ss_tx env skb nd = some res) :
    (drv_inv res.netdev l ∧ res.netdev.priv.mailbox = nd.priv.mailbox)
    ∨ (∃ p l1 record, l = p :: l1 ∧ drv_inv res.netdev l1 ∧ res.ret = 0
        ∧ res.netdev.priv.mailbox.commandq
            = nd.priv.mailbox.commandq.set nd.priv.mailbox_cached_write record
        ∧ record.getD 0 0 = COMMAND_IP_TX) := by
  obtain ⟨hc, hnd, hlt, hlen, hstop⟩ := hinv
  by_cases hq : nd.queue_stopped = true
  · left
    unfold ss_tx at h
    dsimp only at h
    rw [hq] at h
    injection h with h
    subst h
    exact ⟨⟨hc, hnd, hlt, hlen, hstop⟩, rfl⟩
  have hq' : nd.queue_stopped = false := by
    cases hb : nd.queue_stopped with
    | true => exact absurd hb hq
    | false => rfl
  unfold ss_tx at h
  dsimp only at h
  rw [hq'] at h
  cases he : eth2ss skb with
  | none =>
    rw [he] at h
    exact absurd h (by intro e; cases e)
  | some t =>
    obtain ⟨rv, skb1⟩ := t
    rw [he] at h
    dsimp only at h
    by_cases hr : rv ≠ 0
    · left
      rw [if_neg (by decide), if_pos hr] at h
      injection h with h
      subst h
      exact ⟨⟨hc, hnd, hlt, hlen, fun hs => absurd (show false = true from hs) (by decide)⟩, rfl⟩
    · rw [if_neg (by decide), if_neg hr] at h
      cases hh : nd.priv.tx_pending_free_list with
      | none =>
        left
        rw [alloc_of_empty _ hh] at h
        dsimp only at h
        injection h with h
        subst h
        have hl : l = [] := chain_head_none _ _ _ hc hh
        exact ⟨⟨hc, hnd, hlt, hlen, fun _ => hl⟩, rfl⟩
      | some p =>
        obtain ⟨l1, hl⟩ := chain_head_some _ _ _ p hc hh
        subst hl
        have hpl : p ∉ l1 := (List.nodup_cons.mp hnd).1
        have hnd1 : l1.Nodup := (List.nodup_cons.mp hnd).2
        have hlt1 : ∀ i ∈ l1, i < NUM_TX_PENDINGS := fun i hi => hlt i (List.mem_cons_of_mem _ hi)
        have hp : p < nd.priv.pending_table.length := by
          have := hlt p (List.mem_cons_self _ _)
          rw [hlen]
          unfold NUM_PENDINGS NUM_RX_PENDINGS
          unfold NUM_TX_PENDINGS at this
          omega
        have ha : alloc_tx_pending nd.priv = (some p, (alloc_tx_pending nd.priv).2) :=
          Prod.ext (alloc_tx_pending_some nd.priv p hh).1 rfl
        rw [ha] at h
        dsimp only at h
        by_cases hal : (skb1.head_addr + skb1.data) &&& 0x3 = 0
        · right
          rw [if_pos hal] at h
          obtain ⟨s1, _, _, s4, m1, _, m3⟩ := tx_slot_state nd.priv p l1 skb1 none hc hpl hp
          obtain ⟨a1, a2, a3⟩ := tx_submit_pool env nd _ skb1 _ _ p res l1 hq' s1 hnd1 hlt1
            (s4.trans hlen) m1 m3 h
          exact ⟨p, l1, a3.choose, rfl, a1, a2, a3.choose_spec⟩
        · rw [if_neg hal] at h
          cases hk : env.kmalloc with
          | none =>
            left
            rw [hk] at h
            dsimp only at h
            injection h with h
            subst h
            obtain ⟨s1, _, _, s4, m1, _, _⟩ := tx_slot_state nd.priv p l1 skb1 none hc hpl hp
            obtain ⟨f1, f2⟩ := free_of_chain _ p l1 s1 hpl (by rw [s4]; exact hp)
            refine ⟨⟨f1, hnd, hlt, ?_, ?_⟩, ?_⟩
            · exact f2.trans (s4.trans hlen)
            · intro hs
              exact absurd (show false = true from hs) (by decide)
            · exact m1
          | some addr =>
            right
            rw [hk] at h
            dsimp only at h
            obtain ⟨s1, _, _, s4, m1, _, m3⟩ := tx_slot_state nd.priv p l1 skb1
              (some { addr := addr, bytes := frame_bytes skb1 }) hc hpl hp
            obtain ⟨a1, a2, a3⟩ := tx_submit_pool env nd _ skb1 _ _ p res l1 hq' s1 hnd1 hlt1
              (s4.trans hlen) m1 m3 h
            exact ⟨p, l1, a3.choose, rfl, a1, a2, a3.choose_spec⟩

theorem drv_inv_of_probed (nd : net_device) (h : drv_probed nd) :
    drv_inv nd (List.range NUM_TX_PENDINGS).reverse := by
  obtain ⟨h1, h2, h3⟩ := h
  refine ⟨h3, List.nodup_reverse.mpr (List.nodup_range _), ?_, h2, ?_⟩
  · intro i hi
    exact List.mem_range.mp (List.mem_reverse.mp hi)
  · intro hs
    rw [h1] at hs
    exact absurd hs (by decide)

theorem drv_inv_step (nd nd1 : net_device) (l : List Nat) (op : drv_op)
    (hinv : drv_inv nd l) (h : drv_step nd op = some nd1) : ∃ l1, drv_inv nd1 l1 := by
  cases op with
  | call_open env =>
    rw [drv_step] at h
    injection h with h
    subst h
    obtain ⟨a, b, c, _⟩ := ss_open_pool env nd
    obtain ⟨hc, hnd, hlt, hlen, _⟩ := hinv
    refine ⟨l, ?_, hnd, hlt, ?_, ?_⟩
    · rw [a, b]; exact hc
    · rw [a]; exact hlen
    · intro hs
      rw [c] at hs
      exact absurd hs (by decide)
  | call_tx env skb =>
    rw [drv_step] at h
    cases hr : ss_tx env skb nd with
    | none =>
      rw [hr] at h
      exact absurd h (by intro e; cases e)
    | some res =>
      rw [hr] at h
      injection h with h
      subst h
      rcases ss_tx_pool env skb nd res l hinv hr with ⟨a, _⟩ | ⟨p, l1, record, _, a, _⟩
      · exact ⟨l, a⟩
      · exact ⟨l1, a⟩
  | event_tx_end i =>
    rw [drv_step] at h
    by_cases g : i < NUM_TX_PENDINGS ∧ i ∉ tx_free_list nd.priv
    · rw [if_pos g] at h
      have hfl := drv_inv_free_list nd l hinv
      obtain ⟨hc, hnd, hlt, hlen, _⟩ := hinv
      have hi : i < NUM_PENDINGS := by
        have := g.1
        unfold NUM_PENDINGS NUM_RX_PENDINGS
        unfold NUM_TX_PENDINGS at this
        omega
      have hil : i ∉ l := by rw [← hfl]; exact g.2
      rw [ss_tx_end_eq nd i hi] at h
      injection h with h
      subst h
      obtain ⟨f1, f2⟩ := free_of_chain nd.priv i l hc hil (by rw [hlen]; exact hi)
      refine ⟨i :: l, f1, List.nodup_cons.mpr ⟨hil, hnd⟩, ?_, f2.trans hlen, ?_⟩
      · intro j hj
        rcases List.mem_cons.mp hj with e | e
        · rw [e]; exact g.1
        · exact hlt j e
      · intro hs
        exact absurd (show false = true from hs) (by decide)
    · rw [if_neg g] at h
      exact absurd h (by intro e; cases e)

theorem drv_inv_exec (ops : List drv_op) :
    ∀ (nd0 nd : net_device) (l : List Nat), drv_inv nd0 l → drv_exec nd0 ops = some nd →
      ∃ l1, drv_inv nd l1 := by
  induction ops with
  | nil =>
    intro nd0 nd l hinv h
    rw [drv_exec] at h
    injection h with h
    subst h
    exact ⟨l, hinv⟩
  | cons op ops ih =>
    intro nd0 nd l hinv h
    rw [drv_exec] at h
    cases hs : drv_step nd0 op with
    | none =>
      rw [hs] at h
      exact absurd h (by intro e; cases e)
    | some nd1 =>
      rw [hs] at h
      dsimp only at h
      obtain ⟨l1, h1⟩ := drv_inv_step nd0 nd1 l op hinv hs
      exact ih nd1 nd l1 h1 h

/-- C24: in every state reached from the state `ss_probe` leaves (queue not
stopped, the 64 transmit slots on the free list) by calls of `ss_open` and
`ss_tx` and by TransmitComplete events for allocated slots, a stopped
transmit queue means an empty free list: the queue is never stopped while a
slot is free.  The free list holds distinct transmit slots.  A returning
`ss_tx` either leaves free list and command ring as they were, or it returns
0 having taken the head slot off the free list and written one
TransmitDatagram record (opcode 13) into the ring slot at the write cursor. -/
theorem tx_backpressure (nd0 : net_device) (ops : List drv_op) (nd : net_device)
    (h0 : drv_probed nd0) (hrun : drv_exec nd0 ops = some nd) :
    (nd.queue_stopped = true →
      tx_free_list nd.priv = [] ∧ nd.priv.tx_pending_free_list = none)
    ∧ (tx_free_list nd.priv ≠ [] → nd.queue_stopped = false)
    ∧ (tx_free_list nd.priv).Nodup
    ∧ (∀ i ∈ tx_free_list nd.priv, i < NUM_TX_PENDINGS)
    ∧ ∀ (env : tx_env) (skb : sk_buff) (res : tx_result), ss_tx env skb nd = some res →
        (tx_free_list res.netdev.priv = tx_free_list nd.priv
          ∧ res.netdev.priv.mailbox = nd.priv.mailbox)
        ∨ (∃ p record, tx_free_list nd.priv = p :: tx_free_list res.netdev.priv
            ∧ res.ret = 0
            ∧ res.netdev.priv.mailbox.commandq
                = nd.priv.mailbox.commandq.set nd.priv.mailbox_cached_write record
            ∧ record.getD 0 0 = COMMAND_IP_TX) := by
  obtain ⟨l, hinv⟩ := drv_inv_exec ops nd0 nd _ (drv_inv_of_probed nd0 h0) hrun
  have hfl := drv_inv_free_list nd l hinv
  rw [hfl]
  refine ⟨?_, ?_, hinv.2.1, hinv.2.2.1, ?_⟩
  · intro hs
    have hl := hinv.2.2.2.2 hs
    subst hl
    exact ⟨rfl, hinv.1⟩
  · intro hne
    cases hb : nd.queue_stopped with
    | false => rfl
    | true => exact absurd (hinv.2.2.2.2 hb) hne
  · intro env skb res hres
    rcases ss_tx_pool env skb nd res l hinv hres with ⟨a, b⟩ | ⟨p, l1, record, e, a, b, c, d⟩
    · left
      exact ⟨drv_inv_free_list _ l a, b⟩
    · right
      refine ⟨p, record, ?_, b, c, d⟩
      rw [drv_inv_free_list _ l1 a]
      exact e

set_option maxRecDepth 1000000 in
theorem tx_backpressure_witness :
    drv_probed netdev_ok
    ∧ ∃ nd, drv_exec netdev_ok drv_ops_full = some nd
      ∧ nd.queue_stopped = true
      ∧ tx_free_list nd.priv = []
      ∧ nd.priv.tx_pending_free_list = none := by
  have hs : (drv_exec netdev_ok drv_ops_full).map (fun nd => nd.queue_stopped) = some true := by
    decide
  cases h : drv_exec netdev_ok drv_ops_full with
  | none =>
    rw [h] at hs
    exact absurd hs (by intro e; cases e)
  | some nd =>
    rw [h] at hs
    have hq : nd.queue_stopped = true := Option.some.inj hs
    obtain ⟨a, _⟩ := tx_backpressure netdev_ok drv_ops_full nd (by decide) h
    exact ⟨by decide, nd, rfl, hq, (a hq).1, (a hq).2⟩

end SeaStar
